import Mathlib

/-!
Verification of the paxos repository (basic Paxos and Multi-Paxos simulator).

The development shallowly embeds the Python sources:
  * `src/paxos/base_classes.py`   — data classes, messengers, agent lifecycle
  * `src/paxos/basic_protocol.py` — single-decree Paxos agents and assembly
  * `src/paxos/multi_paxos.py`    — vectorized Multi-Paxos agents and assembly

Python `int` values (agent ids, ballot ids) are embedded as `Int`.
Python `None` becomes `Option.none`.  Python `dict`s keyed by agent id become
association lists.  Sets of agents (quorums, voters) are embedded as `Finset Int`
of agent ids: agent objects are compared by identity in Python and every agent
carries a process-unique id, so ids are faithful keys.
-/

namespace Paxos

/-- Proposal (base_classes.py): `@dataclass class Proposal: value: Any`.
In the simulator the payload is either `None` (placeholder decree of a fresh
ballot) or a proposer id (`make_proposal` returns `Proposal(self.id)`), so the
payload is embedded as `Option Int`.  Dataclass equality is value equality. -/
structure Proposal where
  value : Option Int
deriving DecidableEq

/-- BallotNumber (base_classes.py): `@dataclass(order=True)` with fields
`ballot_id : int` and `agent_id : int`; ordered lexicographically on
`(ballot_id, agent_id)` by the dataclass order. -/
structure BallotNumber where
  ballot_id : Int
  agent_id : Int
deriving DecidableEq

/-- Strict comparison of ballot numbers: the order generated by
`@dataclass(order=True)`, i.e. lexicographic on `(ballot_id, agent_id)`. -/
def bnLt (x y : BallotNumber) : Bool :=
  decide (x.ballot_id < y.ballot_id ∨ (x.ballot_id = y.ballot_id ∧ x.agent_id < y.agent_id))

/-- Non-strict counterpart of `bnLt`. -/
def bnLe (x y : BallotNumber) : Bool :=
  bnLt x y || decide (x = y)

/-- Ballot (base_classes.py): number, decree, quorum and voters.  The two agent
sets are embedded as finsets of agent ids. -/
structure Ballot where
  number : BallotNumber
  decree : Proposal
  quorum : Finset Int
  voters : Finset Int
deriving DecidableEq

/-- Successful ballot (base_classes.py `Ballot.successful`):
`self.quorum.issubset(self.voters)`. -/
def Ballot.successful (b : Ballot) : Prop := b.quorum ⊆ b.voters

instance (b : Ballot) : Decidable b.successful := by
  unfold Ballot.successful; infer_instance

/-- Vote (base_classes.py): the ballot voted for and the voting acceptor
(embedded by id). -/
structure Vote where
  ballot : Ballot
  acceptor : Int
deriving DecidableEq

/-- Message (base_classes.py): the `Message` dataclass is a tagged record whose
optional payload fields are populated according to `MessageType`.  Each
constructor below carries exactly the fields the source populates for that
type; `author_id` is always present.  `Success` messages carry `ballot_number`
only in Multi-Paxos (`none` in the basic protocol), mirroring the two call
sites. -/
inductive Message where
  | nextBallot (author_id : Int) (ballot_number : BallotNumber)
  | lastVote (author_id : Int) (ballot_number : BallotNumber) (last_vote : Option Vote)
  | beginBallot (author_id : Int) (ballot : Ballot) (decree : Proposal)
  | voted (author_id : Int) (vote : Vote)
  | success (author_id : Int) (decree : Proposal) (ballot_number : Option BallotNumber)
deriving DecidableEq

/-! ### Messenger embedding (base_classes.py)

Python `dict`s (`delivered`, `to_deliver`) are embedded as association lists
from agent id to mailbox.  `dict[k]` on a missing key raises `KeyError`;
fallible reads are embedded with `Except Unit`. -/

/-- Python dict read `d[k]` (as an `Option`: `none` is the missing-key case,
which at the call sites below either raises `KeyError` or is tested by
`k in d`). -/
def dictGet : List (Int × List Message) → Int → Option (List Message)
  | [], _ => none
  | (k', v) :: d, k => if k' = k then some v else dictGet d k

/-- Python dict assignment `d[k] = v`: replace the binding when the key is
present (dict keys are unique), otherwise append it. -/
def dictInsert : List (Int × List Message) → Int → List Message →
    List (Int × List Message)
  | [], k, v => [(k, v)]
  | (k', w) :: d, k, v =>
      if k' = k then (k, v) :: d else (k', w) :: dictInsert d k v

/-- ReliableMessenger (base_classes.py): holds only the `delivered` mailboxes. -/
structure ReliableMessenger where
  delivered : List (Int × List Message)
deriving DecidableEq

/-- ReliableMessenger constructor: `self.delivered = dict()`. -/
def ReliableMessenger.init : ReliableMessenger := ⟨[]⟩

/-- ReliableMessenger.register: `self.delivered[agent_id] = []`. -/
def ReliableMessenger.register (m : ReliableMessenger) (agent_id : Int) :
    ReliableMessenger :=
  ⟨dictInsert m.delivered agent_id []⟩

/-- ReliableMessenger.send_message: append when the destination is registered,
silently drop otherwise (`if dest_id in self.delivered`). -/
def ReliableMessenger.send_message (m : ReliableMessenger) (dest_id : Int)
    (message : Message) : ReliableMessenger :=
  match dictGet m.delivered dest_id with
  | none => m
  | some box => ⟨dictInsert m.delivered dest_id (box ++ [message])⟩

/-- ReliableMessenger.get_message: `self.delivered[dest_id]` raises `KeyError`
for an unregistered id (embedded as `Except.error ()`); otherwise pop the
first message, or return `None` when the mailbox is empty. -/
def ReliableMessenger.get_message (m : ReliableMessenger) (dest_id : Int) :
    Except Unit (Option Message × ReliableMessenger) :=
  match dictGet m.delivered dest_id with
  | none => .error ()
  | some [] => .ok (none, m)
  | some (msg :: rest) => .ok (some msg, ⟨dictInsert m.delivered dest_id rest⟩)

/-- UnreliableMessenger (base_classes.py): `delivered` and `to_deliver`
mailboxes (the float knobs `failure_rate`/`max_delay` only steer the random
drop/delay draws and play no role in the state transitions embedded here). -/
structure UnreliableMessenger where
  delivered : List (Int × List Message)
  to_deliver : List (Int × List Message)
deriving DecidableEq

/-- UnreliableMessenger.register: `to_deliver[agent_id] = []` and
`delivered[agent_id] = []`. -/
def UnreliableMessenger.register (m : UnreliableMessenger) (agent_id : Int) :
    UnreliableMessenger :=
  ⟨dictInsert m.delivered agent_id [], dictInsert m.to_deliver agent_id []⟩

/-- UnreliableMessenger.get_message: identical to the reliable variant, again
indexing `self.delivered[dest_id]` unconditionally (`KeyError` when the id was
never registered). -/
def UnreliableMessenger.get_message (m : UnreliableMessenger) (dest_id : Int) :
    Except Unit (Option Message × UnreliableMessenger) :=
  match dictGet m.delivered dest_id with
  | none => .error ()
  | some [] => .ok (none, m)
  | some (msg :: rest) =>
      .ok (some msg, ⟨dictInsert m.delivered dest_id rest, m.to_deliver⟩)

/-! ### Agent crash-restart frame (base_classes.py `Agent.start`,
basic_protocol.py / multi_paxos.py `Proposer.start`)

Both `start` loops have the shape

    register; loop { poll/process; [initiate]; maybe crash: sleep; break };
    if not event.is_set(): self.start(event)

A crash therefore re-enters `start`, whose only state effect is
`self.messenger.register(self.id)`, which resets the agent's mailbox
(`delivered[id] = []`).  No instance attribute of the agent is reassigned:
`next_ballot`, `last_vote`, `last_tried`, `responses` and `ledger` are set only
in `__init__` and in the message handlers.  `restartAgent` captures the state
effect of one crash-restart on an agent with protocol state `St`, the agent's
`ledger` attribute, and its messenger-side mailbox. -/

structure AgentRunState (St L : Type) where
  st : St
  ledger : L
  mailbox : List Message
deriving DecidableEq

/-- Crash-restart of an agent as implemented: sleep (no state effect), then
re-enter `start`, which re-registers the agent — clearing its mailbox — and
resumes the loop with every instance attribute untouched. -/
def restartAgent {St L : Type} (s : AgentRunState St L) : AgentRunState St L :=
  { s with mailbox := [] }

/-! ### Acceptor and proposer protocol state (basic_protocol.py) -/

/-- Per-acceptor state (basic_protocol.py `Acceptor.__init__`):
`last_vote : Optional[Vote]`, `next_ballot : Optional[BallotNumber]`. -/
structure AcceptorState where
  last_vote : Option Vote
  next_ballot : Option BallotNumber
deriving DecidableEq

/-- Initial acceptor state: both fields `None`. -/
def AcceptorState.init : AcceptorState := ⟨none, none⟩

/-- Per-proposer state (basic_protocol.py `Proposer.__init__`):
`last_tried : Optional[Ballot]`, `responses : List[Optional[Vote]]`. -/
structure ProposerState where
  last_tried : Option Ballot
  responses : List (Option Vote)
deriving DecidableEq

/-- Initial proposer state: no ballot tried, no responses. -/
def ProposerState.init : ProposerState := ⟨none, []⟩

/-! ### Ballot number generation (basic_protocol.py / multi_paxos.py
`Proposer.initiate_new_ballot`) -/

/-- Ballot number chosen by the basic proposer (basic_protocol.py lines 92-95):
`BallotNumber(0, self.id)` for the first ballot, else
`BallotNumber(self.last_tried.number.ballot_id + 1, self.id)`. -/
def basicNewBallotNumber (self_id : Int) (last_tried : Option Ballot) :
    BallotNumber :=
  match last_tried with
  | none => ⟨0, self_id⟩
  | some b => ⟨b.number.ballot_id + 1, self_id⟩

/-- Ballot number chosen by the Multi-Paxos proposer for instance `idx`
(multi_paxos.py lines 115-118): `BallotNumber(idx, self.id)` for the first
ballot of the instance, else
`BallotNumber(last_tried[idx].number.ballot_id + nb_instances, self.id)`. -/
def multiNewBallotNumber (nb_instances self_id idx : Int)
    (last_tried_idx : Option Ballot) : BallotNumber :=
  match last_tried_idx with
  | none => ⟨idx, self_id⟩
  | some b => ⟨b.number.ballot_id + nb_instances, self_id⟩

/-- Ballot value created by `initiate_new_ballot`:
`Ballot(b, Proposal(None), quorum, set())`. -/
def freshBallot (bn : BallotNumber) (quorum : Finset Int) : Ballot :=
  ⟨bn, ⟨none⟩, quorum, ∅⟩

/-- Sequence of ballot numbers a Multi-Paxos proposer `self_id` creates on
instance `idx` across successive `initiate_new_ballot` calls, obtained by
iterating the source's generation rule (the rule reads only the number of the
previous ballot). -/
def multiBallotSeq (nb_instances self_id idx : Int) : Nat → BallotNumber
  | 0 => multiNewBallotNumber nb_instances self_id idx none
  | k + 1 =>
      multiNewBallotNumber nb_instances self_id idx
        (some (freshBallot (multiBallotSeq nb_instances self_id idx k) ∅))

/-- Sequence of ballot numbers a basic proposer creates, iterating
`basicNewBallotNumber`. -/
def basicBallotSeq (self_id : Int) : Nat → BallotNumber
  | 0 => basicNewBallotNumber self_id none
  | k + 1 => basicNewBallotNumber self_id (some (freshBallot (basicBallotSeq self_id k) ∅))

/-! ### Assembly.start return value (basic_protocol.py lines 192-194,
multi_paxos.py lines 232-238) -/

/-- Iterated first-occurrence deduplication, i.e. the Multi-Paxos loop

    for agent in self.agents:
        if agent.ledger not in ledgers_unique: ledgers_unique.append(agent.ledger)

and, up to element order (irrelevant to the size-1 assertion and the
singleton `pop`), the basic protocol's `set(...)` comprehension. -/
def uniqList {α : Type} [DecidableEq α] (l : List α) : List α :=
  l.foldl (fun acc x => if x ∈ acc then acc else acc ++ [x]) []

/-- Return value of `Assembly.start`, distinguishing the dynamic shapes a
caller can observe: a bare decree payload, a `Proposal` object, or a vector of
decrees. -/
inductive StartResult where
  | value (v : Option Int)
  | proposal (p : Proposal)
  | vector (l : List Proposal)
deriving DecidableEq

/-- Test whether a `StartResult` is a `Proposal` object. -/
def StartResult.isProposal : StartResult → Bool
  | .proposal _ => true
  | _ => false

/-- Final collection step of basic `Assembly.start` (lines 192-194):
`ledgers = set(agent.ledger.value for agent in self.agents)`, assert the set
is a singleton, and return its element via `pop()`.  The assertion failure
path is embedded as `none`.  Note the comprehension extracts `.value`, so the
returned object is the decree payload, not the `Proposal`. -/
def basicStartReturn (ledgers : List Proposal) : Option StartResult :=
  match uniqList (ledgers.map Proposal.value) with
  | [v] => some (StartResult.value v)
  | _ => none

/-- Final collection step of Multi-Paxos `Assembly.start` (lines 232-238):
deduplicate the agents' ledger vectors, assert uniqueness, and return the
unique vector via `pop()` (each entry of the vector is the decree stored by
`on_success`, i.e. a `Proposal`). -/
def multiStartReturn (ledgers : List (List Proposal)) : Option StartResult :=
  match uniqList ledgers with
  | [l] => some (StartResult.vector l)
  | _ => none

/-! ### Assembly constructors (basic_protocol.py lines 155-167,
multi_paxos.py lines 192-206)

The failure-rate knobs are Python floats that are merely stored and forwarded,
never computed with; they are embedded opaquely by a type parameter `R`.
`timedelta` periods are embedded as a count of seconds. -/

/-- Configuration a constructed `Proposer` object holds: its failure rate and
its ballot-initiation period in seconds (`Proposer.__init__` default:
`timedelta(seconds=60)`). -/
structure ProposerObj (R : Type) where
  failure_rate : R
  period_s : Int
deriving DecidableEq

/-- Configuration a constructed `Acceptor` object holds. -/
structure AcceptorObj (R : Type) where
  failure_rate : R
deriving DecidableEq

/-- Result of the basic `Assembly.__init__` (lines 155-167).  Its parameter
list is exactly the source's: `n_proposers`, `n_acceptors`, `messenger`,
`proposer_fail_rate`, `acceptor_fail_rate` — there is no `period_proposer`
parameter, so every proposer is built with the default 60-second period. -/
structure BasicAssembly (R : Type) where
  messenger : Nat
  proposers : List (ProposerObj R)
  acceptors : List (AcceptorObj R)
deriving DecidableEq

/-- Basic `Assembly.__init__`: `Proposer(self.messenger, self,
failure_rate=proposer_fail_rate)` for each proposer (no `period` argument) and
`Acceptor(self.messenger, self, failure_rate=acceptor_fail_rate)` for each
acceptor.  The messenger argument is embedded as a reference (see
`assemblyNewMessengerRef` for the defaulting rule). -/
def basicAssemblyInit {R : Type} (n_proposers n_acceptors : Nat)
    (messenger : Nat) (proposer_fail_rate acceptor_fail_rate : R) :
    BasicAssembly R :=
  { messenger := messenger
    proposers := List.replicate n_proposers ⟨proposer_fail_rate, 60⟩
    acceptors := List.replicate n_acceptors ⟨acceptor_fail_rate⟩ }

/-- Result of the Multi-Paxos `Assembly.__init__` (lines 192-206), whose
parameter list adds `nb_instances` and `period_proposer`. -/
structure MultiAssembly (R : Type) where
  nb_instances : Nat
  messenger : Nat
  proposers : List (ProposerObj R)
  acceptors : List (AcceptorObj R)
deriving DecidableEq

/-- Multi-Paxos `Assembly.__init__`: `Proposer(self.messenger, self,
failure_rate=proposer_fail_rate, period=period_proposer)` — the
`period_proposer` argument is forwarded to every proposer. -/
def multiAssemblyInit {R : Type} (n_proposers n_acceptors nb_instances : Nat)
    (messenger : Nat) (proposer_fail_rate acceptor_fail_rate : R)
    (period_proposer_s : Int) : MultiAssembly R :=
  { nb_instances := nb_instances
    messenger := messenger
    proposers := List.replicate n_proposers ⟨proposer_fail_rate, period_proposer_s⟩
    acceptors := List.replicate n_acceptors ⟨acceptor_fail_rate⟩ }

/-! ### Default messenger argument (basic_protocol.py line 159,
multi_paxos.py line 197)

Both constructors declare `messenger: Messenger = ReliableMessenger()`.
Python evaluates a default argument expression once, when the enclosing `def`
is elaborated, and reuses the resulting object for every later call that omits
the argument.  The embedding makes object identity explicit through a heap of
messenger states and references (indices) into it: elaborating the module
allocates the single default `ReliableMessenger`; each `Assembly(...)` call
either uses the caller's messenger reference or that shared default
reference. -/

/-- Heap of messenger objects plus the reference to the module-level default
messenger created when `Assembly.__init__`'s default argument was evaluated. -/
structure ModuleEnv where
  heap : List ReliableMessenger
  default_messenger : Nat
deriving DecidableEq

/-- Module elaboration: the one `ReliableMessenger()` default object is
allocated. -/
def moduleEnvInit : ModuleEnv := ⟨[ReliableMessenger.init], 0⟩

/-- Messenger reference stored by a newly constructed Assembly
(`self.messenger = messenger`): the explicit argument if given, otherwise the
shared default object.  Construction allocates no messenger of its own, and
the same reference is handed to every `Proposer`/`Acceptor` the constructor
creates (`Proposer(self.messenger, ...)`). -/
def assemblyNewMessengerRef (env : ModuleEnv) (messenger : Option Nat) : Nat :=
  messenger.getD env.default_messenger

/-- Mutation of the heap cell `ref` by an agent registration performed through
that reference (`self.messenger.register(self.id)` in `Agent.start`). -/
def heapRegister : List ReliableMessenger → Nat → Int → List ReliableMessenger
  | [], _, _ => []
  | m :: h, 0, agent_id => m.register agent_id :: h
  | m :: h, r + 1, agent_id => m :: heapRegister h r agent_id

/-! ### Basic protocol handlers and global transition system
(basic_protocol.py)

The global state carries the protocol state of every agent, every agent's
`ledger`, and the multiset of sent-but-unprocessed messages (`net`, tagged
with their destination id).  The `net` abstraction is a sound superset of
both messengers' behaviours: a pending message may be processed by its
destination in any order (the `UnreliableMessenger` pump delivers with
arbitrary relative delays) or silently disappear (an `UnreliableMessenger`
send-time drop, or the mailbox clearing performed by a crash-restart's
re-registration — restart has no other state effect, see `restartAgent`);
messages are never duplicated, matching both messengers' at-most-once
delivery.  Proving safety over this larger behaviour set covers every
behaviour of the source.

The `h`-prefixed fields and `gResp` are history (ghost) variables: they
record protocol events and are written exactly where the corresponding
source events happen, are never read by any handler, and exist only to state
invariants.
  * `hStarted`:   (number, quorum) of every ballot created by
                  `initiate_new_ballot`;
  * `hBegun`:     (number, decree) of every `BeginBallot` emission;
  * `hVotes`:     (acceptor, number, decree) of every vote cast by
                  `on_beginballot`;
  * `hResponded`: (acceptor, ballot_number, reported last vote) of every
                  `LastVote` reply sent by `on_nextballot`;
  * `gResp`:      the proposer's `responses` list with each entry's author
                  attached. -/

/-- Projection of an optional `Vote` to the (number, decree) data the
invariants track. -/
def voteProj : Option Vote → Option (BallotNumber × Proposal)
  | none => none
  | some v => some (v.ballot.number, v.ballot.decree)

/-- Guard of `on_nextballot`:
`self.next_ballot is None or message.ballot_number > self.next_ballot`. -/
def nbLtOpt (o : Option BallotNumber) (bn : BallotNumber) : Bool :=
  match o with
  | none => true
  | some nb => bnLt nb bn

/-- Python `max(ballot_numbers)` followed by
`[b for b in ballots if b.number == max_number][0]`: the first ballot in the
list whose number is maximal.  The fold keeps the current candidate unless a
strictly greater number appears, which is exactly the first-maximal
element. -/
def maxBallot (l : List Ballot) : Option Ballot :=
  l.foldl
    (fun acc b =>
      match acc with
      | none => some b
      | some c => if bnLt c.number b.number then some b else some c)
    none

/-- Global state of a run of the basic protocol. -/
structure GStateB where
  prop : Int → ProposerState
  acc : Int → AcceptorState
  ledger : Int → Option Proposal
  net : Multiset (Int × Message)
  hStarted : Finset (BallotNumber × Finset Int)
  hBegun : Finset (BallotNumber × Proposal)
  hVotes : Finset (Int × BallotNumber × Proposal)
  hResponded : Finset (Int × BallotNumber × Option (BallotNumber × Proposal))
  gResp : Int → List (Int × Option Vote)

/-- Initial global state: every agent in its `__init__` state, nothing sent. -/
def initGB : GStateB :=
  { prop := fun _ => ProposerState.init
    acc := fun _ => AcceptorState.init
    ledger := fun _ => none
    net := 0
    hStarted := ∅
    hBegun := ∅
    hVotes := ∅
    hResponded := ∅
    gResp := fun _ => [] }

/-- Proposer.initiate_new_ballot (basic_protocol.py lines 91-107) by proposer
`p` with the randomly drawn quorum `q`: pick the new ballot number, install the
fresh ballot as `last_tried` with an empty `responses` list, and send
`NextBallot` to every quorum member. -/
def initiateB (p : Int) (q : Finset Int) (s : GStateB) : GStateB :=
  let bn := basicNewBallotNumber p (s.prop p).last_tried
  let B := freshBallot bn q
  { s with
    prop := fun x => if x = p then ⟨some B, []⟩ else s.prop x
    net := s.net + q.val.map (fun a => (a, Message.nextBallot p bn))
    hStarted := insert (bn, q) s.hStarted
    gResp := fun x => if x = p then [] else s.gResp x }

/-- Decree selection of `on_lastvote` (basic_protocol.py lines 60-67):
collect the ballots of the non-null responses, take the first one whose
number is maximal and reuse its decree; if every response was null, make a
fresh proposal `Proposal(self.id)`. -/
def chooseDecree (p : Int) (rs : List (Option Vote)) : Proposal :=
  match maxBallot ((rs.filterMap id).map Vote.ballot) with
  | some mb => mb.decree
  | none => Proposal.mk (some p)

/-- Proposer.on_lastvote (basic_protocol.py lines 54-77) at proposer `p`,
receiving `LastVote{ballot_number := bn, last_vote := lv}` authored by `au`.
When `last_tried` is `None` the source would raise `AttributeError`
(`None.number`); that situation is unreachable (a `LastVote` only answers the
proposer's own `NextBallot`) and is embedded as a no-op. -/
def onLastVoteB (p au : Int) (bn : BallotNumber) (lv : Option Vote)
    (s : GStateB) : GStateB :=
  match (s.prop p).last_tried with
  | none => s
  | some B =>
      if bn = B.number then
        let rs := (s.prop p).responses ++ [lv]
        let gh := s.gResp p ++ [(au, lv)]
        if rs.length = B.quorum.card then
          let newDecree := chooseDecree p rs
          let B' : Ballot := { B with decree := newDecree }
          { s with
            prop := fun x => if x = p then ⟨some B', rs⟩ else s.prop x
            gResp := fun x => if x = p then gh else s.gResp x
            net := s.net +
              B.quorum.val.map (fun a => (a, Message.beginBallot p B' newDecree))
            hBegun := insert (B.number, newDecree) s.hBegun }
        else
          { s with
            prop := fun x => if x = p then ⟨some B, rs⟩ else s.prop x
            gResp := fun x => if x = p then gh else s.gResp x }
      else s

/-- Proposer.on_voted (basic_protocol.py lines 79-89) at proposer `p`: when
the vote concerns the current ballot, add the voter; if the ballot becomes
successful, broadcast `Success` (with no ballot number — basic flavor) to all
assembly agents.  `last_tried = None` would again be a source-level
`AttributeError` on an unreachable path, embedded as a no-op. -/
def onVotedB (props accs : Finset Int) (p : Int) (v : Vote) (s : GStateB) :
    GStateB :=
  match (s.prop p).last_tried with
  | none => s
  | some B =>
      if v.ballot.number = B.number then
        let B' : Ballot := { B with voters := insert v.acceptor B.voters }
        let out : Multiset (Int × Message) :=
          if B'.quorum ⊆ B'.voters then
            (props ∪ accs).val.map (fun x => (x, Message.success p B'.decree none))
          else 0
        { s with
          prop := fun x => if x = p then ⟨some B', (s.prop p).responses⟩ else s.prop x
          net := s.net + out }
      else s

/-- Proposer.process_message (basic_protocol.py lines 45-52): dispatch on the
message type; `NextBallot`/`BeginBallot` messages are ignored by proposers.
`Success` runs the inherited `Agent.on_success`, which stores the decree in
the ledger. -/
def propRecvB (props accs : Finset Int) (p : Int) (m : Message) (s : GStateB) :
    GStateB :=
  match m with
  | .lastVote au bn lv => onLastVoteB p au bn lv s
  | .voted _au v => onVotedB props accs p v s
  | .success _au d _obn =>
      { s with ledger := fun x => if x = p then some d else s.ledger x }
  | _ => s

/-- Acceptor.on_nextballot (basic_protocol.py lines 135-144) at acceptor `a`:
if the ballot number is a new maximum, promise it and reply `LastVote` with
the current `last_vote` to the message's author. -/
def onNextBallotB (a au : Int) (bn : BallotNumber) (s : GStateB) : GStateB :=
  let st := s.acc a
  if nbLtOpt st.next_ballot bn then
    { s with
      acc := fun x => if x = a then ⟨st.last_vote, some bn⟩ else s.acc x
      net := s.net + {(au, Message.lastVote a bn st.last_vote)}
      hResponded := insert (a, bn, voteProj st.last_vote) s.hResponded }
  else s

/-- Acceptor.on_beginballot (basic_protocol.py lines 146-151) at acceptor
`a`: if the ballot carries exactly the promised number
(`message.ballot.number == self.next_ballot`; `None` compares unequal), cast
the vote `Vote(ballot, self)` into `last_vote` and reply `Voted`. -/
def onBeginBallotB (a au : Int) (B : Ballot) (s : GStateB) : GStateB :=
  let st := s.acc a
  if st.next_ballot = some B.number then
    let v : Vote := ⟨B, a⟩
    { s with
      acc := fun x => if x = a then ⟨some v, st.next_ballot⟩ else s.acc x
      net := s.net + {(au, Message.voted a v)}
      hVotes := insert (a, B.number, B.decree) s.hVotes }
  else s

/-- Acceptor.process_message (basic_protocol.py lines 126-133): dispatch;
`LastVote`/`Voted` messages are ignored by acceptors; `Success` stores the
decree in the ledger (inherited `Agent.on_success`). -/
def accRecvB (a : Int) (m : Message) (s : GStateB) : GStateB :=
  match m with
  | .nextBallot au bn => onNextBallotB a au bn s
  | .beginBallot au B _d => onBeginBallotB a au B s
  | .success _au d _obn =>
      { s with ledger := fun x => if x = a then some d else s.ledger x }
  | _ => s

/-- One interleaving step of the basic protocol assembly with proposer ids
`props` and acceptor ids `accs`:
  * `initiate`: a proposer's periodic `initiate_new_ballot` fires, with an
    arbitrary majority quorum (the source draws it uniformly at random);
  * `deliverProp` / `deliverAcc`: a pending message reaches its destination,
    which runs `process_message`;
  * `drop`: a pending message disappears (transport loss, or the mailbox
    clearing a crash-restart's re-registration performs; crash-restart has no
    other effect on protocol state). -/
inductive StepB (props accs : Finset Int) : GStateB → GStateB → Prop where
  | initiate (p : Int) (q : Finset Int) (s : GStateB)
      (hp : p ∈ props) (hq : q ⊆ accs) (hcard : q.card = accs.card / 2 + 1) :
      StepB props accs s (initiateB p q s)
  | deliverProp (p : Int) (m : Message) (s : GStateB)
      (hp : p ∈ props) (hm : (p, m) ∈ s.net) :
      StepB props accs s
        (propRecvB props accs p m { s with net := s.net.erase (p, m) })
  | deliverAcc (a : Int) (m : Message) (s : GStateB)
      (ha : a ∈ accs) (hm : (a, m) ∈ s.net) :
      StepB props accs s (accRecvB a m { s with net := s.net.erase (a, m) })
  | drop (d : Int) (m : Message) (s : GStateB) (hm : (d, m) ∈ s.net) :
      StepB props accs s { s with net := s.net.erase (d, m) }

/-- Reachability of a global state from the initial assembly state. -/
def ReachableB (props accs : Finset Int) (s : GStateB) : Prop :=
  Relation.ReflTransGen (StepB props accs) initGB s

/-! ### History predicates used by the invariants -/

/-- Acceptor `a` has cast a vote in ballot `bn`. -/
def votedAt (s : GStateB) (a : Int) (bn : BallotNumber) : Prop :=
  ∃ d, (a, bn, d) ∈ s.hVotes

/-- Acceptor `a` has promised some ballot strictly greater than `bn` (so it
can never again vote in `bn`). -/
def leftOf (s : GStateB) (a : Int) (bn : BallotNumber) : Prop :=
  ∃ bn' lv, (a, bn', lv) ∈ s.hResponded ∧ bnLt bn bn' = true

/-- Ballot `bn` is still choosable: every member of its quorum either has not
promised past `bn` or has already voted in `bn`. -/
def Choosable (s : GStateB) (bn : BallotNumber) : Prop :=
  ∃ q, (bn, q) ∈ s.hStarted ∧ ∀ a ∈ q, ¬leftOf s a bn ∨ votedAt s a bn

/-- Decree `d` was chosen at ballot `bn`: the ballot was begun with decree `d`
and every member of its quorum voted in it. -/
def ChosenAt (s : GStateB) (bn : BallotNumber) (d : Proposal) : Prop :=
  (bn, d) ∈ s.hBegun ∧ ∃ q, (bn, q) ∈ s.hStarted ∧ ∀ a ∈ q, votedAt s a bn

/-- Multiset key of an in-flight `LastVote` from acceptor `a` for ballot
number `bn`. -/
def lvKey : Message → Option (Int × BallotNumber)
  | .lastVote a bn _ => some (a, bn)
  | _ => none

/-- Number of in-flight `LastVote` messages from `a` for `bn`. -/
def lvNetCount (s : GStateB) (a : Int) (bn : BallotNumber) : Nat :=
  Multiset.countP (fun pm => lvKey pm.2 = some (a, bn)) s.net

/-- Number of entries authored by `a` inside the `responses` list of the
proposer owning `bn`, when that proposer's current ballot is `bn`. -/
def ghostCount (s : GStateB) (a : Int) (bn : BallotNumber) : Nat :=
  match (s.prop bn.agent_id).last_tried with
  | some B =>
      if B.number = bn then
        (s.gResp bn.agent_id).countP (fun e => decide (e.1 = a))
      else 0
  | none => 0

/-- Total number of live records of a `LastVote` from `a` for `bn`: in flight
plus absorbed into the owning proposer's current `responses`. -/
def lvTotal (s : GStateB) (a : Int) (bn : BallotNumber) : Nat :=
  lvNetCount s a bn + ghostCount s a bn

/-- Inductive invariant of the basic protocol.  `props` and `accs` are the
proposer/acceptor id sets of the assembly. -/
structure InvB (props accs : Finset Int) (s : GStateB) : Prop where
  acc_responded_le : ∀ a bn lv, (a, bn, lv) ∈ s.hResponded →
      ∃ nb, (s.acc a).next_ballot = some nb ∧ bnLe bn nb = true
  acc_vote_le_nb : ∀ a bn d, (a, bn, d) ∈ s.hVotes →
      ∃ nb, (s.acc a).next_ballot = some nb ∧ bnLe bn nb = true
  acc_lastvote_vote : ∀ a v, (s.acc a).last_vote = some v →
      (a, v.ballot.number, v.ballot.decree) ∈ s.hVotes
  acc_lastvote_max : ∀ a v bn d, (s.acc a).last_vote = some v →
      (a, bn, d) ∈ s.hVotes → bnLe bn v.ballot.number = true
  acc_lastvote_none : ∀ a bn d, (s.acc a).last_vote = none →
      (a, bn, d) ∈ s.hVotes → False
  resp_unique : ∀ a bn lv lv', (a, bn, lv) ∈ s.hResponded →
      (a, bn, lv') ∈ s.hResponded → lv = lv'
  resp_started : ∀ a bn lv, (a, bn, lv) ∈ s.hResponded →
      ∃ q, (bn, q) ∈ s.hStarted
  resp_some : ∀ a bn bv dv, (a, bn, some (bv, dv)) ∈ s.hResponded →
      (a, bv, dv) ∈ s.hVotes ∧ bnLt bv bn = true ∧
      ∀ bn'' d'', (a, bn'', d'') ∈ s.hVotes → bnLt bn'' bn = true →
        bnLe bn'' bv = true
  resp_none : ∀ a bn, (a, bn, none) ∈ s.hResponded →
      ∀ bn'' d'', (a, bn'', d'') ∈ s.hVotes → bnLt bn'' bn = false
  vote_begun : ∀ a bn d, (a, bn, d) ∈ s.hVotes → (bn, d) ∈ s.hBegun
  started_unique : ∀ bn q q', (bn, q) ∈ s.hStarted → (bn, q') ∈ s.hStarted →
      q = q'
  started_quorum : ∀ bn q, (bn, q) ∈ s.hStarted →
      q ⊆ accs ∧ accs.card < 2 * q.card
  begun_unique : ∀ bn d d', (bn, d) ∈ s.hBegun → (bn, d') ∈ s.hBegun → d = d'
  begun_started : ∀ bn d, (bn, d) ∈ s.hBegun → ∃ q, (bn, q) ∈ s.hStarted
  begun_promised : ∀ bn d q, (bn, d) ∈ s.hBegun → (bn, q) ∈ s.hStarted →
      ∀ a ∈ q, ∃ lv, (a, bn, lv) ∈ s.hResponded
  prop_started : ∀ p B, (s.prop p).last_tried = some B →
      B.number.agent_id = p ∧ (B.number, B.quorum) ∈ s.hStarted
  prop_started_max : ∀ p B bn q, (s.prop p).last_tried = some B →
      (bn, q) ∈ s.hStarted → bn.agent_id = p →
      bn.ballot_id ≤ B.number.ballot_id
  prop_none_fresh : ∀ p, (s.prop p).last_tried = none →
      (∀ bn q, (bn, q) ∈ s.hStarted → bn.agent_id ≠ p) ∧
      (s.prop p).responses = [] ∧ s.gResp p = []
  ghost_mirror : ∀ p, (s.gResp p).map Prod.snd = (s.prop p).responses
  ghost_content : ∀ p B, (s.prop p).last_tried = some B →
      ∀ a lv, (a, lv) ∈ s.gResp p →
        a ∈ B.quorum ∧ (a, B.number, voteProj lv) ∈ s.hResponded
  ghost_nodup : ∀ p, ((s.gResp p).map Prod.fst).Nodup
  ghost_len : ∀ p B, (s.prop p).last_tried = some B →
      (s.gResp p).length ≤ B.quorum.card
  prop_begun_full : ∀ p B d, (s.prop p).last_tried = some B →
      (B.number, d) ∈ s.hBegun →
      (s.gResp p).length = B.quorum.card ∧ d = B.decree
  prop_voters : ∀ p B, (s.prop p).last_tried = some B →
      ∀ a ∈ B.voters, votedAt s a B.number
  net_nextballot : ∀ dest au bn, (dest, Message.nextBallot au bn) ∈ s.net →
      ∃ q, (bn, q) ∈ s.hStarted ∧ dest ∈ q ∧ au = bn.agent_id
  net_lastvote : ∀ dest a bn lv, (dest, Message.lastVote a bn lv) ∈ s.net →
      (a, bn, voteProj lv) ∈ s.hResponded ∧ dest = bn.agent_id ∧
      ∃ q, (bn, q) ∈ s.hStarted ∧ a ∈ q
  net_beginballot : ∀ dest au B d,
      (dest, Message.beginBallot au B d) ∈ s.net →
      (B.number, B.decree) ∈ s.hBegun ∧ d = B.decree
  net_voted : ∀ dest au v, (dest, Message.voted au v) ∈ s.net →
      (v.acceptor, v.ballot.number, v.ballot.decree) ∈ s.hVotes
  net_success : ∀ dest au d obn, (dest, Message.success au d obn) ∈ s.net →
      ∃ bn, ChosenAt s bn d
  lv_count : ∀ a bn, lvTotal s a bn ≤ 1
  key : ∀ bn2 d2 bn1 d1, (bn2, d2) ∈ s.hBegun → (bn1, d1) ∈ s.hBegun →
      bnLt bn1 bn2 = true → Choosable s bn1 → d1 = d2
  ledger_chosen : ∀ x d, s.ledger x = some d → ∃ bn, ChosenAt s bn d

/-! ### A generalized basic-shaped system

`StepG` is the basic transition system with the ballot-number generation rule
abstracted: `initiate` may install any ballot number owned by the proposer
that is strictly larger than its current one.  The basic protocol
(increment by 1) and each instance slice of Multi-Paxos (increment by
`nb_instances`) are both special cases, so safety proved once over `StepG`
transfers to both. -/

/-- `initiate_new_ballot` with an arbitrary ballot number `bn` in place of the
generated one. -/
def initiateWith (p : Int) (bn : BallotNumber) (q : Finset Int) (s : GStateB) :
    GStateB :=
  { s with
    prop := fun x => if x = p then ⟨some (freshBallot bn q), []⟩ else s.prop x
    net := s.net + q.val.map (fun a => (a, Message.nextBallot p bn))
    hStarted := insert (bn, q) s.hStarted
    gResp := fun x => if x = p then [] else s.gResp x }

/-- One step of the generalized system: like `StepB`, with initiation allowed
for any ballot number that is owned by `p` and strictly above the number of
`p`'s current ballot (if any). -/
inductive StepG (props accs : Finset Int) : GStateB → GStateB → Prop where
  | initiate (p : Int) (bn : BallotNumber) (q : Finset Int) (s : GStateB)
      (hp : p ∈ props) (hq : q ⊆ accs) (hcard : q.card = accs.card / 2 + 1)
      (hagent : bn.agent_id = p)
      (hgt : ∀ B, (s.prop p).last_tried = some B →
        B.number.ballot_id < bn.ballot_id) :
      StepG props accs s (initiateWith p bn q s)
  | deliverProp (p : Int) (m : Message) (s : GStateB)
      (hp : p ∈ props) (hm : (p, m) ∈ s.net) :
      StepG props accs s
        (propRecvB props accs p m { s with net := s.net.erase (p, m) })
  | deliverAcc (a : Int) (m : Message) (s : GStateB)
      (ha : a ∈ accs) (hm : (a, m) ∈ s.net) :
      StepG props accs s (accRecvB a m { s with net := s.net.erase (a, m) })
  | drop (d : Int) (m : Message) (s : GStateB) (hm : (d, m) ∈ s.net) :
      StepG props accs s { s with net := s.net.erase (d, m) }

/-- Reachability in the generalized system. -/
def ReachableG (props accs : Finset Int) (s : GStateB) : Prop :=
  Relation.ReflTransGen (StepG props accs) initGB s

/-! ### Multi-Paxos global system (multi_paxos.py)

Multi-Paxos runs `nb_instances` interleaved instances of the protocol.  Each
agent's per-instance attributes are Python lists of length `nb_instances`,
indexed by `idx = ballot_id % nb_instances`; they are embedded as Lean lists
accessed through `lget`/`lset` at an integer index (Python `%` on a positive
modulus is Lean `Int.emod`). -/

/-- Python list read `l[i]` at a nonnegative in-range index (out-of-range
reads, which would raise `IndexError`, return the default). -/
def lget {α : Type} (l : List α) (i : Int) (d : α) : α :=
  l.getD i.toNat d

/-- Python list assignment `l[i] = a`. -/
def lset {α : Type} (l : List α) (i : Int) (a : α) : List α :=
  l.set i.toNat a

/-- Per-proposer Multi-Paxos state (multi_paxos.py `Proposer.__init__`):
`last_tried : List[Optional[Ballot]]`, `responses : List[List[Optional[Vote]]]`,
one slot per instance. -/
structure MProposerState where
  last_tried : List (Option Ballot)
  responses : List (List (Option Vote))

/-- Initial Multi-Paxos proposer state: `nb_instances` empty slots. -/
def MProposerState.init (N : Int) : MProposerState :=
  ⟨List.replicate N.toNat none, List.replicate N.toNat []⟩

/-- Per-acceptor Multi-Paxos state (multi_paxos.py `Acceptor.__init__`):
`last_vote : List[Optional[Vote]]`, `next_ballot : List[Optional[BallotNumber]]`. -/
structure MAcceptorState where
  last_vote : List (Option Vote)
  next_ballot : List (Option BallotNumber)

/-- Initial Multi-Paxos acceptor state. -/
def MAcceptorState.init (N : Int) : MAcceptorState :=
  ⟨List.replicate N.toNat none, List.replicate N.toNat none⟩

/-- Global state of a Multi-Paxos run, with the same history (ghost) fields as
the basic system; `gResp p idx` mirrors `responses[idx]` of proposer `p` with
each entry's author. -/
structure GStateM where
  prop : Int → MProposerState
  acc : Int → MAcceptorState
  ledger : Int → List (Option Proposal)
  net : Multiset (Int × Message)
  hStarted : Finset (BallotNumber × Finset Int)
  hBegun : Finset (BallotNumber × Proposal)
  hVotes : Finset (Int × BallotNumber × Proposal)
  hResponded : Finset (Int × BallotNumber × Option (BallotNumber × Proposal))
  gResp : Int → Int → List (Int × Option Vote)

/-- Initial Multi-Paxos global state with `N` instances. -/
def initGM (N : Int) : GStateM :=
  { prop := fun _ => MProposerState.init N
    acc := fun _ => MAcceptorState.init N
    ledger := fun _ => List.replicate N.toNat none
    net := 0
    hStarted := ∅
    hBegun := ∅
    hVotes := ∅
    hResponded := ∅
    gResp := fun _ _ => [] }

/-- Python `self.last_tried.index(ballot)`: the first position whose entry
equals the given ballot. -/
def pyListIndex (lt : List (Option Ballot)) (b : Ballot) : Int :=
  ((lt.findIdx (fun e => decide (e = some b)) : Nat) : Int)

/-- The instance-lookup loop of multi_paxos.py `on_lastvote`/`on_voted`
(lines 57-60 / 88-91): scan `last_tried` for a ballot whose number equals the
incoming one, remembering `last_tried.index(ballot)`; the scan also returns
the matched ballot (the entry stored at that index).  A `None` entry would be
a source-level `AttributeError` (`None.number`); that path is unreachable
(a response only answers a proposer that has already initiated, which fills
every slot) and is embedded as a skip. -/
def scanBallotM (bn : BallotNumber) (lt : List (Option Ballot)) :
    Option (Int × Ballot) :=
  lt.foldl
    (fun acc ob =>
      match ob with
      | some b => if bn = b.number then some (pyListIndex lt b, b) else acc
      | none => acc)
    none

/-- Multi-Paxos `Proposer.on_lastvote` (multi_paxos.py lines 54-84) at
proposer `p`: locate the instance of the incoming ballot number via the scan,
append the response, and when all responses are in, pick the decree (same B3
rule as the basic protocol) and send `BeginBallot` to the quorum. -/
def onLastVoteM (p au : Int) (bn : BallotNumber) (lv : Option Vote)
    (s : GStateM) : GStateM :=
  match scanBallotM bn (s.prop p).last_tried with
  | none => s
  | some (idx, B) =>
      let rs := lget (s.prop p).responses idx [] ++ [lv]
      let gh := s.gResp p idx ++ [(au, lv)]
      if rs.length = B.quorum.card then
        let newDecree := chooseDecree p rs
        let B2 : Ballot := { B with decree := newDecree }
        { s with
          prop := fun x => if x = p then
              ⟨lset (s.prop p).last_tried idx (some B2),
               lset (s.prop p).responses idx rs⟩
            else s.prop x
          gResp := fun x => if x = p then
              (fun i => if i = idx then gh else s.gResp p i)
            else s.gResp x
          net := s.net +
            B.quorum.val.map (fun a => (a, Message.beginBallot p B2 newDecree))
          hBegun := insert (B.number, newDecree) s.hBegun }
      else
        { s with
          prop := fun x => if x = p then
              ⟨(s.prop p).last_tried, lset (s.prop p).responses idx rs⟩
            else s.prop x
          gResp := fun x => if x = p then
              (fun i => if i = idx then gh else s.gResp p i)
            else s.gResp x }

/-- Multi-Paxos `Proposer.on_voted` (multi_paxos.py lines 86-106) at proposer
`p`: locate the vote's instance, add the voter, and broadcast `Success` —
carrying the ballot number, unlike the basic protocol — when the ballot
becomes successful. -/
def onVotedM (props accs : Finset Int) (p : Int) (v : Vote) (s : GStateM) :
    GStateM :=
  match scanBallotM v.ballot.number (s.prop p).last_tried with
  | none => s
  | some (idx, B) =>
      let B2 : Ballot := { B with voters := insert v.acceptor B.voters }
      let out : Multiset (Int × Message) :=
        if B2.quorum ⊆ B2.voters then
          (props ∪ accs).val.map
            (fun x => (x, Message.success p B2.decree (some B2.number)))
        else 0
      { s with
        prop := fun x => if x = p then
            ⟨lset (s.prop p).last_tried idx (some B2), (s.prop p).responses⟩
          else s.prop x
        net := s.net + out }

/-- Multi-Paxos `on_success` (multi_paxos.py lines 137-139 / 186-188) at agent
`x`: store the decree at the message's instance,
`ledger[ballot_number.ballot_id % nb_instances]`. -/
def onSuccessLedgerM (N x : Int) (d : Proposal) (bn : BallotNumber)
    (s : GStateM) : GStateM :=
  { s with ledger := fun y =>
      if y = x then lset (s.ledger x) (bn.ballot_id % N) (some d)
      else s.ledger y }

/-- Multi-Paxos `Proposer.process_message` (multi_paxos.py lines 45-52).  A
`Success` without a ballot number would crash on `None.ballot_id`; Multi-Paxos
agents never send one, and the path is embedded as a skip. -/
def propRecvM (props accs : Finset Int) (N p : Int) (m : Message)
    (s : GStateM) : GStateM :=
  match m with
  | .lastVote au bn lv => onLastVoteM p au bn lv s
  | .voted _au v => onVotedM props accs p v s
  | .success _au d obn =>
      match obn with
      | some bn => onSuccessLedgerM N p d bn s
      | none => s
  | _ => s

/-- Multi-Paxos `Acceptor.on_nextballot` (multi_paxos.py lines 161-173) at
acceptor `a`: route to instance `ballot_id % nb_instances`, then promise and
reply `LastVote` exactly as in the basic protocol. -/
def onNextBallotM (N a au : Int) (bn : BallotNumber) (s : GStateM) : GStateM :=
  let idx := bn.ballot_id % N
  let st := s.acc a
  if nbLtOpt (lget st.next_ballot idx none) bn then
    { s with
      acc := fun x => if x = a then
          ⟨st.last_vote, lset st.next_ballot idx (some bn)⟩
        else s.acc x
      net := s.net + {(au, Message.lastVote a bn (lget st.last_vote idx none))}
      hResponded :=
        insert (a, bn, voteProj (lget st.last_vote idx none)) s.hResponded }
  else s

/-- Multi-Paxos `Acceptor.on_beginballot` (multi_paxos.py lines 175-184) at
acceptor `a`: route to the ballot's instance, then vote exactly as in the
basic protocol. -/
def onBeginBallotM (N a au : Int) (B : Ballot) (s : GStateM) : GStateM :=
  let idx := B.number.ballot_id % N
  let st := s.acc a
  if lget st.next_ballot idx none = some B.number then
    let v : Vote := ⟨B, a⟩
    { s with
      acc := fun x => if x = a then
          ⟨lset st.last_vote idx (some v), st.next_ballot⟩
        else s.acc x
      net := s.net + {(au, Message.voted a v)}
      hVotes := insert (a, B.number, B.decree) s.hVotes }
  else s

/-- Multi-Paxos `Acceptor.process_message` (multi_paxos.py lines 152-159). -/
def accRecvM (N a : Int) (m : Message) (s : GStateM) : GStateM :=
  match m with
  | .nextBallot au bn => onNextBallotM N a au bn s
  | .beginBallot au B _d => onBeginBallotM N a au B s
  | .success _au d obn =>
      match obn with
      | some bn => onSuccessLedgerM N a d bn s
      | none => s
  | _ => s

/-- One iteration of the `for idx in range(self.assembly.nb_instances)` loop
of multi_paxos.py `initiate_new_ballot` (lines 112-128): pick the instance's
next ballot number, install the fresh ballot, clear the responses, and send
`NextBallot` to the quorum. -/
def initiateStepM (N p : Int) (q : Finset Int) (s : GStateM) (idx : Int) :
    GStateM :=
  let bn := multiNewBallotNumber N p idx (lget (s.prop p).last_tried idx none)
  let B := freshBallot bn q
  { s with
    prop := fun x => if x = p then
        ⟨lset (s.prop p).last_tried idx (some B),
         lset (s.prop p).responses idx []⟩
      else s.prop x
    net := s.net + q.val.map (fun a => (a, Message.nextBallot p bn))
    hStarted := insert (bn, q) s.hStarted
    gResp := fun x => if x = p then
        (fun i => if i = idx then [] else s.gResp p i)
      else s.gResp x }

/-- Multi-Paxos `Proposer.initiate_new_ballot` (multi_paxos.py lines 108-128):
one quorum is drawn, then every instance is (re)initiated in order. -/
def initiateM (N p : Int) (q : Finset Int) (s : GStateM) : GStateM :=
  ((List.range N.toNat).map (fun (i : Nat) => (i : Int))).foldl
    (fun t i => initiateStepM N p q t i) s

/-- One interleaving step of the Multi-Paxos assembly (same step shapes as the
basic system). -/
inductive StepM (props accs : Finset Int) (N : Int) : GStateM → GStateM → Prop
  where
  | initiate (p : Int) (q : Finset Int) (s : GStateM)
      (hp : p ∈ props) (hq : q ⊆ accs) (hcard : q.card = accs.card / 2 + 1) :
      StepM props accs N s (initiateM N p q s)
  | deliverProp (p : Int) (m : Message) (s : GStateM)
      (hp : p ∈ props) (hm : (p, m) ∈ s.net) :
      StepM props accs N s
        (propRecvM props accs N p m { s with net := s.net.erase (p, m) })
  | deliverAcc (a : Int) (m : Message) (s : GStateM)
      (ha : a ∈ accs) (hm : (a, m) ∈ s.net) :
      StepM props accs N s
        (accRecvM N a m { s with net := s.net.erase (a, m) })
  | drop (d : Int) (m : Message) (s : GStateM) (hm : (d, m) ∈ s.net) :
      StepM props accs N s { s with net := s.net.erase (d, m) }

/-- Reachability of a Multi-Paxos global state. -/
def ReachableM (props accs : Finset Int) (N : Int) (s : GStateM) : Prop :=
  Relation.ReflTransGen (StepM props accs N) (initGM N) s

/-- The instance a message belongs to: the residue of the ballot number it
carries. -/
def msgInst (N : Int) : Message → Option Int
  | .nextBallot _ bn => some (bn.ballot_id % N)
  | .lastVote _ bn _ => some (bn.ballot_id % N)
  | .beginBallot _ B _ => some (B.number.ballot_id % N)
  | .voted _ v => some (v.ballot.number.ballot_id % N)
  | .success _ _ obn => obn.map (fun bn => bn.ballot_id % N)

/-- Forget the ballot number of a `Success` message (basic-protocol `Success`
messages carry none). -/
def stripSuccess : Int × Message → Int × Message
  | (x, .success au d _) => (x, .success au d none)
  | pm => pm

/-- Projection of a Multi-Paxos global state onto one instance: keep each
agent's slot `idx`, the messages of instance `idx` (with `Success` ballot
numbers dropped), and the history entries whose ballot number has residue
`idx`. -/
def projB (N idx : Int) (s : GStateM) : GStateB :=
  { prop := fun p =>
      ⟨lget (s.prop p).last_tried idx none, lget (s.prop p).responses idx []⟩
    acc := fun a =>
      ⟨lget (s.acc a).last_vote idx none, lget (s.acc a).next_ballot idx none⟩
    ledger := fun x => lget (s.ledger x) idx none
    net := (s.net.filter (fun pm => msgInst N pm.2 = some idx)).map stripSuccess
    hStarted := s.hStarted.filter (fun e => e.1.ballot_id % N = idx)
    hBegun := s.hBegun.filter (fun e => e.1.ballot_id % N = idx)
    hVotes := s.hVotes.filter (fun e => e.2.1.ballot_id % N = idx)
    hResponded := s.hResponded.filter (fun e => e.2.1.ballot_id % N = idx)
    gResp := fun p => s.gResp p idx }

/-- Structural well-formedness of a Multi-Paxos state: positive instance
count, all per-instance lists of length `nb_instances`, and every installed
ballot sitting in the slot of its own residue (the code's ballot-number
discipline, multi_paxos.py lines 113-118). -/
structure WFM (N : Int) (s : GStateM) : Prop where
  hN : 0 < N
  len_lt : ∀ p, (s.prop p).last_tried.length = N.toNat
  len_rs : ∀ p, (s.prop p).responses.length = N.toNat
  len_lv : ∀ a, (s.acc a).last_vote.length = N.toNat
  len_nb : ∀ a, (s.acc a).next_ballot.length = N.toNat
  len_ledger : ∀ x, (s.ledger x).length = N.toNat
  lt_residue : ∀ p idx B, 0 ≤ idx → idx < N →
      lget (s.prop p).last_tried idx none = some B →
      B.number.ballot_id % N = idx

/-! ### A concrete run of each assembly

A one-proposer (id 0), one-acceptor (id 1) assembly that decides: proposer 0
initiates ballot `(0, 0)` with quorum `{1}`, the acceptor promises and votes,
and both agents learn the decree `Proposal(0)`.  The same scenario is run in
the basic protocol and in Multi-Paxos with a single instance. -/

/-- The decided ballot of the demo run: number `(0, 0)`, decree
`Proposal(0)`, quorum `{1}`, no voters yet. -/
def demoBallot : Ballot := ⟨⟨0, 0⟩, ⟨some 0⟩, {1}, ∅⟩

/-- The acceptor's vote in the demo run. -/
def demoVote : Vote := ⟨demoBallot, 1⟩

/-- Demo basic run, step 1: proposer 0 initiates. -/
def demoB1 : GStateB := initiateB 0 {1} initGB

/-- Demo basic run, step 2: acceptor 1 handles `NextBallot`. -/
def demoB2 : GStateB :=
  accRecvB 1 (Message.nextBallot 0 ⟨0, 0⟩)
    { demoB1 with net := demoB1.net.erase (1, Message.nextBallot 0 ⟨0, 0⟩) }

/-- Demo basic run, step 3: proposer 0 handles `LastVote`. -/
def demoB3 : GStateB :=
  propRecvB {0} {1} 0 (Message.lastVote 1 ⟨0, 0⟩ none)
    { demoB2 with
      net := demoB2.net.erase (0, Message.lastVote 1 ⟨0, 0⟩ none) }

/-- Demo basic run, step 4: acceptor 1 handles `BeginBallot` and votes. -/
def demoB4 : GStateB :=
  accRecvB 1 (Message.beginBallot 0 demoBallot ⟨some 0⟩)
    { demoB3 with
      net := demoB3.net.erase (1, Message.beginBallot 0 demoBallot ⟨some 0⟩) }

/-- Demo basic run, step 5: proposer 0 handles `Voted` and broadcasts
`Success`. -/
def demoB5 : GStateB :=
  propRecvB {0} {1} 0 (Message.voted 1 demoVote)
    { demoB4 with net := demoB4.net.erase (0, Message.voted 1 demoVote) }

/-- Demo basic run, step 6: proposer 0 learns the decree. -/
def demoB6 : GStateB :=
  propRecvB {0} {1} 0 (Message.success 0 ⟨some 0⟩ none)
    { demoB5 with
      net := demoB5.net.erase (0, Message.success 0 ⟨some 0⟩ none) }

/-- Demo basic run, step 7: acceptor 1 learns the decree. -/
def demoB7 : GStateB :=
  accRecvB 1 (Message.success 0 ⟨some 0⟩ none)
    { demoB6 with
      net := demoB6.net.erase (1, Message.success 0 ⟨some 0⟩ none) }

/-- Demo Multi-Paxos run (one instance), step 1: proposer 0 initiates. -/
def demoM1 : GStateM := initiateM 1 0 {1} (initGM 1)

/-- Demo Multi-Paxos run, step 2: acceptor 1 handles `NextBallot`. -/
def demoM2 : GStateM :=
  accRecvM 1 1 (Message.nextBallot 0 ⟨0, 0⟩)
    { demoM1 with net := demoM1.net.erase (1, Message.nextBallot 0 ⟨0, 0⟩) }

/-- Demo Multi-Paxos run, step 3: proposer 0 handles `LastVote`. -/
def demoM3 : GStateM :=
  propRecvM {0} {1} 1 0 (Message.lastVote 1 ⟨0, 0⟩ none)
    { demoM2 with
      net := demoM2.net.erase (0, Message.lastVote 1 ⟨0, 0⟩ none) }

/-- Demo Multi-Paxos run, step 4: acceptor 1 votes. -/
def demoM4 : GStateM :=
  accRecvM 1 1 (Message.beginBallot 0 demoBallot ⟨some 0⟩)
    { demoM3 with
      net := demoM3.net.erase (1, Message.beginBallot 0 demoBallot ⟨some 0⟩) }

/-- Demo Multi-Paxos run, step 5: proposer 0 broadcasts `Success` (carrying
the ballot number, as Multi-Paxos does). -/
def demoM5 : GStateM :=
  propRecvM {0} {1} 1 0 (Message.voted 1 demoVote)
    { demoM4 with net := demoM4.net.erase (0, Message.voted 1 demoVote) }

/-- Demo Multi-Paxos run, step 6: proposer 0 learns the decree. -/
def demoM6 : GStateM :=
  propRecvM {0} {1} 1 0 (Message.success 0 ⟨some 0⟩ (some ⟨0, 0⟩))
    { demoM5 with
      net := demoM5.net.erase (0, Message.success 0 ⟨some 0⟩ (some ⟨0, 0⟩)) }

/-- Demo Multi-Paxos run, step 7: acceptor 1 learns the decree. -/
def demoM7 : GStateM :=
  accRecvM 1 1 (Message.success 0 ⟨some 0⟩ (some ⟨0, 0⟩))
    { demoM6 with
      net := demoM6.net.erase (1, Message.success 0 ⟨some 0⟩ (some ⟨0, 0⟩)) }

end Paxos

-- ===================================================================== --
-- ========================== THEOREMS ================================= --
-- ===================================================================== --

namespace Paxos

/-- Helper: membership in the accumulator-based dedup fold. -/
theorem mem_foldl_dedup {α : Type} [DecidableEq α] (l : List α) (acc : List α)
    (x : α) :
    x ∈ l.foldl (fun acc y => if y ∈ acc then acc else acc ++ [y]) acc ↔
      x ∈ acc ∨ x ∈ l := by
  induction l generalizing acc with
  | nil => simp
  | cons a l ih =>
      simp only [List.foldl_cons]
      by_cases h : a ∈ acc
      · rw [if_pos h, ih]
        constructor
        · rintro (hx | hx)
          · exact Or.inl hx
          · exact Or.inr (List.mem_cons_of_mem a hx)
        · rintro (hx | hx)
          · exact Or.inl hx
          · rcases List.mem_cons.1 hx with rfl | hx
            · exact Or.inl h
            · exact Or.inr hx
      · rw [if_neg h, ih]
        simp only [List.mem_append, List.mem_singleton, List.mem_cons]
        tauto

/-- Helper: a fold over elements all equal to the accumulator's sole element
leaves the accumulator unchanged. -/
theorem foldl_dedup_const {α : Type} [DecidableEq α] (l : List α) (x : α)
    (h : ∀ y ∈ l, y = x) :
    l.foldl (fun acc y => if y ∈ acc then acc else acc ++ [y]) [x] = [x] := by
  induction l with
  | nil => rfl
  | cons a l ih =>
      have ha : a = x := h a (List.mem_cons_self a l)
      subst ha
      simp only [List.foldl_cons, List.mem_singleton, if_pos rfl]
      exact ih (fun y hy => h y (List.mem_cons_of_mem a hy))

/-- Helper: `uniqList` of a nonempty constant list is the singleton. -/
theorem uniqList_const {α : Type} [DecidableEq α] (l : List α) (x : α)
    (hne : l ≠ []) (h : ∀ y ∈ l, y = x) : uniqList l = [x] := by
  cases l with
  | nil => exact absurd rfl hne
  | cons a l =>
      have ha : a = x := h a (List.mem_cons_self a l)
      subst ha
      unfold uniqList
      simp only [List.foldl_cons, List.not_mem_nil, if_neg (List.not_mem_nil a),
        List.nil_append]
      exact foldl_dedup_const l a (fun y hy => h y (List.mem_cons_of_mem a hy))

/-- Helper: every element of a list is in its `uniqList`. -/
theorem mem_uniqList {α : Type} [DecidableEq α] (l : List α) (x : α) :
    x ∈ uniqList l ↔ x ∈ l := by
  unfold uniqList
  rw [mem_foldl_dedup]
  simp

/-- Helper: `bnLt` unfolded to its ordering proposition. -/
theorem bnLt_eq_true_iff (x y : BallotNumber) :
    bnLt x y = true ↔
      (x.ballot_id < y.ballot_id ∨
        (x.ballot_id = y.ballot_id ∧ x.agent_id < y.agent_id)) := by
  simp [bnLt]

/-- Helper: `bnLt` is irreflexive. -/
theorem bnLt_irrefl (x : BallotNumber) : bnLt x x = false := by
  simp [bnLt]

/-- Helper: `bnLt` is transitive. -/
theorem bnLt_trans {x y z : BallotNumber} (h1 : bnLt x y = true)
    (h2 : bnLt y z = true) : bnLt x z = true := by
  simp only [bnLt, decide_eq_true_eq] at h1 h2 ⊢
  omega

/-- Helper: `bnLt` is asymmetric. -/
theorem bnLt_asymm {x y : BallotNumber} (h : bnLt x y = true) :
    bnLt y x = false := by
  simp only [bnLt, decide_eq_true_eq, decide_eq_false_iff_not] at h ⊢
  omega

/-- Helper: trichotomy for `bnLt`. -/
theorem bnLt_total (x y : BallotNumber) :
    bnLt x y = true ∨ x = y ∨ bnLt y x = true := by
  cases x with
  | mk xb xa =>
      cases y with
      | mk yb ya =>
          simp only [bnLt, decide_eq_true_eq, BallotNumber.mk.injEq]
          omega

/-- Helper: `bnLe` unfolded. -/
theorem bnLe_iff (x y : BallotNumber) :
    bnLe x y = true ↔ bnLt x y = true ∨ x = y := by
  simp [bnLe]

/-- Helper: `bnLe` is reflexive. -/
theorem bnLe_refl (x : BallotNumber) : bnLe x x = true := by
  simp [bnLe]

/-- Helper: `bnLe` is transitive. -/
theorem bnLe_trans {x y z : BallotNumber} (h1 : bnLe x y = true)
    (h2 : bnLe y z = true) : bnLe x z = true := by
  rw [bnLe_iff] at h1 h2 ⊢
  rcases h1 with h1 | rfl
  · rcases h2 with h2 | rfl
    · exact Or.inl (bnLt_trans h1 h2)
    · exact Or.inl h1
  · exact h2

/-- Helper: a strict bound composes with a non-strict one. -/
theorem bnLt_of_lt_of_le {x y z : BallotNumber} (h1 : bnLt x y = true)
    (h2 : bnLe y z = true) : bnLt x z = true := by
  rw [bnLe_iff] at h2
  rcases h2 with h2 | rfl
  · exact bnLt_trans h1 h2
  · exact h1

/-- Helper: a non-strict bound composes with a strict one. -/
theorem bnLt_of_le_of_lt {x y z : BallotNumber} (h1 : bnLe x y = true)
    (h2 : bnLt y z = true) : bnLt x z = true := by
  rw [bnLe_iff] at h1
  rcases h1 with h1 | rfl
  · exact bnLt_trans h1 h2
  · exact h2

/-- Helper: `bnLt` together with the reverse `bnLe` is absurd. -/
theorem bnLt_le_absurd {x y : BallotNumber} (h1 : bnLt x y = true)
    (h2 : bnLe y x = true) : False := by
  have := bnLt_of_lt_of_le h1 h2
  rw [bnLt_irrefl] at this
  exact Bool.false_ne_true this

/-- Helper: `bnLe` from strict. -/
theorem bnLe_of_lt {x y : BallotNumber} (h : bnLt x y = true) :
    bnLe x y = true := by
  rw [bnLe_iff]; exact Or.inl h

/-- Helper: the fold inside `maxBallot`, run from a seeded candidate, returns
a first-maximal element of the seeded list. -/
theorem maxBallot_go (l : List Ballot) (c : Ballot) :
    ∃ m, l.foldl
        (fun acc b =>
          match acc with
          | none => some b
          | some c => if bnLt c.number b.number then some b else some c)
        (some c) = some m ∧
      m ∈ c :: l ∧ ∀ b ∈ c :: l, bnLe b.number m.number = true := by
  induction l generalizing c with
  | nil =>
      refine ⟨c, rfl, List.mem_cons_self c [], ?_⟩
      intro b hb
      rcases List.mem_cons.1 hb with rfl | hb
      · exact bnLe_refl _
      · simp at hb
  | cons b l ih =>
      simp only [List.foldl_cons]
      by_cases hcb : bnLt c.number b.number = true
      · rw [if_pos hcb]
        obtain ⟨m, hm, hmem, hle⟩ := ih b
        refine ⟨m, hm, ?_, ?_⟩
        · rcases List.mem_cons.1 hmem with rfl | hmem
          · exact List.mem_cons_of_mem _ (List.mem_cons_self _ _)
          · exact List.mem_cons_of_mem _ (List.mem_cons_of_mem _ hmem)
        · intro x hx
          rcases List.mem_cons.1 hx with rfl | hx
          · exact bnLe_of_lt
              (bnLt_of_lt_of_le hcb (hle b (List.mem_cons_self _ _)))
          · exact hle x hx
      · rw [if_neg hcb]
        obtain ⟨m, hm, hmem, hle⟩ := ih c
        have hbc : bnLe b.number c.number = true := by
          rcases bnLt_total b.number c.number with h | h | h
          · exact bnLe_of_lt h
          · rw [bnLe_iff]; exact Or.inr h
          · exact absurd h hcb
        refine ⟨m, hm, ?_, ?_⟩
        · rcases List.mem_cons.1 hmem with rfl | hmem
          · exact List.mem_cons_self _ _
          · exact List.mem_cons_of_mem _ (List.mem_cons_of_mem _ hmem)
        · intro x hx
          rcases List.mem_cons.1 hx with rfl | hx
          · exact hle x (List.mem_cons_self _ _)
          · rcases List.mem_cons.1 hx with rfl | hx
            · exact bnLe_trans hbc (hle c (List.mem_cons_self _ _))
            · exact hle x (List.mem_cons_of_mem _ hx)

/-- Helper: `maxBallot` of a nonempty list returns a member that dominates
every element's number. -/
theorem maxBallot_spec (l : List Ballot) (m : Ballot)
    (h : maxBallot l = some m) :
    m ∈ l ∧ ∀ b ∈ l, bnLe b.number m.number = true := by
  cases l with
  | nil => simp [maxBallot] at h
  | cons c l =>
      obtain ⟨m', hm', hmem, hle⟩ := maxBallot_go l c
      unfold maxBallot at h
      simp only [List.foldl_cons] at h
      rw [hm'] at h
      cases h
      exact ⟨hmem, hle⟩

/-- Helper: `maxBallot` is `none` only on the empty list. -/
theorem maxBallot_eq_none (l : List Ballot) (h : maxBallot l = none) :
    l = [] := by
  cases l with
  | nil => rfl
  | cons c l =>
      obtain ⟨m', hm', _, _⟩ := maxBallot_go l c
      unfold maxBallot at h
      simp only [List.foldl_cons] at h
      rw [hm'] at h
      cases h

/-- Helper: a nodup list of quorum members with full cardinality covers the
quorum. -/
theorem nodup_cover {l : List Int} {q : Finset Int} (hnd : l.Nodup)
    (hsub : ∀ x ∈ l, x ∈ q) (hlen : l.length = q.card) :
    ∀ x ∈ q, x ∈ l := by
  have h1 : l.toFinset ⊆ q := fun x hx => hsub x (List.mem_toFinset.1 hx)
  have h2 : l.toFinset.card = l.length := List.toFinset_card_of_nodup hnd
  have h3 : l.toFinset = q :=
    Finset.eq_of_subset_of_card_le h1 (by rw [h2, hlen])
  intro x hx
  rw [← h3] at hx
  exact List.mem_toFinset.1 hx

/-- Helper: two majorities of the acceptor set intersect. -/
theorem quorum_inter {q1 q2 accs : Finset Int} (h1 : q1 ⊆ accs)
    (h2 : q2 ⊆ accs) (hc1 : accs.card < 2 * q1.card)
    (hc2 : accs.card < 2 * q2.card) : ∃ a, a ∈ q1 ∧ a ∈ q2 := by
  have hu : (q1 ∪ q2).card ≤ accs.card :=
    Finset.card_le_card (Finset.union_subset h1 h2)
  have hi := Finset.card_union_add_card_inter q1 q2
  have hpos : 0 < (q1 ∩ q2).card := by omega
  obtain ⟨a, ha⟩ := Finset.card_pos.1 hpos
  exact ⟨a, Finset.mem_inter.1 ha⟩

/-- Helper: characterization of the `on_nextballot` guard. -/
theorem nbLtOpt_true (o : Option BallotNumber) (bn : BallotNumber) :
    nbLtOpt o bn = true ↔ o = none ∨ ∃ nb, o = some nb ∧ bnLt nb bn = true := by
  cases o <;> simp [nbLtOpt]

/-- Helper: the invariant holds in the initial state. -/
theorem invB_init (props accs : Finset Int) : InvB props accs initGB := by
  constructor <;>
    intros <;>
      simp_all [initGB, ProposerState.init, AcceptorState.init, lvTotal,
        lvNetCount, ghostCount, votedAt, ChosenAt, Choosable, leftOf]

/-- Helper: `on_nextballot` preserves the invariant.  `q`, `haq` and `hau`
record the provenance of the delivered `NextBallot` message (obtained from
`net_nextballot` before the message is consumed). -/
theorem invB_onNextBallot (props accs : Finset Int) (t : GStateB) (a au : Int)
    (bn : BallotNumber) (q : Finset Int) (h : InvB props accs t)
    (hq : (bn, q) ∈ t.hStarted) (haq : a ∈ q) (hau : au = bn.agent_id) :
    InvB props accs (onNextBallotB a au bn t) := by
  simp only [onNextBallotB]
  by_cases hg : nbLtOpt (t.acc a).next_ballot bn = true
  swap
  · rw [if_neg hg]; exact h
  rw [if_pos hg]
  -- guard facts
  have hup : ∀ nb, (t.acc a).next_ballot = some nb → bnLt nb bn = true := by
    intro nb hnb
    rcases (nbLtOpt_true _ _).1 hg with hnone | ⟨nb₀, hsome, hlt⟩
    · rw [hnone] at hnb; cases hnb
    · rw [hsome] at hnb; injection hnb with e; subst e; exact hlt
  -- the acceptor has never responded to `bn` before
  have hfresh : ∀ lv', (a, bn, lv') ∉ t.hResponded := by
    intro lv' hmem
    obtain ⟨nb, hnb, hle⟩ := h.acc_responded_le a bn lv' hmem
    exact bnLt_le_absurd (hup nb hnb) hle
  have hnet0 : lvNetCount t a bn = 0 := by
    unfold lvNetCount
    rw [Multiset.countP_eq_zero]
    rintro ⟨dest, msg⟩ hmem hk
    cases msg with
    | lastVote a₁ bn₁ lv₁ =>
        simp only [lvKey, Option.some.injEq, Prod.mk.injEq] at hk
        obtain ⟨rfl, rfl⟩ := hk
        exact hfresh _ (h.net_lastvote dest a₁ bn₁ lv₁ hmem).1
    | nextBallot a₁ bn₁ => simp [lvKey] at hk
    | beginBallot a₁ B₁ d₁ => simp [lvKey] at hk
    | voted a₁ v₁ => simp [lvKey] at hk
    | success a₁ d₁ o₁ => simp [lvKey] at hk
  have hghost0 : ghostCount t a bn = 0 := by
    unfold ghostCount
    cases hLT : (t.prop bn.agent_id).last_tried with
    | none => rfl
    | some B =>
        dsimp only
        by_cases hBn : B.number = bn
        · rw [if_pos hBn]
          rw [List.countP_eq_zero]
          rintro ⟨e1, elv⟩ hmem hk
          simp only [decide_eq_true_eq] at hk
          subst hk
          have := (h.ghost_content bn.agent_id B hLT e1 elv hmem).2
          rw [hBn] at this
          exact hfresh _ this
        · rw [if_neg hBn]
  refine
    { acc_responded_le := ?_
      acc_vote_le_nb := ?_
      acc_lastvote_vote := ?_
      acc_lastvote_max := ?_
      acc_lastvote_none := ?_
      resp_unique := ?_
      resp_started := ?_
      resp_some := ?_
      resp_none := ?_
      vote_begun := h.vote_begun
      started_unique := h.started_unique
      started_quorum := h.started_quorum
      begun_unique := h.begun_unique
      begun_started := h.begun_started
      begun_promised := ?_
      prop_started := h.prop_started
      prop_started_max := h.prop_started_max
      prop_none_fresh := h.prop_none_fresh
      ghost_mirror := h.ghost_mirror
      ghost_content := ?_
      ghost_nodup := h.ghost_nodup
      ghost_len := h.ghost_len
      prop_begun_full := h.prop_begun_full
      prop_voters := h.prop_voters
      net_nextballot := ?_
      net_lastvote := ?_
      net_beginballot := ?_
      net_voted := ?_
      net_success := ?_
      lv_count := ?_
      key := ?_
      ledger_chosen := h.ledger_chosen }
  -- acc_responded_le
  · intro a' bn' lv' hmem
    rcases Finset.mem_insert.1 hmem with heq | hold
    · simp only [Prod.mk.injEq] at heq
      obtain ⟨rfl, rfl, rfl⟩ := heq
      refine ⟨_, ?_, bnLe_refl _⟩
      simp
    · obtain ⟨nb, hnb, hle⟩ := h.acc_responded_le a' bn' lv' hold
      by_cases ha' : a' = a
      · subst ha'
        refine ⟨bn, by simp, ?_⟩
        exact bnLe_trans hle (bnLe_of_lt (hup nb hnb))
      · exact ⟨nb, by simpa [ha'] using hnb, hle⟩
  -- acc_vote_le_nb
  · intro a' bn'' d hmem
    obtain ⟨nb, hnb, hle⟩ := h.acc_vote_le_nb a' bn'' d hmem
    by_cases ha' : a' = a
    · subst ha'
      exact ⟨bn, by simp, bnLe_trans hle (bnLe_of_lt (hup nb hnb))⟩
    · exact ⟨nb, by simpa [ha'] using hnb, hle⟩
  -- acc_lastvote_vote
  · intro a' v hv
    by_cases ha' : a' = a
    · subst ha'
      simp only [if_pos rfl] at hv
      exact h.acc_lastvote_vote _ v hv
    · simp only [if_neg ha'] at hv
      exact h.acc_lastvote_vote a' v hv
  -- acc_lastvote_max
  · intro a' v bn'' d hv hmem
    by_cases ha' : a' = a
    · subst ha'
      simp only [if_pos rfl] at hv
      exact h.acc_lastvote_max _ v bn'' d hv hmem
    · simp only [if_neg ha'] at hv
      exact h.acc_lastvote_max a' v bn'' d hv hmem
  -- acc_lastvote_none
  · intro a' bn'' d hv hmem
    by_cases ha' : a' = a
    · subst ha'
      simp only [if_pos rfl] at hv
      exact h.acc_lastvote_none _ bn'' d hv hmem
    · simp only [if_neg ha'] at hv
      exact h.acc_lastvote_none a' bn'' d hv hmem
  -- resp_unique
  · intro a' bn' lv1 lv2 h1 h2
    rcases Finset.mem_insert.1 h1 with he1 | ho1 <;>
      rcases Finset.mem_insert.1 h2 with he2 | ho2
    · simp only [Prod.mk.injEq] at he1 he2
      exact he1.2.2.trans he2.2.2.symm
    · simp only [Prod.mk.injEq] at he1
      obtain ⟨rfl, rfl, -⟩ := he1
      exact absurd ho2 (hfresh lv2)
    · simp only [Prod.mk.injEq] at he2
      obtain ⟨rfl, rfl, -⟩ := he2
      exact absurd ho1 (hfresh lv1)
    · exact h.resp_unique a' bn' lv1 lv2 ho1 ho2
  -- resp_started
  · intro a' bn' lv' hmem
    rcases Finset.mem_insert.1 hmem with heq | hold
    · simp only [Prod.mk.injEq] at heq
      obtain ⟨-, rfl, -⟩ := heq
      exact ⟨q, hq⟩
    · exact h.resp_started a' bn' lv' hold
  -- resp_some
  · intro a' bn' bv dv hmem
    rcases Finset.mem_insert.1 hmem with heq | hold
    · simp only [Prod.mk.injEq] at heq
      obtain ⟨rfl, rfl, hproj⟩ := heq
      cases hlv : (t.acc a').last_vote with
      | none => rw [hlv] at hproj; simp [voteProj] at hproj
      | some v₀ =>
          rw [hlv] at hproj
          simp only [voteProj, Option.some.injEq, Prod.mk.injEq] at hproj
          obtain ⟨rfl, rfl⟩ := hproj.symm
          have hvote := h.acc_lastvote_vote a' v₀ hlv
          obtain ⟨nb, hnb, hle⟩ :=
            h.acc_vote_le_nb a' v₀.ballot.number v₀.ballot.decree hvote
          refine ⟨hvote, bnLt_of_le_of_lt hle (hup nb hnb), ?_⟩
          intro bn'' d'' hmem'' hlt''
          exact h.acc_lastvote_max a' v₀ bn'' d'' hlv hmem''
    · exact h.resp_some a' bn' bv dv hold
  -- resp_none
  · intro a' bn' hmem
    rcases Finset.mem_insert.1 hmem with heq | hold
    · simp only [Prod.mk.injEq] at heq
      obtain ⟨rfl, rfl, hproj⟩ := heq
      cases hlv : (t.acc a').last_vote with
      | none =>
          intro bn'' d'' hmem''
          exact absurd hmem'' (fun hm => h.acc_lastvote_none a' bn'' d'' hlv hm)
      | some v₀ => rw [hlv] at hproj; simp [voteProj] at hproj
    · exact h.resp_none a' bn' hold
  -- begun_promised
  · intro bn' d q' hbeg hst a' ha'
    obtain ⟨lv', hlv'⟩ := h.begun_promised bn' d q' hbeg hst a' ha'
    exact ⟨lv', Finset.mem_insert_of_mem hlv'⟩
  -- ghost_content
  · intro p B hB a' lv' hmem
    obtain ⟨h1, h2⟩ := h.ghost_content p B hB a' lv' hmem
    exact ⟨h1, Finset.mem_insert_of_mem h2⟩
  -- net_nextballot
  · intro dest au' bn' hmem
    rcases Multiset.mem_add.1 hmem with hold | hnew
    · exact h.net_nextballot dest au' bn' hold
    · rw [Multiset.mem_singleton] at hnew
      cases hnew
  -- net_lastvote
  · intro dest a' bn' lv' hmem
    rcases Multiset.mem_add.1 hmem with hold | hnew
    · obtain ⟨h1, h2, q', h3, h4⟩ := h.net_lastvote dest a' bn' lv' hold
      exact ⟨Finset.mem_insert_of_mem h1, h2, q', h3, h4⟩
    · rw [Multiset.mem_singleton] at hnew
      simp only [Prod.mk.injEq, Message.lastVote.injEq] at hnew
      obtain ⟨rfl, rfl, rfl, rfl⟩ := hnew
      exact ⟨Finset.mem_insert_self _ _, hau, q, hq, haq⟩
  -- net_beginballot
  · intro dest au' B' d hmem
    rcases Multiset.mem_add.1 hmem with hold | hnew
    · exact h.net_beginballot dest au' B' d hold
    · rw [Multiset.mem_singleton] at hnew
      cases hnew
  -- net_voted
  · intro dest au' v hmem
    rcases Multiset.mem_add.1 hmem with hold | hnew
    · exact h.net_voted dest au' v hold
    · rw [Multiset.mem_singleton] at hnew
      cases hnew
  -- net_success
  · intro dest au' d obn hmem
    rcases Multiset.mem_add.1 hmem with hold | hnew
    · exact h.net_success dest au' d obn hold
    · rw [Multiset.mem_singleton] at hnew
      cases hnew
  -- lv_count
  · intro a' bn'
    have hsplit :
        lvNetCount
            { t with
              acc := fun x => if x = a then ⟨(t.acc a).last_vote, some bn⟩ else t.acc x
              net := t.net + {(au, Message.lastVote a bn (t.acc a).last_vote)}
              hResponded := insert (a, bn, voteProj (t.acc a).last_vote) t.hResponded }
            a' bn' =
          lvNetCount t a' bn' +
            (if (a, bn) = (a', bn') then 1 else 0) := by
      unfold lvNetCount
      rw [Multiset.countP_add]
      congr 1
      rw [show ({(au, Message.lastVote a bn (t.acc a).last_vote)} :
            Multiset (Int × Message)) =
          (au, Message.lastVote a bn (t.acc a).last_vote) ::ₘ 0 from rfl]
      rw [Multiset.countP_cons, Multiset.countP_zero]
      simp [lvKey]
    have hgeq :
        ghostCount
            { t with
              acc := fun x => if x = a then ⟨(t.acc a).last_vote, some bn⟩ else t.acc x
              net := t.net + {(au, Message.lastVote a bn (t.acc a).last_vote)}
              hResponded := insert (a, bn, voteProj (t.acc a).last_vote) t.hResponded }
            a' bn' = ghostCount t a' bn' := rfl
    unfold lvTotal
    rw [hsplit, hgeq]
    by_cases hkey : (a, bn) = (a', bn')
    · rw [if_pos hkey]
      simp only [Prod.mk.injEq] at hkey
      obtain ⟨rfl, rfl⟩ := hkey
      rw [hnet0, hghost0]
    · rw [if_neg hkey]
      have := h.lv_count a' bn'
      unfold lvTotal at this
      omega
  -- key
  · intro bn2 d2 bn1 d1 h2 h1 hlt hch
    apply h.key bn2 d2 bn1 d1 h2 h1 hlt
    obtain ⟨q₁, hq₁, hcond⟩ := hch
    refine ⟨q₁, hq₁, ?_⟩
    intro a' ha'
    rcases hcond a' ha' with hnl | hv
    · left
      intro ⟨bn'', lv'', hmem'', hlt''⟩
      exact hnl ⟨bn'', lv'', Finset.mem_insert_of_mem hmem'', hlt''⟩
    · right
      exact hv

/-- Helper: `ChosenAt` is monotone under growth of the history fields. -/
theorem ChosenAt_mono (t t' : GStateB) (hB : t.hBegun ⊆ t'.hBegun)
    (hS : t.hStarted ⊆ t'.hStarted) (hV : t.hVotes ⊆ t'.hVotes)
    (bn : BallotNumber) (d : Proposal) (h : ChosenAt t bn d) :
    ChosenAt t' bn d := by
  obtain ⟨h1, q, h2, h3⟩ := h
  refine ⟨hB h1, q, hS h2, ?_⟩
  intro a ha
  obtain ⟨d₀, hd⟩ := h3 a ha
  exact ⟨d₀, hV hd⟩

/-- Helper: `on_beginballot` preserves the invariant.  `hB` records the
provenance of the delivered `BeginBallot` message. -/
theorem invB_onBeginBallot (props accs : Finset Int) (t : GStateB) (a au : Int)
    (B : Ballot) (h : InvB props accs t)
    (hB : (B.number, B.decree) ∈ t.hBegun) :
    InvB props accs (onBeginBallotB a au B t) := by
  simp only [onBeginBallotB]
  by_cases hg : (t.acc a).next_ballot = some B.number
  swap
  · rw [if_neg hg]; exact h
  rw [if_pos hg]
  have hvmono : t.hVotes ⊆ insert (a, B.number, B.decree) t.hVotes :=
    Finset.subset_insert _ _
  refine
    { acc_responded_le := ?_
      acc_vote_le_nb := ?_
      acc_lastvote_vote := ?_
      acc_lastvote_max := ?_
      acc_lastvote_none := ?_
      resp_unique := h.resp_unique
      resp_started := h.resp_started
      resp_some := ?_
      resp_none := ?_
      vote_begun := ?_
      started_unique := h.started_unique
      started_quorum := h.started_quorum
      begun_unique := h.begun_unique
      begun_started := h.begun_started
      begun_promised := h.begun_promised
      prop_started := h.prop_started
      prop_started_max := h.prop_started_max
      prop_none_fresh := h.prop_none_fresh
      ghost_mirror := h.ghost_mirror
      ghost_content := h.ghost_content
      ghost_nodup := h.ghost_nodup
      ghost_len := h.ghost_len
      prop_begun_full := h.prop_begun_full
      prop_voters := ?_
      net_nextballot := ?_
      net_lastvote := ?_
      net_beginballot := ?_
      net_voted := ?_
      net_success := ?_
      lv_count := ?_
      key := ?_
      ledger_chosen := ?_ }
  -- acc_responded_le
  · intro a' bn' lv' hmem
    obtain ⟨nb, hnb, hle⟩ := h.acc_responded_le a' bn' lv' hmem
    by_cases ha' : a' = a
    · subst ha'
      exact ⟨nb, by simpa using hnb, hle⟩
    · exact ⟨nb, by simpa [ha'] using hnb, hle⟩
  -- acc_vote_le_nb
  · intro a' bn'' d hmem
    rcases Finset.mem_insert.1 hmem with heq | hold
    · simp only [Prod.mk.injEq] at heq
      obtain ⟨rfl, rfl, rfl⟩ := heq
      exact ⟨B.number, by simpa using hg, bnLe_refl _⟩
    · obtain ⟨nb, hnb, hle⟩ := h.acc_vote_le_nb a' bn'' d hold
      by_cases ha' : a' = a
      · subst ha'
        exact ⟨nb, by simpa using hnb, hle⟩
      · exact ⟨nb, by simpa [ha'] using hnb, hle⟩
  -- acc_lastvote_vote
  · intro a' v hv
    by_cases ha' : a' = a
    · subst ha'
      dsimp only at hv
      rw [if_pos rfl] at hv
      injection hv with e
      subst e
      exact Finset.mem_insert_self _ _
    · simp only [if_neg ha'] at hv
      exact hvmono (h.acc_lastvote_vote a' v hv)
  -- acc_lastvote_max
  · intro a' v bn'' d hv hmem
    by_cases ha' : a' = a
    · subst ha'
      dsimp only at hv
      rw [if_pos rfl] at hv
      injection hv with e
      subst e
      rcases Finset.mem_insert.1 hmem with heq | hold
      · simp only [Prod.mk.injEq] at heq
        obtain ⟨-, rfl, -⟩ := heq
        exact bnLe_refl _
      · obtain ⟨nb, hnb, hle⟩ := h.acc_vote_le_nb _ bn'' d hold
        rw [hg] at hnb
        injection hnb with e
        subst e
        exact hle
    · simp only [if_neg ha'] at hv
      rcases Finset.mem_insert.1 hmem with heq | hold
      · simp only [Prod.mk.injEq] at heq
        exact absurd heq.1 ha'
      · exact h.acc_lastvote_max a' v bn'' d hv hold
  -- acc_lastvote_none
  · intro a' bn'' d hv hmem
    by_cases ha' : a' = a
    · subst ha'
      dsimp only at hv
      rw [if_pos rfl] at hv
      exact Option.noConfusion hv
    · simp only [if_neg ha'] at hv
      rcases Finset.mem_insert.1 hmem with heq | hold
      · simp only [Prod.mk.injEq] at heq
        exact absurd heq.1 ha'
      · exact h.acc_lastvote_none a' bn'' d hv hold
  -- resp_some
  · intro a' bn₀ bv dv hmem
    obtain ⟨h1, h2, h3⟩ := h.resp_some a' bn₀ bv dv hmem
    refine ⟨hvmono h1, h2, ?_⟩
    intro bn'' d'' hmem'' hlt''
    rcases Finset.mem_insert.1 hmem'' with heq | hold
    · simp only [Prod.mk.injEq] at heq
      obtain ⟨rfl, rfl, -⟩ := heq
      obtain ⟨nb, hnb, hle⟩ := h.acc_responded_le a' bn₀ (some (bv, dv)) hmem
      rw [hg] at hnb
      injection hnb with e
      subst e
      exact absurd hle (fun hle => bnLt_le_absurd hlt'' hle)
    · exact h3 bn'' d'' hold hlt''
  -- resp_none
  · intro a' bn₀ hmem
    intro bn'' d'' hmem''
    rcases Finset.mem_insert.1 hmem'' with heq | hold
    · simp only [Prod.mk.injEq] at heq
      obtain ⟨rfl, rfl, -⟩ := heq
      obtain ⟨nb, hnb, hle⟩ := h.acc_responded_le a' bn₀ none hmem
      rw [hg] at hnb
      injection hnb with e
      subst e
      by_contra hne
      rw [Bool.not_eq_false] at hne
      exact bnLt_le_absurd hne hle
    · exact h.resp_none a' bn₀ hmem bn'' d'' hold
  -- vote_begun
  · intro a' bn'' d hmem
    rcases Finset.mem_insert.1 hmem with heq | hold
    · simp only [Prod.mk.injEq] at heq
      obtain ⟨-, rfl, rfl⟩ := heq
      exact hB
    · exact h.vote_begun a' bn'' d hold
  -- prop_voters
  · intro p B' hB' a' ha'
    obtain ⟨d₀, hd⟩ := h.prop_voters p B' hB' a' ha'
    exact ⟨d₀, hvmono hd⟩
  -- net_nextballot
  · intro dest au' bn' hmem
    rcases Multiset.mem_add.1 hmem with hold | hnew
    · exact h.net_nextballot dest au' bn' hold
    · rw [Multiset.mem_singleton] at hnew
      cases hnew
  -- net_lastvote
  · intro dest a' bn' lv' hmem
    rcases Multiset.mem_add.1 hmem with hold | hnew
    · exact h.net_lastvote dest a' bn' lv' hold
    · rw [Multiset.mem_singleton] at hnew
      cases hnew
  -- net_beginballot
  · intro dest au' B' d hmem
    rcases Multiset.mem_add.1 hmem with hold | hnew
    · exact h.net_beginballot dest au' B' d hold
    · rw [Multiset.mem_singleton] at hnew
      cases hnew
  -- net_voted
  · intro dest au' v hmem
    rcases Multiset.mem_add.1 hmem with hold | hnew
    · exact hvmono (h.net_voted dest au' v hold)
    · rw [Multiset.mem_singleton] at hnew
      simp only [Prod.mk.injEq, Message.voted.injEq] at hnew
      obtain ⟨rfl, rfl, rfl⟩ := hnew
      exact Finset.mem_insert_self _ _
  -- net_success
  · intro dest au' d obn hmem
    rcases Multiset.mem_add.1 hmem with hold | hnew
    · obtain ⟨bn₀, hch⟩ := h.net_success dest au' d obn hold
      refine ⟨bn₀, ChosenAt_mono t _ ?_ ?_ hvmono bn₀ d hch⟩
      · exact fun x hx => hx
      · exact fun x hx => hx
    · rw [Multiset.mem_singleton] at hnew
      cases hnew
  -- lv_count
  · intro a' bn'
    have hnet : lvNetCount
        { t with
          acc := fun x =>
            if x = a then ⟨some ⟨B, a⟩, (t.acc a).next_ballot⟩ else t.acc x
          net := t.net + {(au, Message.voted a ⟨B, a⟩)}
          hVotes := insert (a, B.number, B.decree) t.hVotes } a' bn' =
        lvNetCount t a' bn' := by
      unfold lvNetCount
      rw [Multiset.countP_add]
      rw [show ({(au, Message.voted a ⟨B, a⟩)} : Multiset (Int × Message)) =
          (au, Message.voted a ⟨B, a⟩) ::ₘ 0 from rfl]
      rw [Multiset.countP_cons, Multiset.countP_zero]
      simp [lvKey]
    have hg2 : ghostCount
        { t with
          acc := fun x =>
            if x = a then ⟨some ⟨B, a⟩, (t.acc a).next_ballot⟩ else t.acc x
          net := t.net + {(au, Message.voted a ⟨B, a⟩)}
          hVotes := insert (a, B.number, B.decree) t.hVotes } a' bn' =
        ghostCount t a' bn' := rfl
    have := h.lv_count a' bn'
    unfold lvTotal at *
    rw [hnet, hg2]
    exact this
  -- key
  · intro bn2 d2 bn1 d1 h2 h1 hlt hch
    apply h.key bn2 d2 bn1 d1 h2 h1 hlt
    obtain ⟨q₁, hq₁, hcond⟩ := hch
    refine ⟨q₁, hq₁, ?_⟩
    intro a' ha'
    rcases hcond a' ha' with hnl | hv
    · exact Or.inl hnl
    · obtain ⟨d₀, hd⟩ := hv
      rcases Finset.mem_insert.1 hd with heq | hold
      · simp only [Prod.mk.injEq] at heq
        obtain ⟨rfl, rfl, -⟩ := heq
        left
        rintro ⟨bn', lv', hr, hlt'⟩
        obtain ⟨nb, hnb, hle⟩ := h.acc_responded_le a' bn' lv' hr
        rw [hg] at hnb
        injection hnb with e
        subst e
        exact bnLt_le_absurd hlt' hle
      · exact Or.inr ⟨d₀, hold⟩
  -- ledger_chosen
  · intro x d hx
    obtain ⟨bn₀, hch⟩ := h.ledger_chosen x d hx
    refine ⟨bn₀, ChosenAt_mono t _ ?_ ?_ hvmono bn₀ d hch⟩
    · exact fun x hx => hx
    · exact fun x hx => hx

/-- Helper: the `on_success` ledger write preserves the invariant, given that
the decree was chosen (the provenance of the delivered `Success` message). -/
theorem invB_onSuccess (props accs : Finset Int) (t : GStateB) (x : Int)
    (d : Proposal) (h : InvB props accs t) (hch : ∃ bn, ChosenAt t bn d) :
    InvB props accs
      { t with ledger := fun y => if y = x then some d else t.ledger y } := by
  refine
    { acc_responded_le := h.acc_responded_le
      acc_vote_le_nb := h.acc_vote_le_nb
      acc_lastvote_vote := h.acc_lastvote_vote
      acc_lastvote_max := h.acc_lastvote_max
      acc_lastvote_none := h.acc_lastvote_none
      resp_unique := h.resp_unique
      resp_started := h.resp_started
      resp_some := h.resp_some
      resp_none := h.resp_none
      vote_begun := h.vote_begun
      started_unique := h.started_unique
      started_quorum := h.started_quorum
      begun_unique := h.begun_unique
      begun_started := h.begun_started
      begun_promised := h.begun_promised
      prop_started := h.prop_started
      prop_started_max := h.prop_started_max
      prop_none_fresh := h.prop_none_fresh
      ghost_mirror := h.ghost_mirror
      ghost_content := h.ghost_content
      ghost_nodup := h.ghost_nodup
      ghost_len := h.ghost_len
      prop_begun_full := h.prop_begun_full
      prop_voters := h.prop_voters
      net_nextballot := h.net_nextballot
      net_lastvote := h.net_lastvote
      net_beginballot := h.net_beginballot
      net_voted := h.net_voted
      net_success := h.net_success
      lv_count := h.lv_count
      key := h.key
      ledger_chosen := ?_ }
  intro y d' hy
  by_cases hyx : y = x
  · subst hyx
    dsimp only at hy
    rw [if_pos rfl] at hy
    injection hy with e
    subst e
    exact hch
  · dsimp only at hy
    rw [if_neg hyx] at hy
    exact h.ledger_chosen y d' hy

/-- Helper: core of the `on_voted` preservation argument, with the grown
voter set `vs` and the broadcast multiset `out` abstracted. -/
theorem invB_onVoted_core (props accs : Finset Int) (t : GStateB) (p : Int)
    (vs : Finset Int) (out : Multiset (Int × Message)) (B : Ballot)
    (h : InvB props accs t)
    (hLT : (t.prop p).last_tried = some B)
    (hvs : ∀ a ∈ vs, votedAt t a B.number)
    (hout : ∀ e ∈ out, ∃ x, e = (x, Message.success p B.decree none))
    (hch : out ≠ 0 → ChosenAt t B.number B.decree) :
    InvB props accs
      { t with
        prop := fun x =>
          if x = p then ⟨some { B with voters := vs }, (t.prop p).responses⟩
          else t.prop x
        net := t.net + out } := by
  have hout0 : ∀ a bn, Multiset.countP
      (fun pm => lvKey pm.2 = some (a, bn)) out = 0 := by
    intro a bn
    rw [Multiset.countP_eq_zero]
    intro e he hk
    obtain ⟨x, rfl⟩ := hout e he
    simp [lvKey] at hk
  refine
    { acc_responded_le := h.acc_responded_le
      acc_vote_le_nb := h.acc_vote_le_nb
      acc_lastvote_vote := h.acc_lastvote_vote
      acc_lastvote_max := h.acc_lastvote_max
      acc_lastvote_none := h.acc_lastvote_none
      resp_unique := h.resp_unique
      resp_started := h.resp_started
      resp_some := h.resp_some
      resp_none := h.resp_none
      vote_begun := h.vote_begun
      started_unique := h.started_unique
      started_quorum := h.started_quorum
      begun_unique := h.begun_unique
      begun_started := h.begun_started
      begun_promised := h.begun_promised
      prop_started := ?_
      prop_started_max := ?_
      prop_none_fresh := ?_
      ghost_mirror := ?_
      ghost_content := ?_
      ghost_nodup := h.ghost_nodup
      ghost_len := ?_
      prop_begun_full := ?_
      prop_voters := ?_
      net_nextballot := ?_
      net_lastvote := ?_
      net_beginballot := ?_
      net_voted := ?_
      net_success := ?_
      lv_count := ?_
      key := h.key
      ledger_chosen := h.ledger_chosen }
  -- prop_started
  · intro p' B₀ hB₀
    by_cases hp : p' = p
    · subst hp
      dsimp only at hB₀
      rw [if_pos rfl] at hB₀
      injection hB₀ with e
      subst e
      exact h.prop_started p' B hLT
    · dsimp only at hB₀
      rw [if_neg hp] at hB₀
      exact h.prop_started p' B₀ hB₀
  -- prop_started_max
  · intro p' B₀ bn q hB₀ hst hag
    by_cases hp : p' = p
    · subst hp
      dsimp only at hB₀
      rw [if_pos rfl] at hB₀
      injection hB₀ with e
      subst e
      exact h.prop_started_max p' B bn q hLT hst hag
    · dsimp only at hB₀
      rw [if_neg hp] at hB₀
      exact h.prop_started_max p' B₀ bn q hB₀ hst hag
  -- prop_none_fresh
  · intro p' hp'
    by_cases hp : p' = p
    · subst hp
      dsimp only at hp'
      rw [if_pos rfl] at hp'
      exact Option.noConfusion hp'
    · dsimp only at hp'
      rw [if_neg hp] at hp'
      obtain ⟨h1, h2, h3⟩ := h.prop_none_fresh p' hp'
      refine ⟨h1, ?_, h3⟩
      dsimp only
      rw [if_neg hp]
      exact h2
  -- ghost_mirror
  · intro p'
    by_cases hp : p' = p
    · subst hp
      dsimp only
      rw [if_pos rfl]
      exact h.ghost_mirror p'
    · dsimp only
      rw [if_neg hp]
      exact h.ghost_mirror p'
  -- ghost_content
  · intro p' B₀ hB₀ a lv hmem
    by_cases hp : p' = p
    · subst hp
      dsimp only at hB₀
      rw [if_pos rfl] at hB₀
      injection hB₀ with e
      subst e
      exact h.ghost_content p' B hLT a lv hmem
    · dsimp only at hB₀
      rw [if_neg hp] at hB₀
      exact h.ghost_content p' B₀ hB₀ a lv hmem
  -- ghost_len
  · intro p' B₀ hB₀
    by_cases hp : p' = p
    · subst hp
      dsimp only at hB₀
      rw [if_pos rfl] at hB₀
      injection hB₀ with e
      subst e
      exact h.ghost_len p' B hLT
    · dsimp only at hB₀
      rw [if_neg hp] at hB₀
      exact h.ghost_len p' B₀ hB₀
  -- prop_begun_full
  · intro p' B₀ d hB₀ hbeg
    by_cases hp : p' = p
    · subst hp
      dsimp only at hB₀
      rw [if_pos rfl] at hB₀
      injection hB₀ with e
      subst e
      exact h.prop_begun_full p' B d hLT hbeg
    · dsimp only at hB₀
      rw [if_neg hp] at hB₀
      exact h.prop_begun_full p' B₀ d hB₀ hbeg
  -- prop_voters
  · intro p' B₀ hB₀ a ha
    by_cases hp : p' = p
    · subst hp
      dsimp only at hB₀
      rw [if_pos rfl] at hB₀
      injection hB₀ with e
      subst e
      exact hvs a ha
    · dsimp only at hB₀
      rw [if_neg hp] at hB₀
      exact h.prop_voters p' B₀ hB₀ a ha
  -- net_nextballot
  · intro dest au bn hmem
    rcases Multiset.mem_add.1 hmem with hold | hnew
    · exact h.net_nextballot dest au bn hold
    · obtain ⟨x, he⟩ := hout _ hnew
      simp only [Prod.mk.injEq] at he
      exact absurd he.2 (fun hc => Message.noConfusion hc)
  -- net_lastvote
  · intro dest a bn lv hmem
    rcases Multiset.mem_add.1 hmem with hold | hnew
    · exact h.net_lastvote dest a bn lv hold
    · obtain ⟨x, he⟩ := hout _ hnew
      simp only [Prod.mk.injEq] at he
      exact absurd he.2 (fun hc => Message.noConfusion hc)
  -- net_beginballot
  · intro dest au B₀ d hmem
    rcases Multiset.mem_add.1 hmem with hold | hnew
    · exact h.net_beginballot dest au B₀ d hold
    · obtain ⟨x, he⟩ := hout _ hnew
      simp only [Prod.mk.injEq] at he
      exact absurd he.2 (fun hc => Message.noConfusion hc)
  -- net_voted
  · intro dest au v₀ hmem
    rcases Multiset.mem_add.1 hmem with hold | hnew
    · exact h.net_voted dest au v₀ hold
    · obtain ⟨x, he⟩ := hout _ hnew
      simp only [Prod.mk.injEq] at he
      exact absurd he.2 (fun hc => Message.noConfusion hc)
  -- net_success
  · intro dest au d obn hmem
    rcases Multiset.mem_add.1 hmem with hold | hnew
    · exact h.net_success dest au d obn hold
    · obtain ⟨x, he⟩ := hout _ hnew
      simp only [Prod.mk.injEq, Message.success.injEq] at he
      obtain ⟨-, -, rfl, -⟩ := he
      have hne : out ≠ 0 := by
        intro h0
        rw [h0] at hnew
        exact absurd hnew (Multiset.not_mem_zero _)
      exact ⟨B.number, hch hne⟩
  -- lv_count
  · intro a bn
    unfold lvTotal lvNetCount
    dsimp only
    rw [Multiset.countP_add, hout0 a bn]
    have hgc :
        ghostCount
          { t with
            prop := fun x =>
              if x = p then
                ⟨some { B with voters := vs }, (t.prop p).responses⟩
              else t.prop x
            net := t.net + out } a bn = ghostCount t a bn := by
      unfold ghostCount
      by_cases hp : bn.agent_id = p
      · rw [hp]
        dsimp only
        rw [if_pos rfl, hLT]
      · dsimp only
        rw [if_neg hp]
    rw [hgc]
    have := h.lv_count a bn
    unfold lvTotal lvNetCount at this
    omega

/-- Helper: `on_voted` preserves the invariant.  `hv` records the provenance
of the delivered `Voted` message. -/
theorem invB_onVoted (props accs : Finset Int) (t : GStateB) (p : Int)
    (v : Vote) (h : InvB props accs t)
    (hv : (v.acceptor, v.ballot.number, v.ballot.decree) ∈ t.hVotes) :
    InvB props accs (onVotedB props accs p v t) := by
  simp only [onVotedB]
  cases hLT : (t.prop p).last_tried with
  | none => exact h
  | some B =>
      dsimp only
      by_cases hg : v.ballot.number = B.number
      swap
      · rw [if_neg hg]; exact h
      rw [if_pos hg]
      have hvoted : ∀ a ∈ insert v.acceptor B.voters, votedAt t a B.number := by
        intro a ha
        rcases Finset.mem_insert.1 ha with rfl | ha
        · exact ⟨v.ballot.decree, hg ▸ hv⟩
        · exact h.prop_voters p B hLT a ha
      have hchosen : B.quorum ⊆ insert v.acceptor B.voters →
          ChosenAt t B.number B.decree := by
        intro hsub
        obtain ⟨hag, hst⟩ := h.prop_started p B hLT
        obtain ⟨hsubacc, hcard⟩ := h.started_quorum B.number B.quorum hst
        have hqne : B.quorum.Nonempty := by
          rcases Finset.eq_empty_or_nonempty B.quorum with he | hne
          · rw [he] at hcard; simp at hcard
          · exact hne
        obtain ⟨a₀, ha₀⟩ := hqne
        obtain ⟨d₀, hd₀⟩ := hvoted a₀ (hsub ha₀)
        have hbeg := h.vote_begun a₀ B.number d₀ hd₀
        obtain ⟨-, hdec⟩ := h.prop_begun_full p B d₀ hLT hbeg
        subst hdec
        exact ⟨hbeg, B.quorum, hst, fun a ha => hvoted a (hsub ha)⟩
      refine invB_onVoted_core props accs t p (insert v.acceptor B.voters)
        _ B h hLT hvoted ?_ ?_
      · intro e he
        by_cases hc : B.quorum ⊆ insert v.acceptor B.voters
        · rw [if_pos hc] at he
          obtain ⟨x, hx, heq⟩ := Multiset.mem_map.1 he
          exact ⟨x, heq.symm⟩
        · rw [if_neg hc] at he
          exact absurd he (Multiset.not_mem_zero _)
      · intro hne
        by_cases hc : B.quorum ⊆ insert v.acceptor B.voters
        · exact hchosen hc
        · rw [if_neg hc] at hne
          exact absurd rfl hne

/-- Helper: `ghostCount` when the owning proposer's current ballot matches. -/
theorem ghostCount_eq_of_match (s : GStateB) (a : Int) (bn : BallotNumber)
    (B : Ballot) (h1 : (s.prop bn.agent_id).last_tried = some B)
    (h2 : B.number = bn) :
    ghostCount s a bn =
      (s.gResp bn.agent_id).countP (fun e => decide (e.1 = a)) := by
  unfold ghostCount
  rw [h1]
  dsimp only
  rw [if_pos h2]

/-- Helper: `ghostCount` when the owning proposer's current ballot differs. -/
theorem ghostCount_eq_zero_of_ne (s : GStateB) (a : Int) (bn : BallotNumber)
    (B : Ballot) (h1 : (s.prop bn.agent_id).last_tried = some B)
    (h2 : B.number ≠ bn) : ghostCount s a bn = 0 := by
  unfold ghostCount
  rw [h1]
  dsimp only
  rw [if_neg h2]

/-- Helper: `ghostCount` when the owning proposer has no current ballot. -/
theorem ghostCount_eq_zero_of_none (s : GStateB) (a : Int) (bn : BallotNumber)
    (h1 : (s.prop bn.agent_id).last_tried = none) : ghostCount s a bn = 0 := by
  unfold ghostCount
  rw [h1]

/-- Helper: when some response is non-null, `chooseDecree` returns the decree
of a response whose ballot number dominates every responded ballot number. -/
theorem chooseDecree_mem (p : Int) (rs : List (Option Vote)) (v : Vote)
    (hv : some v ∈ rs) :
    ∃ vm, some vm ∈ rs ∧ chooseDecree p rs = vm.ballot.decree ∧
      ∀ w : Vote, some w ∈ rs → bnLe w.ballot.number vm.ballot.number = true := by
  have hmem : v.ballot ∈ (rs.filterMap id).map Vote.ballot :=
    List.mem_map_of_mem _ (List.mem_filterMap.2 ⟨some v, hv, rfl⟩)
  cases hmax : maxBallot ((rs.filterMap id).map Vote.ballot) with
  | none =>
      rw [maxBallot_eq_none _ hmax] at hmem
      simp at hmem
  | some mb =>
      obtain ⟨hmb_mem, hmb_max⟩ := maxBallot_spec _ mb hmax
      obtain ⟨vm, hvm, hvm_b⟩ := List.mem_map.1 hmb_mem
      obtain ⟨ovm, hovm, hovm2⟩ := List.mem_filterMap.1 hvm
      have hvm_rs : some vm ∈ rs := by
        simp only [id] at hovm2
        rwa [hovm2] at hovm
      refine ⟨vm, hvm_rs, ?_, ?_⟩
      · unfold chooseDecree
        rw [hmax, ← hvm_b]
      · intro w hw
        have hwmem : w.ballot ∈ (rs.filterMap id).map Vote.ballot :=
          List.mem_map_of_mem _ (List.mem_filterMap.2 ⟨some w, hw, rfl⟩)
        have := hmb_max w.ballot hwmem
        rw [← hvm_b] at this
        exact this

/-- Helper: `on_lastvote` preserves the invariant.  The hypotheses record the
provenance of the delivered `LastVote` message (`hr0`, `hdest`, `hqm`, from
`net_lastvote`) and the counting facts available on delivery: the consumed
copy was the only live record of this (author, ballot) response, so no other
copy remains in flight (`hnet0`) and the author has no entry in the current
`responses` list (`hgz`). -/
theorem invB_onLastVote (props accs : Finset Int) (t : GStateB) (p au : Int)
    (bn : BallotNumber) (lv : Option Vote) (h : InvB props accs t)
    (hr0 : (au, bn, voteProj lv) ∈ t.hResponded)
    (hdest : p = bn.agent_id)
    (hqm : ∃ q₀, (bn, q₀) ∈ t.hStarted ∧ au ∈ q₀)
    (hgz : ghostCount t au bn = 0)
    (hnet0 : lvNetCount t au bn = 0) :
    InvB props accs (onLastVoteB p au bn lv t) := by
  simp only [onLastVoteB]
  cases hLT : (t.prop p).last_tried with
  | none => exact h
  | some B =>
      dsimp only
      by_cases hg : bn = B.number
      swap
      · rw [if_neg hg]; exact h
      rw [if_pos hg]
      obtain ⟨q₀, hst₀, hau₀⟩ := hqm
      rw [hg] at hr0 hdest hgz hnet0 hst₀
      obtain ⟨hag, hstB⟩ := h.prop_started p B hLT
      have hq₀ : q₀ = B.quorum := h.started_unique B.number q₀ B.quorum hst₀ hstB
      subst hq₀
      have hLT2 : (t.prop B.number.agent_id).last_tried = some B := by
        rw [← hdest]; exact hLT
      have hnotin : ∀ e ∈ t.gResp p, e.1 ≠ au := by
        rw [ghostCount_eq_of_match t au B.number B hLT2 rfl, ← hdest] at hgz
        intro e he heq
        have := List.countP_eq_zero.1 hgz e he
        simp [heq] at this
      have hmirror := h.ghost_mirror p
      have hnodup := h.ghost_nodup p
      have hcontent := h.ghost_content p B hLT
      have hlen := h.ghost_len p B hLT
      have hlen_rs : (t.gResp p).length = (t.prop p).responses.length := by
        rw [← hmirror, List.length_map]
      have hmirror2 : (t.gResp p ++ [(au, lv)]).map Prod.snd =
          (t.prop p).responses ++ [lv] := by
        rw [List.map_append, hmirror]
        rfl
      have hnodup2 : ((t.gResp p ++ [(au, lv)]).map Prod.fst).Nodup := by
        rw [List.map_append]
        refine List.Nodup.append hnodup (List.nodup_singleton _) ?_
        intro x hx hx2
        obtain ⟨e, he, rfl⟩ := List.mem_map.1 hx
        simp only [List.map_cons, List.map_nil, List.mem_singleton] at hx2
        exact hnotin e he hx2
      have hlen_lt : (t.gResp p).length < B.quorum.card := by
        rcases lt_or_eq_of_le hlen with hlt | heq
        · exact hlt
        · exfalso
          have hsub : ∀ x ∈ (t.gResp p).map Prod.fst, x ∈ B.quorum := by
            intro x hx
            obtain ⟨e, he, rfl⟩ := List.mem_map.1 hx
            refine (hcontent e.1 e.2 ?_).1
            rw [Prod.mk.eta]
            exact he
          have hcov := nodup_cover hnodup hsub
            (by rw [List.length_map]; exact heq)
          obtain ⟨e, he, heq2⟩ := List.mem_map.1 (hcov au hau₀)
          exact hnotin e he heq2
      have hnobegun : ∀ d, (B.number, d) ∉ t.hBegun := by
        intro d hmem
        obtain ⟨hful, -⟩ := h.prop_begun_full p B d hLT hmem
        omega
      have hnovote : ∀ a d, (a, B.number, d) ∉ t.hVotes := fun a d hmem =>
        hnobegun d (h.vote_begun a B.number d hmem)
      have hresp_new : ∀ x lvx, (x, lvx) ∈ t.gResp p ++ [(au, lv)] →
          x ∈ B.quorum ∧ (x, B.number, voteProj lvx) ∈ t.hResponded := by
        intro x lvx hmem
        rcases List.mem_append.1 hmem with hold | hnew
        · have := hcontent x lvx hold
          exact this
        · simp only [List.mem_singleton, Prod.mk.injEq] at hnew
          obtain ⟨rfl, rfl⟩ := hnew
          exact ⟨hau₀, hr0⟩
      by_cases hfull : ((t.prop p).responses ++ [lv]).length = B.quorum.card
      swap
      -- ===== append-only branch =====
      · rw [if_neg hfull]
        set t2 : GStateB :=
          { t with
            prop := fun x =>
              if x = p then ⟨some B, (t.prop p).responses ++ [lv]⟩
              else t.prop x
            gResp := fun x =>
              if x = p then t.gResp p ++ [(au, lv)] else t.gResp x }
          with ht2
        have hp2p : t2.prop p = ⟨some B, (t.prop p).responses ++ [lv]⟩ := by
          rw [ht2]; dsimp only; rw [if_pos rfl]
        have hp2o : ∀ x, x ≠ p → t2.prop x = t.prop x := by
          intro x hx; rw [ht2]; dsimp only; rw [if_neg hx]
        have hg2p : t2.gResp p = t.gResp p ++ [(au, lv)] := by
          rw [ht2]; dsimp only; rw [if_pos rfl]
        have hg2o : ∀ x, x ≠ p → t2.gResp x = t.gResp x := by
          intro x hx; rw [ht2]; dsimp only; rw [if_neg hx]
        refine
          { acc_responded_le := h.acc_responded_le
            acc_vote_le_nb := h.acc_vote_le_nb
            acc_lastvote_vote := h.acc_lastvote_vote
            acc_lastvote_max := h.acc_lastvote_max
            acc_lastvote_none := h.acc_lastvote_none
            resp_unique := h.resp_unique
            resp_started := h.resp_started
            resp_some := h.resp_some
            resp_none := h.resp_none
            vote_begun := h.vote_begun
            started_unique := h.started_unique
            started_quorum := h.started_quorum
            begun_unique := h.begun_unique
            begun_started := h.begun_started
            begun_promised := h.begun_promised
            prop_started := ?_
            prop_started_max := ?_
            prop_none_fresh := ?_
            ghost_mirror := ?_
            ghost_content := ?_
            ghost_nodup := ?_
            ghost_len := ?_
            prop_begun_full := ?_
            prop_voters := ?_
            net_nextballot := h.net_nextballot
            net_lastvote := h.net_lastvote
            net_beginballot := h.net_beginballot
            net_voted := h.net_voted
            net_success := h.net_success
            lv_count := ?_
            key := h.key
            ledger_chosen := h.ledger_chosen }
        · intro p' B₀ hB₀
          by_cases hp : p' = p
          · subst hp
            rw [hp2p] at hB₀
            injection hB₀ with e
            subst e
            exact h.prop_started p' B hLT
          · rw [hp2o p' hp] at hB₀
            exact h.prop_started p' B₀ hB₀
        · intro p' B₀ bn₁ q₁ hB₀ hst hagq
          by_cases hp : p' = p
          · subst hp
            rw [hp2p] at hB₀
            injection hB₀ with e
            subst e
            exact h.prop_started_max p' B bn₁ q₁ hLT hst hagq
          · rw [hp2o p' hp] at hB₀
            exact h.prop_started_max p' B₀ bn₁ q₁ hB₀ hst hagq
        · intro p' hp'
          by_cases hp : p' = p
          · subst hp
            rw [hp2p] at hp'
            exact Option.noConfusion hp'
          · rw [hp2o p' hp] at hp'
            obtain ⟨h1, h2, h3⟩ := h.prop_none_fresh p' hp'
            refine ⟨h1, ?_, ?_⟩
            · rw [hp2o p' hp]
              exact h2
            · rw [hg2o p' hp]
              exact h3
        · intro p'
          by_cases hp : p' = p
          · subst hp
            rw [hp2p, hg2p, hmirror2]
          · rw [hp2o p' hp, hg2o p' hp]
            exact h.ghost_mirror p'
        · intro p' B₀ hB₀ a lvx hmem
          by_cases hp : p' = p
          · subst hp
            rw [hp2p] at hB₀
            injection hB₀ with e
            subst e
            rw [hg2p] at hmem
            exact hresp_new a lvx hmem
          · rw [hp2o p' hp] at hB₀
            rw [hg2o p' hp] at hmem
            exact h.ghost_content p' B₀ hB₀ a lvx hmem
        · intro p'
          by_cases hp : p' = p
          · subst hp
            rw [hg2p]
            exact hnodup2
          · rw [hg2o p' hp]
            exact h.ghost_nodup p'
        · intro p' B₀ hB₀
          by_cases hp : p' = p
          · subst hp
            rw [hp2p] at hB₀
            injection hB₀ with e
            subst e
            rw [hg2p, List.length_append]
            simp only [List.length_cons, List.length_nil]
            omega
          · rw [hp2o p' hp] at hB₀
            rw [hg2o p' hp]
            exact h.ghost_len p' B₀ hB₀
        · intro p' B₀ d hB₀ hbeg
          by_cases hp : p' = p
          · subst hp
            rw [hp2p] at hB₀
            injection hB₀ with e
            subst e
            exact absurd hbeg (hnobegun d)
          · rw [hp2o p' hp] at hB₀
            rw [hg2o p' hp]
            exact h.prop_begun_full p' B₀ d hB₀ hbeg
        · intro p' B₀ hB₀ a ha
          by_cases hp : p' = p
          · subst hp
            rw [hp2p] at hB₀
            injection hB₀ with e
            subst e
            exact h.prop_voters p' B hLT a ha
          · rw [hp2o p' hp] at hB₀
            exact h.prop_voters p' B₀ hB₀ a ha
        · intro a' bn'
          unfold lvTotal
          have hnetEq : lvNetCount t2 a' bn' = lvNetCount t a' bn' := rfl
          rw [hnetEq]
          have hpre := h.lv_count a' bn'
          unfold lvTotal at hpre
          by_cases hbp : bn'.agent_id = p
          · have hpl : (t2.prop bn'.agent_id).last_tried = some B := by
              rw [hbp, hp2p]
            by_cases hbn : B.number = bn'
            · have hgl : t2.gResp bn'.agent_id = t.gResp p ++ [(au, lv)] := by
                rw [hbp, hg2p]
              rw [ghostCount_eq_of_match t2 a' bn' B hpl hbn, hgl,
                List.countP_append]
              have hgt : ghostCount t a' bn' =
                  List.countP (fun e => decide (e.1 = a')) (t.gResp p) := by
                rw [ghostCount_eq_of_match t a' bn' B
                  (by rw [hbp]; exact hLT) hbn, hbp]
              by_cases hau2 : a' = au
              · have h1 : List.countP (fun e => decide (e.1 = a'))
                    (t.gResp p) = 0 := by
                  rw [List.countP_eq_zero]
                  intro e he
                  simp only [decide_eq_true_eq]
                  rw [hau2]
                  exact hnotin e he
                have h2 : List.countP (fun e => decide (e.1 = a'))
                    [(au, lv)] = 1 := by
                  simp [hau2]
                have h3 : lvNetCount t a' bn' = 0 := by
                  rw [hau2, ← hbn]
                  exact hnet0
                rw [h1, h2, h3]
              · have h2 : List.countP (fun e => decide (e.1 = a'))
                    [(au, lv)] = 0 := by
                  rw [List.countP_eq_zero]
                  intro e he
                  simp only [List.mem_singleton] at he
                  subst he
                  simp only [decide_eq_true_eq]
                  exact fun he2 => hau2 he2.symm
                rw [h2, ← hgt]
                omega
            · rw [ghostCount_eq_zero_of_ne t2 a' bn' B hpl hbn]
              omega
          · have hpe : t2.prop bn'.agent_id = t.prop bn'.agent_id :=
              hp2o _ hbp
            have hge : t2.gResp bn'.agent_id = t.gResp bn'.agent_id :=
              hg2o _ hbp
            have hgeq : ghostCount t2 a' bn' = ghostCount t a' bn' := by
              unfold ghostCount
              rw [hpe, hge]
            rw [hgeq]
            omega
      -- ===== begin branch =====
      · rw [if_pos hfull]
        have hghlen : (t.gResp p ++ [(au, lv)]).length = B.quorum.card := by
          rw [List.length_append] at hfull ⊢
          simp only [List.length_cons, List.length_nil] at hfull ⊢
          omega
        have hcov2 : ∀ x ∈ B.quorum, ∃ lvx, (x, lvx) ∈
            t.gResp p ++ [(au, lv)] := by
          intro x hxq
          have hsubf : ∀ y ∈ (t.gResp p ++ [(au, lv)]).map Prod.fst,
              y ∈ B.quorum := by
            intro y hy
            obtain ⟨e, he, rfl⟩ := List.mem_map.1 hy
            refine (hresp_new e.1 e.2 ?_).1
            rw [Prod.mk.eta]
            exact he
          have hlenf : ((t.gResp p ++ [(au, lv)]).map Prod.fst).length =
              B.quorum.card := by
            rw [List.length_map]
            exact hghlen
          have hcv := nodup_cover hnodup2 hsubf hlenf x hxq
          obtain ⟨e, he, heq⟩ := List.mem_map.1 hcv
          refine ⟨e.2, ?_⟩
          rw [← heq, Prod.mk.eta]
          exact he
        set dN := chooseDecree p ((t.prop p).responses ++ [lv]) with hdN
        have hkey_new : ∀ bn1 d1, (bn1, d1) ∈ t.hBegun →
            bnLt bn1 B.number = true → Choosable t bn1 → d1 = dN := by
          intro bn1 d1 hbeg1 hlt1 hch1
          obtain ⟨q₁, hq₁, hcond⟩ := hch1
          obtain ⟨hsub1, hc1⟩ := h.started_quorum bn1 q₁ hq₁
          obtain ⟨hsubB, hcB⟩ := h.started_quorum B.number B.quorum hstB
          obtain ⟨aS, haSB, haS1⟩ := quorum_inter hsubB hsub1 hcB hc1
          obtain ⟨lvS, hlvS⟩ := hcov2 aS haSB
          obtain ⟨-, hrespS⟩ := hresp_new aS lvS hlvS
          have hleft : leftOf t aS bn1 := ⟨B.number, voteProj lvS, hrespS, hlt1⟩
          have hvS : votedAt t aS bn1 := by
            rcases hcond aS haS1 with hnl | hv
            · exact absurd hleft hnl
            · exact hv
          obtain ⟨dS, hdS⟩ := hvS
          cases hlvSc : lvS with
          | none =>
              rw [hlvSc] at hrespS
              have hzz := h.resp_none aS B.number hrespS bn1 dS hdS
              rw [hlt1] at hzz
              exact Bool.noConfusion hzz
          | some vS =>
              rw [hlvSc] at hrespS
              obtain ⟨hvoteS, hltS, hgapS⟩ := h.resp_some aS B.number
                vS.ballot.number vS.ballot.decree hrespS
              have hbn1le : bnLe bn1 vS.ballot.number = true :=
                hgapS bn1 dS hdS hlt1
              have hvS_rs : some vS ∈ (t.prop p).responses ++ [lv] := by
                rw [← hmirror2]
                refine List.mem_map.2 ⟨(aS, some vS), ?_, rfl⟩
                rw [← hlvSc]
                exact hlvS
              obtain ⟨vM, hvM_rs, hvM_dec, hvM_max⟩ :=
                chooseDecree_mem p _ vS hvS_rs
              have hvM_gh : some vM ∈ (t.gResp p ++ [(au, lv)]).map Prod.snd := by
                rw [hmirror2]
                exact hvM_rs
              obtain ⟨eM, heM, heM2⟩ := List.mem_map.1 hvM_gh
              obtain ⟨-, hrespM⟩ := hresp_new eM.1 eM.2
                (by rw [Prod.mk.eta]; exact heM)
              rw [heM2] at hrespM
              obtain ⟨hvoteM, hltM, -⟩ := h.resp_some eM.1 B.number
                vM.ballot.number vM.ballot.decree hrespM
              have hbegM := h.vote_begun eM.1 vM.ballot.number
                vM.ballot.decree hvoteM
              have hle2 : bnLe bn1 vM.ballot.number = true :=
                bnLe_trans hbn1le (hvM_max vS hvS_rs)
              rw [hdN, hvM_dec]
              rcases (bnLe_iff _ _).1 hle2 with hlt2 | heq2
              · exact h.key vM.ballot.number vM.ballot.decree bn1 d1 hbegM
                  hbeg1 hlt2 ⟨q₁, hq₁, hcond⟩
              · rw [← heq2] at hbegM
                exact h.begun_unique bn1 d1 vM.ballot.decree hbeg1 hbegM
        set t3 : GStateB :=
          { t with
            prop := fun x =>
              if x = p then
                ⟨some { B with decree := dN }, (t.prop p).responses ++ [lv]⟩
              else t.prop x
            gResp := fun x =>
              if x = p then t.gResp p ++ [(au, lv)] else t.gResp x
            net := t.net + Multiset.map
              (fun a => (a, Message.beginBallot p { B with decree := dN } dN))
              B.quorum.val
            hBegun := insert (B.number, dN) t.hBegun }
          with ht3
        have hp3p : t3.prop p =
            ⟨some { B with decree := dN }, (t.prop p).responses ++ [lv]⟩ := by
          rw [ht3]; dsimp only; rw [if_pos rfl]
        have hp3o : ∀ x, x ≠ p → t3.prop x = t.prop x := by
          intro x hx; rw [ht3]; dsimp only; rw [if_neg hx]
        have hg3p : t3.gResp p = t.gResp p ++ [(au, lv)] := by
          rw [ht3]; dsimp only; rw [if_pos rfl]
        have hg3o : ∀ x, x ≠ p → t3.gResp x = t.gResp x := by
          intro x hx; rw [ht3]; dsimp only; rw [if_neg hx]
        have hbmono : t.hBegun ⊆ insert (B.number, dN) t.hBegun :=
          Finset.subset_insert _ _
        refine
          { acc_responded_le := h.acc_responded_le
            acc_vote_le_nb := h.acc_vote_le_nb
            acc_lastvote_vote := h.acc_lastvote_vote
            acc_lastvote_max := h.acc_lastvote_max
            acc_lastvote_none := h.acc_lastvote_none
            resp_unique := h.resp_unique
            resp_started := h.resp_started
            resp_some := h.resp_some
            resp_none := h.resp_none
            vote_begun := fun a bn1 d hm => hbmono (h.vote_begun a bn1 d hm)
            started_unique := h.started_unique
            started_quorum := h.started_quorum
            begun_unique := ?_
            begun_started := ?_
            begun_promised := ?_
            prop_started := ?_
            prop_started_max := ?_
            prop_none_fresh := ?_
            ghost_mirror := ?_
            ghost_content := ?_
            ghost_nodup := ?_
            ghost_len := ?_
            prop_begun_full := ?_
            prop_voters := ?_
            net_nextballot := ?_
            net_lastvote := ?_
            net_beginballot := ?_
            net_voted := ?_
            net_success := ?_
            lv_count := ?_
            key := ?_
            ledger_chosen := ?_ }
        -- begun_unique
        · intro bn1 d d2 h1 h2
          rcases Finset.mem_insert.1 h1 with he1 | ho1 <;>
            rcases Finset.mem_insert.1 h2 with he2 | ho2
          · simp only [Prod.mk.injEq] at he1 he2
            exact he1.2.trans he2.2.symm
          · simp only [Prod.mk.injEq] at he1
            obtain ⟨rfl, -⟩ := he1
            exact absurd ho2 (hnobegun d2)
          · simp only [Prod.mk.injEq] at he2
            obtain ⟨rfl, -⟩ := he2
            exact absurd ho1 (hnobegun d)
          · exact h.begun_unique bn1 d d2 ho1 ho2
        -- begun_started
        · intro bn1 d hmem
          rcases Finset.mem_insert.1 hmem with he | ho
          · simp only [Prod.mk.injEq] at he
            obtain ⟨rfl, -⟩ := he
            exact ⟨B.quorum, hstB⟩
          · exact h.begun_started bn1 d ho
        -- begun_promised
        · intro bn1 d q₁ hbeg hst a ha
          rcases Finset.mem_insert.1 hbeg with he | ho
          · simp only [Prod.mk.injEq] at he
            obtain ⟨rfl, -⟩ := he
            have hq₁B : q₁ = B.quorum :=
              h.started_unique B.number q₁ B.quorum hst hstB
            subst hq₁B
            obtain ⟨lvx, hlvx⟩ := hcov2 a ha
            exact ⟨voteProj lvx, (hresp_new a lvx hlvx).2⟩
          · exact h.begun_promised bn1 d q₁ ho hst a ha
        -- prop_started
        · intro p' B₀ hB₀
          by_cases hp : p' = p
          · subst hp
            rw [hp3p] at hB₀
            injection hB₀ with e
            subst e
            exact ⟨hag, hstB⟩
          · rw [hp3o p' hp] at hB₀
            exact h.prop_started p' B₀ hB₀
        -- prop_started_max
        · intro p' B₀ bn₁ q₁ hB₀ hst hagq
          by_cases hp : p' = p
          · subst hp
            rw [hp3p] at hB₀
            injection hB₀ with e
            subst e
            exact h.prop_started_max p' B bn₁ q₁ hLT hst hagq
          · rw [hp3o p' hp] at hB₀
            exact h.prop_started_max p' B₀ bn₁ q₁ hB₀ hst hagq
        -- prop_none_fresh
        · intro p' hp'
          by_cases hp : p' = p
          · subst hp
            rw [hp3p] at hp'
            exact Option.noConfusion hp'
          · rw [hp3o p' hp] at hp'
            obtain ⟨h1, h2, h3⟩ := h.prop_none_fresh p' hp'
            refine ⟨h1, ?_, ?_⟩
            · rw [hp3o p' hp]
              exact h2
            · rw [hg3o p' hp]
              exact h3
        -- ghost_mirror
        · intro p'
          by_cases hp : p' = p
          · subst hp
            rw [hp3p, hg3p, hmirror2]
          · rw [hp3o p' hp, hg3o p' hp]
            exact h.ghost_mirror p'
        -- ghost_content
        · intro p' B₀ hB₀ a lvx hmem
          by_cases hp : p' = p
          · subst hp
            rw [hp3p] at hB₀
            injection hB₀ with e
            subst e
            rw [hg3p] at hmem
            exact hresp_new a lvx hmem
          · rw [hp3o p' hp] at hB₀
            rw [hg3o p' hp] at hmem
            exact h.ghost_content p' B₀ hB₀ a lvx hmem
        -- ghost_nodup
        · intro p'
          by_cases hp : p' = p
          · subst hp
            rw [hg3p]
            exact hnodup2
          · rw [hg3o p' hp]
            exact h.ghost_nodup p'
        -- ghost_len
        · intro p' B₀ hB₀
          by_cases hp : p' = p
          · subst hp
            rw [hp3p] at hB₀
            injection hB₀ with e
            subst e
            rw [hg3p]
            exact le_of_eq hghlen
          · rw [hp3o p' hp] at hB₀
            rw [hg3o p' hp]
            exact h.ghost_len p' B₀ hB₀
        -- prop_begun_full
        · intro p' B₀ d hB₀ hbeg
          by_cases hp : p' = p
          · subst hp
            rw [hp3p] at hB₀
            injection hB₀ with e
            subst e
            rcases Finset.mem_insert.1 hbeg with he | ho
            · simp only [Prod.mk.injEq] at he
              obtain ⟨-, rfl⟩ := he
              rw [hg3p]
              exact ⟨hghlen, rfl⟩
            · exact absurd ho (hnobegun d)
          · rw [hp3o p' hp] at hB₀
            rcases Finset.mem_insert.1 hbeg with he | ho
            · simp only [Prod.mk.injEq] at he
              obtain ⟨heq, -⟩ := he
              have := (h.prop_started p' B₀ hB₀).1
              rw [heq, hag] at this
              exact absurd this.symm hp
            · rw [hg3o p' hp]
              exact h.prop_begun_full p' B₀ d hB₀ ho
        -- prop_voters
        · intro p' B₀ hB₀ a ha
          by_cases hp : p' = p
          · subst hp
            rw [hp3p] at hB₀
            injection hB₀ with e
            subst e
            exact h.prop_voters p' B hLT a ha
          · rw [hp3o p' hp] at hB₀
            exact h.prop_voters p' B₀ hB₀ a ha
        -- net_nextballot
        · intro dest au2 bn2 hmem
          have hmem2 : (dest, Message.nextBallot au2 bn2) ∈ t.net +
              Multiset.map
                (fun a => (a, Message.beginBallot p { B with decree := dN } dN))
                B.quorum.val := by
            rw [ht3] at hmem
            exact hmem
          rcases Multiset.mem_add.1 hmem2 with hold | hnew
          · exact h.net_nextballot dest au2 bn2 hold
          · obtain ⟨a₀, ha₀, heq⟩ := Multiset.mem_map.1 hnew
            simp only [Prod.mk.injEq] at heq
            exact absurd heq.2 (fun hc => Message.noConfusion hc)
        -- net_lastvote
        · intro dest a bn2 lvx hmem
          have hmem2 : (dest, Message.lastVote a bn2 lvx) ∈ t.net +
              Multiset.map
                (fun a => (a, Message.beginBallot p { B with decree := dN } dN))
                B.quorum.val := by
            rw [ht3] at hmem
            exact hmem
          rcases Multiset.mem_add.1 hmem2 with hold | hnew
          · exact h.net_lastvote dest a bn2 lvx hold
          · obtain ⟨a₀, ha₀, heq⟩ := Multiset.mem_map.1 hnew
            simp only [Prod.mk.injEq] at heq
            exact absurd heq.2 (fun hc => Message.noConfusion hc)
        -- net_beginballot
        · intro dest au2 B₀ d hmem
          have hmem2 : (dest, Message.beginBallot au2 B₀ d) ∈ t.net +
              Multiset.map
                (fun a => (a, Message.beginBallot p { B with decree := dN } dN))
                B.quorum.val := by
            rw [ht3] at hmem
            exact hmem
          rcases Multiset.mem_add.1 hmem2 with hold | hnew
          · obtain ⟨h1, h2⟩ := h.net_beginballot dest au2 B₀ d hold
            exact ⟨hbmono h1, h2⟩
          · obtain ⟨a₀, ha₀, heq⟩ := Multiset.mem_map.1 hnew
            simp only [Prod.mk.injEq, Message.beginBallot.injEq] at heq
            obtain ⟨rfl, -, rfl, rfl⟩ := heq
            exact ⟨Finset.mem_insert_self _ _, rfl⟩
        -- net_voted
        · intro dest au2 v hmem
          have hmem2 : (dest, Message.voted au2 v) ∈ t.net +
              Multiset.map
                (fun a => (a, Message.beginBallot p { B with decree := dN } dN))
                B.quorum.val := by
            rw [ht3] at hmem
            exact hmem
          rcases Multiset.mem_add.1 hmem2 with hold | hnew
          · exact h.net_voted dest au2 v hold
          · obtain ⟨a₀, ha₀, heq⟩ := Multiset.mem_map.1 hnew
            simp only [Prod.mk.injEq] at heq
            exact absurd heq.2 (fun hc => Message.noConfusion hc)
        -- net_success
        · intro dest au2 d obn hmem
          have hmem2 : (dest, Message.success au2 d obn) ∈ t.net +
              Multiset.map
                (fun a => (a, Message.beginBallot p { B with decree := dN } dN))
                B.quorum.val := by
            rw [ht3] at hmem
            exact hmem
          rcases Multiset.mem_add.1 hmem2 with hold | hnew
          · obtain ⟨bn₀, hch⟩ := h.net_success dest au2 d obn hold
            refine ⟨bn₀, ChosenAt_mono t _ ?_ ?_ ?_ bn₀ d hch⟩
            · exact hbmono
            · exact fun x hx => hx
            · exact fun x hx => hx
          · obtain ⟨a₀, ha₀, heq⟩ := Multiset.mem_map.1 hnew
            simp only [Prod.mk.injEq] at heq
            exact absurd heq.2 (fun hc => Message.noConfusion hc)
        -- lv_count
        · intro a' bn'
          unfold lvTotal
          have hnet3 : lvNetCount t3 a' bn' = lvNetCount t a' bn' := by
            unfold lvNetCount
            rw [ht3]
            dsimp only
            rw [Multiset.countP_add]
            have hz : Multiset.countP (fun pm => lvKey pm.2 = some (a', bn'))
                (Multiset.map
                  (fun a => (a, Message.beginBallot p
                    { B with decree := dN } dN)) B.quorum.val) = 0 := by
              rw [Multiset.countP_eq_zero]
              intro e he hk
              obtain ⟨a₀, ha₀, heq⟩ := Multiset.mem_map.1 he
              rw [← heq] at hk
              simp [lvKey] at hk
            rw [hz]
            omega
          rw [hnet3]
          have hpre := h.lv_count a' bn'
          unfold lvTotal at hpre
          by_cases hbp : bn'.agent_id = p
          · have hpl : (t3.prop bn'.agent_id).last_tried =
                some { B with decree := dN } := by
              rw [hbp, hp3p]
            by_cases hbn : B.number = bn'
            · have hgl : t3.gResp bn'.agent_id = t.gResp p ++ [(au, lv)] := by
                rw [hbp, hg3p]
              rw [ghostCount_eq_of_match t3 a' bn' { B with decree := dN }
                hpl hbn, hgl, List.countP_append]
              have hgt : ghostCount t a' bn' =
                  List.countP (fun e => decide (e.1 = a')) (t.gResp p) := by
                rw [ghostCount_eq_of_match t a' bn' B
                  (by rw [hbp]; exact hLT) hbn, hbp]
              by_cases hau2 : a' = au
              · have h1 : List.countP (fun e => decide (e.1 = a'))
                    (t.gResp p) = 0 := by
                  rw [List.countP_eq_zero]
                  intro e he
                  simp only [decide_eq_true_eq]
                  rw [hau2]
                  exact hnotin e he
                have h2 : List.countP (fun e => decide (e.1 = a'))
                    [(au, lv)] = 1 := by
                  simp [hau2]
                have h3 : lvNetCount t a' bn' = 0 := by
                  rw [hau2, ← hbn]
                  exact hnet0
                rw [h1, h2, h3]
              · have h2 : List.countP (fun e => decide (e.1 = a'))
                    [(au, lv)] = 0 := by
                  rw [List.countP_eq_zero]
                  intro e he
                  simp only [List.mem_singleton] at he
                  subst he
                  simp only [decide_eq_true_eq]
                  exact fun he2 => hau2 he2.symm
                rw [h2, ← hgt]
                omega
            · rw [ghostCount_eq_zero_of_ne t3 a' bn'
                { B with decree := dN } hpl hbn]
              omega
          · have hpe : t3.prop bn'.agent_id = t.prop bn'.agent_id :=
              hp3o _ hbp
            have hge : t3.gResp bn'.agent_id = t.gResp bn'.agent_id :=
              hg3o _ hbp
            have hgeq : ghostCount t3 a' bn' = ghostCount t a' bn' := by
              unfold ghostCount
              rw [hpe, hge]
            rw [hgeq]
            omega
        -- key
        · intro bn2 d2 bn1 d1 h2 h1 hlt hch
          rcases Finset.mem_insert.1 h2 with he2 | ho2 <;>
            rcases Finset.mem_insert.1 h1 with he1 | ho1
          · simp only [Prod.mk.injEq] at he1 he2
            rw [he1.1, he2.1] at hlt
            rw [bnLt_irrefl] at hlt
            exact Bool.noConfusion hlt
          · simp only [Prod.mk.injEq] at he2
            rw [he2.2]
            refine hkey_new bn1 d1 ho1 ?_ hch
            rw [← he2.1]
            exact hlt
          · exfalso
            simp only [Prod.mk.injEq] at he1
            obtain ⟨q₁, hq₁, hcond⟩ := hch
            rw [he1.1] at hq₁ hcond
            have hq₁B : q₁ = B.quorum :=
              h.started_unique B.number q₁ B.quorum hq₁ hstB
            subst hq₁B
            obtain ⟨q₂, hq₂⟩ := h.begun_started bn2 d2 ho2
            obtain ⟨hsub2, hc2⟩ := h.started_quorum bn2 q₂ hq₂
            obtain ⟨hsubB, hcB⟩ := h.started_quorum B.number B.quorum hstB
            obtain ⟨aS, haSB, haS2⟩ := quorum_inter hsubB hsub2 hcB hc2
            obtain ⟨lv₂, hlv₂⟩ := h.begun_promised bn2 d2 q₂ ho2 hq₂ aS haS2
            have hlt2 : bnLt B.number bn2 = true := by
              rw [← he1.1]
              exact hlt
            have hleft : leftOf t aS B.number := ⟨bn2, lv₂, hlv₂, hlt2⟩
            rcases hcond aS haSB with hnl | hv
            · exact hnl hleft
            · obtain ⟨dS, hdS⟩ := hv
              exact hnovote aS dS hdS
          · exact h.key bn2 d2 bn1 d1 ho2 ho1 hlt hch
        -- ledger_chosen
        · intro x d hx
          obtain ⟨bn₀, hch⟩ := h.ledger_chosen x d hx
          refine ⟨bn₀, ChosenAt_mono t _ ?_ ?_ ?_ bn₀ d hch⟩
          · exact hbmono
          · exact fun y hy => hy
          · exact fun y hy => hy

/-- Helper: `initiate_new_ballot` preserves the invariant. -/
theorem invB_initiate (props accs : Finset Int) (t : GStateB) (p : Int)
    (q : Finset Int) (h : InvB props accs t) (hq : q ⊆ accs)
    (hcard : q.card = accs.card / 2 + 1) :
    InvB props accs (initiateB p q t) := by
  simp only [initiateB]
  set bnN := basicNewBallotNumber p (t.prop p).last_tried with hbnN
  have hagent : bnN.agent_id = p := by
    rw [hbnN]
    cases (t.prop p).last_tried <;> rfl
  have hfresh : ∀ q₀, (bnN, q₀) ∉ t.hStarted := by
    intro q₀ hmem
    cases hLT : (t.prop p).last_tried with
    | none =>
        rw [hLT] at hbnN
        exact absurd hagent ((h.prop_none_fresh p hLT).1 bnN q₀ hmem)
    | some B =>
        have hmax := h.prop_started_max p B bnN q₀ hLT hmem hagent
        rw [hLT] at hbnN
        simp only [basicNewBallotNumber] at hbnN
        rw [hbnN] at hmax
        simp at hmax
  have hbegun_fresh : ∀ d, (bnN, d) ∉ t.hBegun := by
    intro d hmem
    obtain ⟨q₀, hst⟩ := h.begun_started bnN d hmem
    exact hfresh q₀ hst
  have hstarted_mono : t.hStarted ⊆ insert (bnN, q) t.hStarted :=
    Finset.subset_insert _ _
  refine
    { acc_responded_le := h.acc_responded_le
      acc_vote_le_nb := h.acc_vote_le_nb
      acc_lastvote_vote := h.acc_lastvote_vote
      acc_lastvote_max := h.acc_lastvote_max
      acc_lastvote_none := h.acc_lastvote_none
      resp_unique := h.resp_unique
      resp_started := ?_
      resp_some := h.resp_some
      resp_none := h.resp_none
      vote_begun := h.vote_begun
      started_unique := ?_
      started_quorum := ?_
      begun_unique := h.begun_unique
      begun_started := ?_
      begun_promised := ?_
      prop_started := ?_
      prop_started_max := ?_
      prop_none_fresh := ?_
      ghost_mirror := ?_
      ghost_content := ?_
      ghost_nodup := ?_
      ghost_len := ?_
      prop_begun_full := ?_
      prop_voters := ?_
      net_nextballot := ?_
      net_lastvote := ?_
      net_beginballot := ?_
      net_voted := ?_
      net_success := ?_
      lv_count := ?_
      key := ?_
      ledger_chosen := ?_ }
  -- resp_started
  · intro a bn lv hmem
    obtain ⟨q₀, hst⟩ := h.resp_started a bn lv hmem
    exact ⟨q₀, hstarted_mono hst⟩
  -- started_unique
  · intro bn q₁ q₂ h1 h2
    rcases Finset.mem_insert.1 h1 with he1 | ho1 <;>
      rcases Finset.mem_insert.1 h2 with he2 | ho2
    · simp only [Prod.mk.injEq] at he1 he2
      exact he1.2.trans he2.2.symm
    · simp only [Prod.mk.injEq] at he1
      obtain ⟨rfl, -⟩ := he1
      exact absurd ho2 (hfresh q₂)
    · simp only [Prod.mk.injEq] at he2
      obtain ⟨rfl, -⟩ := he2
      exact absurd ho1 (hfresh q₁)
    · exact h.started_unique bn q₁ q₂ ho1 ho2
  -- started_quorum
  · intro bn q₀ hmem
    rcases Finset.mem_insert.1 hmem with heq | hold
    · simp only [Prod.mk.injEq] at heq
      obtain ⟨-, rfl⟩ := heq
      refine ⟨hq, ?_⟩
      omega
    · exact h.started_quorum bn q₀ hold
  -- begun_started
  · intro bn d hmem
    obtain ⟨q₀, hst⟩ := h.begun_started bn d hmem
    exact ⟨q₀, hstarted_mono hst⟩
  -- begun_promised
  · intro bn d q₀ hbeg hst a ha
    rcases Finset.mem_insert.1 hst with heq | hold
    · simp only [Prod.mk.injEq] at heq
      obtain ⟨rfl, -⟩ := heq
      exact absurd hbeg (hbegun_fresh d)
    · exact h.begun_promised bn d q₀ hbeg hold a ha
  -- prop_started
  · intro p' B₀ hB₀
    by_cases hp : p' = p
    · subst hp
      dsimp only at hB₀
      rw [if_pos rfl] at hB₀
      injection hB₀ with e
      subst e
      exact ⟨hagent, Finset.mem_insert_self _ _⟩
    · dsimp only at hB₀
      rw [if_neg hp] at hB₀
      obtain ⟨h1, h2⟩ := h.prop_started p' B₀ hB₀
      exact ⟨h1, hstarted_mono h2⟩
  -- prop_started_max
  · intro p' B₀ bn q₀ hB₀ hst hag
    by_cases hp : p' = p
    · subst hp
      dsimp only at hB₀
      rw [if_pos rfl] at hB₀
      injection hB₀ with e
      subst e
      rcases Finset.mem_insert.1 hst with heq | hold
      · simp only [Prod.mk.injEq] at heq
        obtain ⟨rfl, -⟩ := heq
        exact le_refl _
      · cases hLT : (t.prop p').last_tried with
        | none =>
            exact absurd hag ((h.prop_none_fresh p' hLT).1 bn q₀ hold)
        | some B =>
            have hmax := h.prop_started_max p' B bn q₀ hLT hold hag
            rw [hLT] at hbnN
            simp only [basicNewBallotNumber] at hbnN
            rw [hbnN]
            simp only [freshBallot]
            omega
    · dsimp only at hB₀
      rw [if_neg hp] at hB₀
      rcases Finset.mem_insert.1 hst with heq | hold
      · simp only [Prod.mk.injEq] at heq
        obtain ⟨rfl, -⟩ := heq
        rw [hagent] at hag
        exact absurd hag.symm hp
      · exact h.prop_started_max p' B₀ bn q₀ hB₀ hold hag
  -- prop_none_fresh
  · intro p' hp'
    by_cases hp : p' = p
    · subst hp
      dsimp only at hp'
      rw [if_pos rfl] at hp'
      exact Option.noConfusion hp'
    · dsimp only at hp'
      rw [if_neg hp] at hp'
      obtain ⟨h1, h2, h3⟩ := h.prop_none_fresh p' hp'
      refine ⟨?_, ?_, ?_⟩
      · intro bn q₀ hmem
        rcases Finset.mem_insert.1 hmem with heq | hold
        · simp only [Prod.mk.injEq] at heq
          obtain ⟨rfl, -⟩ := heq
          rw [hagent]
          exact fun he => hp he.symm
        · exact h1 bn q₀ hold
      · dsimp only
        rw [if_neg hp]
        exact h2
      · dsimp only
        rw [if_neg hp]
        exact h3
  -- ghost_mirror
  · intro p'
    by_cases hp : p' = p
    · subst hp
      dsimp only
      rw [if_pos rfl, if_pos rfl]
      rfl
    · dsimp only
      rw [if_neg hp, if_neg hp]
      exact h.ghost_mirror p'

  -- ghost_content
  · intro p' B₀ hB₀ a lv hmem
    by_cases hp : p' = p
    · subst hp
      dsimp only at hmem
      rw [if_pos rfl] at hmem
      exact absurd hmem (List.not_mem_nil _)
    · dsimp only at hB₀ hmem
      rw [if_neg hp] at hB₀ hmem
      exact h.ghost_content p' B₀ hB₀ a lv hmem
  -- ghost_nodup
  · intro p'
    by_cases hp : p' = p
    · subst hp
      dsimp only
      rw [if_pos rfl]
      exact List.nodup_nil
    · dsimp only
      rw [if_neg hp]
      exact h.ghost_nodup p'
  -- ghost_len
  · intro p' B₀ hB₀
    by_cases hp : p' = p
    · subst hp
      dsimp only at hB₀ ⊢
      rw [if_pos rfl] at hB₀ ⊢
      exact Nat.zero_le _
    · dsimp only at hB₀ ⊢
      rw [if_neg hp] at hB₀ ⊢
      exact h.ghost_len p' B₀ hB₀
  -- prop_begun_full
  · intro p' B₀ d hB₀ hbeg
    by_cases hp : p' = p
    · subst hp
      dsimp only at hB₀
      rw [if_pos rfl] at hB₀
      injection hB₀ with e
      subst e
      exact absurd hbeg (hbegun_fresh d)
    · dsimp only at hB₀ ⊢
      rw [if_neg hp] at hB₀
      obtain ⟨h1, h2⟩ := h.prop_begun_full p' B₀ d hB₀ hbeg
      rw [if_neg hp]
      exact ⟨h1, h2⟩
  -- prop_voters
  · intro p' B₀ hB₀ a ha
    by_cases hp : p' = p
    · subst hp
      dsimp only at hB₀
      rw [if_pos rfl] at hB₀
      injection hB₀ with e
      subst e
      exact absurd ha (Finset.not_mem_empty a)
    · dsimp only at hB₀
      rw [if_neg hp] at hB₀
      exact h.prop_voters p' B₀ hB₀ a ha
  -- net_nextballot
  · intro dest au bn hmem
    rcases Multiset.mem_add.1 hmem with hold | hnew
    · obtain ⟨q₀, h1, h2, h3⟩ := h.net_nextballot dest au bn hold
      exact ⟨q₀, hstarted_mono h1, h2, h3⟩
    · obtain ⟨a₀, ha₀, heq⟩ := Multiset.mem_map.1 hnew
      simp only [Prod.mk.injEq, Message.nextBallot.injEq] at heq
      obtain ⟨rfl, rfl, rfl⟩ := heq
      exact ⟨q, Finset.mem_insert_self _ _, ha₀, hagent.symm⟩
  -- net_lastvote
  · intro dest a bn lv hmem
    rcases Multiset.mem_add.1 hmem with hold | hnew
    · obtain ⟨h1, h2, q₀, h3, h4⟩ := h.net_lastvote dest a bn lv hold
      exact ⟨h1, h2, q₀, hstarted_mono h3, h4⟩
    · obtain ⟨a₀, ha₀, heq⟩ := Multiset.mem_map.1 hnew
      simp only [Prod.mk.injEq] at heq
      exact absurd heq.2 (fun hc => Message.noConfusion hc)
  -- net_beginballot
  · intro dest au B₀ d hmem
    rcases Multiset.mem_add.1 hmem with hold | hnew
    · exact h.net_beginballot dest au B₀ d hold
    · obtain ⟨a₀, ha₀, heq⟩ := Multiset.mem_map.1 hnew
      simp only [Prod.mk.injEq] at heq
      exact absurd heq.2 (fun hc => Message.noConfusion hc)
  -- net_voted
  · intro dest au v hmem
    rcases Multiset.mem_add.1 hmem with hold | hnew
    · exact h.net_voted dest au v hold
    · obtain ⟨a₀, ha₀, heq⟩ := Multiset.mem_map.1 hnew
      simp only [Prod.mk.injEq] at heq
      exact absurd heq.2 (fun hc => Message.noConfusion hc)
  -- net_success
  · intro dest au d obn hmem
    rcases Multiset.mem_add.1 hmem with hold | hnew
    · obtain ⟨bn₀, hch⟩ := h.net_success dest au d obn hold
      refine ⟨bn₀, ChosenAt_mono t _ ?_ ?_ ?_ bn₀ d hch⟩
      · exact fun x hx => hx
      · exact hstarted_mono
      · exact fun x hx => hx
    · obtain ⟨a₀, ha₀, heq⟩ := Multiset.mem_map.1 hnew
      simp only [Prod.mk.injEq] at heq
      exact absurd heq.2 (fun hc => Message.noConfusion hc)
  -- lv_count
  · intro a bn
    unfold lvTotal lvNetCount
    dsimp only
    rw [Multiset.countP_add]
    have hz : Multiset.countP (fun pm => lvKey pm.2 = some (a, bn))
        (Multiset.map (fun a₀ => (a₀, Message.nextBallot p bnN)) q.val) = 0 := by
      rw [Multiset.countP_eq_zero]
      intro e he hk
      obtain ⟨a₀, ha₀, heq⟩ := Multiset.mem_map.1 he
      rw [← heq] at hk
      simp [lvKey] at hk
    rw [hz]
    have hpre := h.lv_count a bn
    unfold lvTotal lvNetCount at hpre
    by_cases hp : bn.agent_id = p
    · have hg0 : ghostCount
          { t with
            prop := fun x =>
              if x = p then ⟨some (freshBallot bnN q), []⟩ else t.prop x
            net := t.net +
              Multiset.map (fun a₀ => (a₀, Message.nextBallot p bnN)) q.val
            hStarted := insert (bnN, q) t.hStarted
            gResp := fun x => if x = p then [] else t.gResp x } a bn = 0 := by
        unfold ghostCount
        rw [hp]
        dsimp only
        rw [if_pos rfl]
        dsimp only
        by_cases hb : (freshBallot bnN q).number = bn
        · rw [if_pos hb, if_pos rfl]
          rfl
        · rw [if_neg hb]
      rw [hg0]
      omega
    · have hg1 : ghostCount
          { t with
            prop := fun x =>
              if x = p then ⟨some (freshBallot bnN q), []⟩ else t.prop x
            net := t.net +
              Multiset.map (fun a₀ => (a₀, Message.nextBallot p bnN)) q.val
            hStarted := insert (bnN, q) t.hStarted
            gResp := fun x => if x = p then [] else t.gResp x } a bn =
          ghostCount t a bn := by
        unfold ghostCount
        dsimp only
        simp only [if_neg hp]
      rw [hg1]
      omega
  -- key
  · intro bn2 d2 bn1 d1 h2 h1 hlt hch
    obtain ⟨q₁, hq₁, hcond⟩ := hch
    rcases Finset.mem_insert.1 hq₁ with heq | hold
    · simp only [Prod.mk.injEq] at heq
      obtain ⟨rfl, -⟩ := heq
      exact absurd h1 (hbegun_fresh d1)
    · exact h.key bn2 d2 bn1 d1 h2 h1 hlt ⟨q₁, hold, hcond⟩
  -- ledger_chosen
  · intro x d hx
    obtain ⟨bn₀, hch⟩ := h.ledger_chosen x d hx
    refine ⟨bn₀, ChosenAt_mono t _ ?_ ?_ ?_ bn₀ d hch⟩
    · exact fun y hy => hy
    · exact hstarted_mono
    · exact fun y hy => hy

/-- Helper: removing a pending message preserves the invariant. -/
theorem invB_erase (props accs : Finset Int) (s : GStateB) (e : Int × Message)
    (h : InvB props accs s) :
    InvB props accs { s with net := s.net.erase e } := by
  have hmem : ∀ x : Int × Message, x ∈ s.net.erase e → x ∈ s.net :=
    fun x hx => Multiset.mem_of_mem_erase hx
  refine
    { acc_responded_le := h.acc_responded_le
      acc_vote_le_nb := h.acc_vote_le_nb
      acc_lastvote_vote := h.acc_lastvote_vote
      acc_lastvote_max := h.acc_lastvote_max
      acc_lastvote_none := h.acc_lastvote_none
      resp_unique := h.resp_unique
      resp_started := h.resp_started
      resp_some := h.resp_some
      resp_none := h.resp_none
      vote_begun := h.vote_begun
      started_unique := h.started_unique
      started_quorum := h.started_quorum
      begun_unique := h.begun_unique
      begun_started := h.begun_started
      begun_promised := h.begun_promised
      prop_started := h.prop_started
      prop_started_max := h.prop_started_max
      prop_none_fresh := h.prop_none_fresh
      ghost_mirror := h.ghost_mirror
      ghost_content := h.ghost_content
      ghost_nodup := h.ghost_nodup
      ghost_len := h.ghost_len
      prop_begun_full := h.prop_begun_full
      prop_voters := h.prop_voters
      net_nextballot := fun dest au bn hm => h.net_nextballot dest au bn (hmem _ hm)
      net_lastvote := fun dest a bn lv hm => h.net_lastvote dest a bn lv (hmem _ hm)
      net_beginballot := fun dest au B d hm => h.net_beginballot dest au B d (hmem _ hm)
      net_voted := fun dest au v hm => h.net_voted dest au v (hmem _ hm)
      net_success := fun dest au d obn hm => h.net_success dest au d obn (hmem _ hm)
      lv_count := ?_
      key := h.key
      ledger_chosen := h.ledger_chosen }
  intro a bn
  have e2 : ghostCount { s with net := s.net.erase e } a bn = ghostCount s a bn :=
    rfl
  have hle : lvNetCount { s with net := s.net.erase e } a bn ≤
      lvNetCount s a bn := by
    unfold lvNetCount
    exact Multiset.countP_le_of_le _ (Multiset.erase_le e s.net)
  have := h.lv_count a bn
  unfold lvTotal at *
  omega

/-- Helper: erasing one in-flight `LastVote` copy decrements its live count
by exactly one. -/
theorem lvNetCount_erase_lastVote (s : GStateB) (dest a : Int)
    (bn : BallotNumber) (lv : Option Vote)
    (hm : (dest, Message.lastVote a bn lv) ∈ s.net) :
    lvNetCount { s with net := s.net.erase (dest, Message.lastVote a bn lv) }
        a bn + 1 = lvNetCount s a bn := by
  unfold lvNetCount
  dsimp only
  conv_rhs => rw [← Multiset.cons_erase hm]
  rw [Multiset.countP_cons]
  simp [lvKey]

/-- Helper: the invariant is preserved by every step of the basic-protocol
transition system. -/
theorem invB_step (props accs : Finset Int) (s s2 : GStateB)
    (h : InvB props accs s) (hstep : StepB props accs s s2) :
    InvB props accs s2 := by
  cases hstep with
  | initiate p q _ hp hq hcard =>
      exact invB_initiate props accs s p q h hq hcard
  | deliverProp p m _ hp hm =>
      cases m with
      | nextBallot au bn =>
          exact invB_erase props accs s _ h
      | lastVote au bn lv =>
          have h1 := invB_erase props accs s (p, Message.lastVote au bn lv) h
          obtain ⟨hr0, hdest, hqm⟩ := h.net_lastvote p au bn lv hm
          have hcnt := h.lv_count au bn
          unfold lvTotal at hcnt
          have hpos : 0 < lvNetCount s au bn := by
            unfold lvNetCount
            rw [Multiset.countP_pos]
            exact ⟨(p, Message.lastVote au bn lv), hm, by simp [lvKey]⟩
          have herase := lvNetCount_erase_lastVote s p au bn lv hm
          have hge : ghostCount
              { s with net := s.net.erase (p, Message.lastVote au bn lv) }
                au bn = ghostCount s au bn := rfl
          have hgz : ghostCount
              { s with net := s.net.erase (p, Message.lastVote au bn lv) }
                au bn = 0 := by
            rw [hge]; omega
          have hnet0 : lvNetCount
              { s with net := s.net.erase (p, Message.lastVote au bn lv) }
                au bn = 0 := by
            omega
          exact invB_onLastVote props accs _ p au bn lv h1 hr0 hdest hqm
            hgz hnet0
      | voted au v =>
          have h1 := invB_erase props accs s (p, Message.voted au v) h
          have hv := h.net_voted p au v hm
          exact invB_onVoted props accs _ p v h1 hv
      | beginBallot au B d =>
          exact invB_erase props accs s _ h
      | success au d obn =>
          have h1 := invB_erase props accs s (p, Message.success au d obn) h
          have hch := h.net_success p au d obn hm
          exact invB_onSuccess props accs _ p d h1 hch
  | deliverAcc a m _ ha hm =>
      cases m with
      | nextBallot au bn =>
          have h1 := invB_erase props accs s (a, Message.nextBallot au bn) h
          obtain ⟨q, hq, haq, hau⟩ := h.net_nextballot a au bn hm
          exact invB_onNextBallot props accs _ a au bn q h1 hq haq hau
      | lastVote au bn lv =>
          exact invB_erase props accs s _ h
      | voted au v =>
          exact invB_erase props accs s _ h
      | beginBallot au B d =>
          have h1 := invB_erase props accs s (a, Message.beginBallot au B d) h
          obtain ⟨hB, -⟩ := h.net_beginballot a au B d hm
          exact invB_onBeginBallot props accs _ a au B h1 hB
      | success au d obn =>
          have h1 := invB_erase props accs s (a, Message.success au d obn) h
          have hch := h.net_success a au d obn hm
          exact invB_onSuccess props accs _ a d h1 hch
  | drop d m _ hm =>
      exact invB_erase props accs s _ h

/-- Helper: every reachable state of the basic assembly satisfies the
inductive invariant. -/
theorem invB_reachable (props accs : Finset Int) (s : GStateB)
    (h : ReachableB props accs s) : InvB props accs s := by
  induction h with
  | refl => exact invB_init props accs
  | tail hab hstep ih => exact invB_step props accs _ _ ih hstep

/-- Helper: under the invariant, any two chosen decrees coincide. -/
theorem chosen_agree (props accs : Finset Int) (s : GStateB)
    (h : InvB props accs s) (bn1 bn2 : BallotNumber) (d1 d2 : Proposal)
    (h1 : ChosenAt s bn1 d1) (h2 : ChosenAt s bn2 d2) : d1 = d2 := by
  obtain ⟨hb1, q1, hq1, hv1⟩ := h1
  obtain ⟨hb2, q2, hq2, hv2⟩ := h2
  have hch1 : Choosable s bn1 := ⟨q1, hq1, fun a ha => Or.inr (hv1 a ha)⟩
  have hch2 : Choosable s bn2 := ⟨q2, hq2, fun a ha => Or.inr (hv2 a ha)⟩
  rcases bnLt_total bn1 bn2 with hlt | heq | hlt
  · exact h.key bn2 d2 bn1 d1 hb2 hb1 hlt hch1
  · subst heq
    exact h.begun_unique bn1 d1 d2 hb1 hb2
  · exact (h.key bn1 d1 bn2 d2 hb1 hb2 hlt hch2).symm

/-- Helper: in any reachable basic-protocol state, any two ledger entries
agree. -/
theorem ledgers_agree (props accs : Finset Int) (s : GStateB)
    (h : ReachableB props accs s) (x y : Int) (dx dy : Proposal)
    (hx : s.ledger x = some dx) (hy : s.ledger y = some dy) : dx = dy := by
  have hinv := invB_reachable props accs s h
  obtain ⟨bnx, hchx⟩ := hinv.ledger_chosen x dx hx
  obtain ⟨bny, hchy⟩ := hinv.ledger_chosen y dy hy
  exact chosen_agree props accs s hinv bnx bny dx dy hchx hchy

/-- Helper: closed form of the Multi-Paxos ballot number sequence of one
proposer on one instance. -/
theorem multiBallotSeq_spec (N p idx : Int) (k : Nat) :
    multiBallotSeq N p idx k = ⟨idx + k * N, p⟩ := by
  induction k with
  | zero => simp [multiBallotSeq, multiNewBallotNumber]
  | succ k ih =>
      simp only [multiBallotSeq, multiNewBallotNumber, freshBallot, ih,
        BallotNumber.mk.injEq, and_true]
      push_cast
      ring

/-- Helper: closed form of the basic ballot number sequence. -/
theorem basicBallotSeq_spec (p : Int) (k : Nat) :
    basicBallotSeq p k = ⟨(k : Int), p⟩ := by
  induction k with
  | zero => simp [basicBallotSeq, basicNewBallotNumber]
  | succ k ih =>
      simp only [basicBallotSeq, basicNewBallotNumber, freshBallot, ih,
        BallotNumber.mk.injEq, and_true]
      push_cast
      ring

/-- C2 counterexample.  The claim asserts that on crash-restart the in-RAM
protocol state (`next_ballot`, `last_vote`, `last_tried`, `responses`) is
reinitialized to empty.  On the code, restart is a recursive call to `start`,
which only re-registers the agent's mailbox; here a pre-crash acceptor whose
`next_ballot` is set keeps it across restart, and a pre-crash proposer keeps
its nonempty `responses` list, refuting the claimed reset. -/
theorem C2_restart_counterexample :
    (restartAgent
        { st := (⟨none, some ⟨3, 7⟩⟩ : AcceptorState),
          ledger := (none : Option Proposal), mailbox := [] }).st.next_ballot ≠
      none ∧
    (restartAgent
        { st := (⟨none, [none]⟩ : ProposerState),
          ledger := (none : Option Proposal), mailbox := [] }).st.responses ≠
      [] := by
  exact ⟨by simp [restartAgent], by simp [restartAgent]⟩

/-- C2 (amended).  Crash-restart frame as implemented: when the per-iteration
crash branch fires, the agent sleeps and re-enters its main loop with all its
instance attributes — protocol state (`next_ballot`, `last_vote`,
`last_tried`, `responses`) and `ledger` alike — preserved; the only state
effect is re-registration, which reinitializes the agent's transport mailbox
to empty. -/
theorem C2_restart_frame (St L : Type) (s : AgentRunState St L) :
    (restartAgent s).st = s.st ∧ (restartAgent s).ledger = s.ledger ∧
      (restartAgent s).mailbox = [] :=
  ⟨rfl, rfl, rfl⟩

/-- C6.  Ballot number generation and uniqueness: `initiate_new_ballot`
creates `BallotNumber(idx, self.id)` for the first ballot of instance `idx`
and `BallotNumber(previous ballot_id + N, self.id)` thereafter; the basic
protocol's rule is the `N = 1`, `idx = 0` case.  Consequently, per proposer
and per instance the generated ballot numbers strictly increase, their
`ballot_id mod N` always equals the instance index, and two ballot numbers
generated at distinct (proposer id, instance, occurrence) points — in
particular by distinct proposers — are never equal. -/
theorem C6_ballot_number_generation (N p p' idx idx' : Int) (k l : Nat)
    (b : Ballot) (lt : Option Ballot)
    (hN : 0 < N) (hidx0 : 0 ≤ idx) (hidxN : idx < N)
    (hidx'0 : 0 ≤ idx') (hidx'N : idx' < N) :
    multiNewBallotNumber N p idx none = ⟨idx, p⟩ ∧
    multiNewBallotNumber N p idx (some b) = ⟨b.number.ballot_id + N, p⟩ ∧
    basicNewBallotNumber p lt = multiNewBallotNumber 1 p 0 lt ∧
    (k < l →
      bnLt (multiBallotSeq N p idx k) (multiBallotSeq N p idx l) = true) ∧
    (multiBallotSeq N p idx k).ballot_id % N = idx ∧
    (multiBallotSeq N p idx k = multiBallotSeq N p' idx' l →
      p = p' ∧ idx = idx' ∧ k = l) := by
  refine ⟨rfl, rfl, ?_, ?_, ?_, ?_⟩
  · cases lt with
    | none => rfl
    | some b => rfl
  · intro hkl
    rw [multiBallotSeq_spec, multiBallotSeq_spec, bnLt_eq_true_iff]
    left
    dsimp only
    have hc : (k : Int) < (l : Int) := by exact_mod_cast hkl
    have := mul_lt_mul_of_pos_right hc hN
    linarith
  · rw [multiBallotSeq_spec]
    simp only [Int.add_mul_emod_self]
    exact Int.emod_eq_of_lt hidx0 hidxN
  · intro h
    rw [multiBallotSeq_spec, multiBallotSeq_spec] at h
    have hid : idx + (k : Int) * N = idx' + (l : Int) * N :=
      congrArg BallotNumber.ballot_id h
    have hp : p = p' := congrArg BallotNumber.agent_id h
    have hmod : idx = idx' := by
      have h1 : (idx + (k : Int) * N) % N = idx := by
        simp only [Int.add_mul_emod_self]
        exact Int.emod_eq_of_lt hidx0 hidxN
      have h2 : (idx' + (l : Int) * N) % N = idx' := by
        simp only [Int.add_mul_emod_self]
        exact Int.emod_eq_of_lt hidx'0 hidx'N
      rw [← h1, ← h2, hid]
    refine ⟨hp, hmod, ?_⟩
    have hk : (k : Int) * N = (l : Int) * N := by omega
    have : (k : Int) = (l : Int) :=
      mul_right_cancel₀ (ne_of_gt hN) hk
    exact_mod_cast this

/-- C6 witness: the theorem applied at a concrete instance (`N = 2`,
instance 1, first two ballots of proposer 0). -/
theorem C6_ballot_number_generation_witness :
    (multiBallotSeq 2 0 1 0).ballot_id % 2 = 1 :=
  (C6_ballot_number_generation 2 0 0 1 1 0 1 (freshBallot ⟨0, 0⟩ ∅) none
    (by decide) (by decide) (by decide) (by decide) (by decide)).2.2.2.2.1

/-- C7 counterexample.  In the trivial one-proposer basic scenario the common
ledger entry is `Proposal(proposer_id)`; `Assembly.start` collects
`agent.ledger.value` — the payload — so it returns the bare proposer id, not
a `Proposal` object as the claim states. -/
theorem C7_return_counterexample :
    basicStartReturn [⟨some 0⟩] = some (StartResult.value (some 0)) ∧
    (StartResult.value (some 0)).isProposal = false := by
  exact ⟨rfl, rfl⟩

/-- C7 (amended).  `Assembly.start` returns the agreed decree's payload
(`Proposal.value`, e.g. the bare proposer id in the trivial scenario) in basic
Paxos, and the length-N vector of `Proposal`s equal to the common ledger in
Multi-Paxos. -/
theorem C7_start_return (ledgers : List Proposal) (v : Option Int)
    (lss : List (List Proposal)) (l : List Proposal)
    (h1 : ledgers ≠ []) (h2 : ∀ p ∈ ledgers, p.value = v)
    (h3 : lss ≠ []) (h4 : ∀ x ∈ lss, x = l) :
    basicStartReturn ledgers = some (StartResult.value v) ∧
    multiStartReturn lss = some (StartResult.vector l) := by
  constructor
  · unfold basicStartReturn
    rw [uniqList_const (ledgers.map Proposal.value) v
      (by simpa using h1)
      (by intro y hy; rcases List.mem_map.1 hy with ⟨p, hp, rfl⟩; exact h2 p hp)]
  · unfold multiStartReturn
    rw [uniqList_const lss l h3 h4]

/-- C7 witness: the amended theorem applied at concrete ledger collections. -/
theorem C7_start_return_witness :
    basicStartReturn [⟨some 0⟩, ⟨some 0⟩] = some (StartResult.value (some 0)) ∧
    multiStartReturn [[⟨some 1⟩, ⟨some 0⟩]] =
      some (StartResult.vector [⟨some 1⟩, ⟨some 0⟩]) :=
  C7_start_return [⟨some 0⟩, ⟨some 0⟩] (some 0) [[⟨some 1⟩, ⟨some 0⟩]]
    [⟨some 1⟩, ⟨some 0⟩] (by decide) (by decide) (by decide) (by decide)

/-- C8 counterexample.  The claim says both flavors' constructors accept
`period_proposer` and forward it to every proposer.  The basic
`Assembly.__init__` (source lines 155-162) has no such parameter — compare the
parameter list of `basicAssemblyInit` — so basic proposers always get the
60-second default period, while the Multi-Paxos constructor does forward its
`period_proposer` argument (here 5 s). -/
theorem C8_ctor_counterexample :
    ((basicAssemblyInit (R := Unit) 2 3 0 () ()).proposers.map
        ProposerObj.period_s) = [60, 60] ∧
    ((multiAssemblyInit (R := Unit) 2 3 1 0 () () 5).proposers.map
        ProposerObj.period_s) = [5, 5] := by
  exact ⟨rfl, rfl⟩

/-- C8 (amended).  The basic constructor accepts `n_proposers`, `n_acceptors`,
`messenger`, `proposer_fail_rate`, `acceptor_fail_rate` only, and every basic
proposer uses the default 60-second period; the Multi-Paxos constructor
additionally accepts `nb_instances` and `period_proposer` and forwards
`period_proposer` to every proposer.  Failure rates are forwarded to the
respective agents in both flavors. -/
theorem C8_assembly_ctor (R : Type) (np na ni m : Nat) (pf af : R) (pp : Int) :
    (∀ pr ∈ (basicAssemblyInit np na m pf af).proposers,
        pr.period_s = 60 ∧ pr.failure_rate = pf) ∧
    (∀ ac ∈ (basicAssemblyInit np na m pf af).acceptors, ac.failure_rate = af) ∧
    (basicAssemblyInit np na m pf af).messenger = m ∧
    (basicAssemblyInit np na m pf af).proposers.length = np ∧
    (∀ pr ∈ (multiAssemblyInit np na ni m pf af pp).proposers,
        pr.period_s = pp ∧ pr.failure_rate = pf) ∧
    (∀ ac ∈ (multiAssemblyInit np na ni m pf af pp).acceptors,
        ac.failure_rate = af) ∧
    (multiAssemblyInit np na ni m pf af pp).nb_instances = ni ∧
    (multiAssemblyInit np na ni m pf af pp).messenger = m := by
  refine ⟨?_, ?_, rfl, ?_, ?_, ?_, rfl, rfl⟩
  · intro pr hpr
    have := List.eq_of_mem_replicate hpr
    subst this
    exact ⟨rfl, rfl⟩
  · intro ac hac
    have := List.eq_of_mem_replicate hac
    subst this
    exact rfl
  · exact List.length_replicate np _
  · intro pr hpr
    have := List.eq_of_mem_replicate hpr
    subst this
    exact ⟨rfl, rfl⟩
  · intro ac hac
    have := List.eq_of_mem_replicate hac
    subst this
    exact rfl

/-- C8 witness: the amended theorem applied at a concrete construction. -/
theorem C8_assembly_ctor_witness :
    (⟨(), 7⟩ : ProposerObj Unit) ∈
        (multiAssemblyInit (R := Unit) 1 1 2 0 () () 7).proposers ∧
    (⟨(), 7⟩ : ProposerObj Unit).period_s = 7 :=
  ⟨by decide,
    ((C8_assembly_ctor Unit 1 1 2 0 () () 7).2.2.2.2.1 ⟨(), 7⟩ (by decide)).1⟩

/-- C9.  Polling the transport with an agent id that was never registered
raises `KeyError` (`self.delivered[dest_id]` on a missing key) in both
`ReliableMessenger.get_message` and `UnreliableMessenger.get_message`; the
"`poll` returns none on an empty mailbox" contract holds for registered
ids. -/
theorem C9_get_message_keyerror (rm : ReliableMessenger)
    (um : UnreliableMessenger) (a b : Int)
    (h1 : dictGet rm.delivered a = none) (h2 : dictGet rm.delivered b = some [])
    (h3 : dictGet um.delivered a = none) (h4 : dictGet um.delivered b = some []) :
    rm.get_message a = .error () ∧ rm.get_message b = .ok (none, rm) ∧
    um.get_message a = .error () ∧ um.get_message b = .ok (none, um) := by
  refine ⟨?_, ?_, ?_, ?_⟩
  · unfold ReliableMessenger.get_message; rw [h1]
  · unfold ReliableMessenger.get_message; rw [h2]
  · unfold UnreliableMessenger.get_message; rw [h3]
  · unfold UnreliableMessenger.get_message; rw [h4]

/-- C9 witness: a messenger where only agent 1 is registered (with an empty
mailbox): polling id 0 is a `KeyError`, polling id 1 returns none. -/
theorem C9_get_message_keyerror_witness :
    ReliableMessenger.get_message ⟨[(1, [])]⟩ 0 = .error () ∧
    ReliableMessenger.get_message ⟨[(1, [])]⟩ 1 = .ok (none, ⟨[(1, [])]⟩) ∧
    UnreliableMessenger.get_message ⟨[(1, [])], [(1, [])]⟩ 0 = .error () ∧
    UnreliableMessenger.get_message ⟨[(1, [])], [(1, [])]⟩ 1 =
      .ok (none, ⟨[(1, [])], [(1, [])]⟩) :=
  C9_get_message_keyerror ⟨[(1, [])]⟩ ⟨[(1, [])], [(1, [])]⟩ 0 1
    (by decide) (by decide) (by decide) (by decide)

/-- Helper: `dictInsert` binds its key to its value. -/
theorem dictGet_dictInsert (d : List (Int × List Message)) (k : Int)
    (v : List Message) : dictGet (dictInsert d k v) k = some v := by
  induction d with
  | nil => simp [dictInsert, dictGet]
  | cons a d ih =>
      cases a with
      | mk a1 a2 =>
          by_cases ha : a1 = k
          · simp [dictInsert, dictGet, ha]
          · simp only [dictInsert, if_neg ha, dictGet]
            exact ih

/-- Helper: registering through a heap reference updates exactly that cell. -/
theorem heapRegister_getElem (h : List ReliableMessenger) (r : Nat)
    (agent_id : Int) :
    (heapRegister h r agent_id)[r]? =
      (h[r]?).map (fun m => m.register agent_id) := by
  induction h generalizing r with
  | nil => simp [heapRegister]
  | cons m h ih =>
      cases r with
      | zero => simp [heapRegister]
      | succ r => simpa [heapRegister] using ih r

/-- C10.  Both Assembly constructors declare
`messenger: Messenger = ReliableMessenger()`; Python evaluates that default
once, at definition elaboration, so every Assembly constructed with the
argument omitted stores a reference to the one shared default messenger — no
fresh messenger is allocated — and a registration performed by an agent of
either assembly mutates the single shared transport visible through the
other's reference. -/
theorem C10_shared_default_messenger (env : ModuleEnv) (agent_id : Int)
    (m : ReliableMessenger) (hm : env.heap[env.default_messenger]? = some m) :
    assemblyNewMessengerRef env none = env.default_messenger ∧
    (heapRegister env.heap (assemblyNewMessengerRef env none)
        agent_id)[assemblyNewMessengerRef env none]? =
      some (m.register agent_id) ∧
    dictGet (m.register agent_id).delivered agent_id = some [] := by
  refine ⟨rfl, ?_, ?_⟩
  · rw [heapRegister_getElem]
    simp [assemblyNewMessengerRef, hm]
  · exact dictGet_dictInsert m.delivered agent_id []

/-- C10 witness: the freshly elaborated module environment, with agent 5
registering through the default messenger reference. -/
theorem C10_shared_default_messenger_witness :
    assemblyNewMessengerRef moduleEnvInit none =
      moduleEnvInit.default_messenger ∧
    (heapRegister moduleEnvInit.heap
        (assemblyNewMessengerRef moduleEnvInit none)
        5)[assemblyNewMessengerRef moduleEnvInit none]? =
      some (ReliableMessenger.init.register 5) ∧
    dictGet (ReliableMessenger.init.register 5).delivered 5 = some [] :=
  C10_shared_default_messenger moduleEnvInit 5 ReliableMessenger.init rfl


/-- Helper: the invariant is preserved by generalized initiation. -/
theorem invG_initiateWith (props accs : Finset Int) (t : GStateB) (p : Int)
    (bn0 : BallotNumber) (q : Finset Int) (h : InvB props accs t)
    (hq : q ⊆ accs) (hcard : q.card = accs.card / 2 + 1)
    (hagent : bn0.agent_id = p)
    (hgt : ∀ B, (t.prop p).last_tried = some B →
      B.number.ballot_id < bn0.ballot_id) :
    InvB props accs (initiateWith p bn0 q t) := by
  simp only [initiateWith]
  have hfresh : ∀ q₀, (bn0, q₀) ∉ t.hStarted := by
    intro q₀ hmem
    cases hLT : (t.prop p).last_tried with
    | none =>
        exact absurd hagent ((h.prop_none_fresh p hLT).1 bn0 q₀ hmem)
    | some B =>
        have hmax := h.prop_started_max p B bn0 q₀ hLT hmem hagent
        have := hgt B hLT
        omega
  have hbegun_fresh : ∀ d, (bn0, d) ∉ t.hBegun := by
    intro d hmem
    obtain ⟨q₀, hst⟩ := h.begun_started bn0 d hmem
    exact hfresh q₀ hst
  have hstarted_mono : t.hStarted ⊆ insert (bn0, q) t.hStarted :=
    Finset.subset_insert _ _
  refine
    { acc_responded_le := h.acc_responded_le
      acc_vote_le_nb := h.acc_vote_le_nb
      acc_lastvote_vote := h.acc_lastvote_vote
      acc_lastvote_max := h.acc_lastvote_max
      acc_lastvote_none := h.acc_lastvote_none
      resp_unique := h.resp_unique
      resp_started := ?_
      resp_some := h.resp_some
      resp_none := h.resp_none
      vote_begun := h.vote_begun
      started_unique := ?_
      started_quorum := ?_
      begun_unique := h.begun_unique
      begun_started := ?_
      begun_promised := ?_
      prop_started := ?_
      prop_started_max := ?_
      prop_none_fresh := ?_
      ghost_mirror := ?_
      ghost_content := ?_
      ghost_nodup := ?_
      ghost_len := ?_
      prop_begun_full := ?_
      prop_voters := ?_
      net_nextballot := ?_
      net_lastvote := ?_
      net_beginballot := ?_
      net_voted := ?_
      net_success := ?_
      lv_count := ?_
      key := ?_
      ledger_chosen := ?_ }
  -- resp_started
  · intro a bn lv hmem
    obtain ⟨q₀, hst⟩ := h.resp_started a bn lv hmem
    exact ⟨q₀, hstarted_mono hst⟩
  -- started_unique
  · intro bn q₁ q₂ h1 h2
    rcases Finset.mem_insert.1 h1 with he1 | ho1 <;>
      rcases Finset.mem_insert.1 h2 with he2 | ho2
    · simp only [Prod.mk.injEq] at he1 he2
      exact he1.2.trans he2.2.symm
    · simp only [Prod.mk.injEq] at he1
      obtain ⟨rfl, -⟩ := he1
      exact absurd ho2 (hfresh q₂)
    · simp only [Prod.mk.injEq] at he2
      obtain ⟨rfl, -⟩ := he2
      exact absurd ho1 (hfresh q₁)
    · exact h.started_unique bn q₁ q₂ ho1 ho2
  -- started_quorum
  · intro bn q₀ hmem
    rcases Finset.mem_insert.1 hmem with heq | hold
    · simp only [Prod.mk.injEq] at heq
      obtain ⟨-, rfl⟩ := heq
      refine ⟨hq, ?_⟩
      omega
    · exact h.started_quorum bn q₀ hold
  -- begun_started
  · intro bn d hmem
    obtain ⟨q₀, hst⟩ := h.begun_started bn d hmem
    exact ⟨q₀, hstarted_mono hst⟩
  -- begun_promised
  · intro bn d q₀ hbeg hst a ha
    rcases Finset.mem_insert.1 hst with heq | hold
    · simp only [Prod.mk.injEq] at heq
      obtain ⟨rfl, -⟩ := heq
      exact absurd hbeg (hbegun_fresh d)
    · exact h.begun_promised bn d q₀ hbeg hold a ha
  -- prop_started
  · intro p' B₀ hB₀
    by_cases hp : p' = p
    · subst hp
      dsimp only at hB₀
      rw [if_pos rfl] at hB₀
      injection hB₀ with e
      subst e
      exact ⟨hagent, Finset.mem_insert_self _ _⟩
    · dsimp only at hB₀
      rw [if_neg hp] at hB₀
      obtain ⟨h1, h2⟩ := h.prop_started p' B₀ hB₀
      exact ⟨h1, hstarted_mono h2⟩
  -- prop_started_max
  · intro p' B₀ bn q₀ hB₀ hst hag
    by_cases hp : p' = p
    · subst hp
      dsimp only at hB₀
      rw [if_pos rfl] at hB₀
      injection hB₀ with e
      subst e
      rcases Finset.mem_insert.1 hst with heq | hold
      · simp only [Prod.mk.injEq] at heq
        obtain ⟨rfl, -⟩ := heq
        exact le_refl _
      · cases hLT : (t.prop p').last_tried with
        | none =>
            exact absurd hag ((h.prop_none_fresh p' hLT).1 bn q₀ hold)
        | some B =>
            have hmax := h.prop_started_max p' B bn q₀ hLT hold hag
            have := hgt B hLT
            simp only [freshBallot]
            omega
    · dsimp only at hB₀
      rw [if_neg hp] at hB₀
      rcases Finset.mem_insert.1 hst with heq | hold
      · simp only [Prod.mk.injEq] at heq
        obtain ⟨rfl, -⟩ := heq
        rw [hagent] at hag
        exact absurd hag.symm hp
      · exact h.prop_started_max p' B₀ bn q₀ hB₀ hold hag
  -- prop_none_fresh
  · intro p' hp'
    by_cases hp : p' = p
    · subst hp
      dsimp only at hp'
      rw [if_pos rfl] at hp'
      exact Option.noConfusion hp'
    · dsimp only at hp'
      rw [if_neg hp] at hp'
      obtain ⟨h1, h2, h3⟩ := h.prop_none_fresh p' hp'
      refine ⟨?_, ?_, ?_⟩
      · intro bn q₀ hmem
        rcases Finset.mem_insert.1 hmem with heq | hold
        · simp only [Prod.mk.injEq] at heq
          obtain ⟨rfl, -⟩ := heq
          rw [hagent]
          exact fun he => hp he.symm
        · exact h1 bn q₀ hold
      · dsimp only
        rw [if_neg hp]
        exact h2
      · dsimp only
        rw [if_neg hp]
        exact h3
  -- ghost_mirror
  · intro p'
    by_cases hp : p' = p
    · subst hp
      dsimp only
      rw [if_pos rfl, if_pos rfl]
      rfl
    · dsimp only
      rw [if_neg hp, if_neg hp]
      exact h.ghost_mirror p'
  -- ghost_content
  · intro p' B₀ hB₀ a lv hmem
    by_cases hp : p' = p
    · subst hp
      dsimp only at hmem
      rw [if_pos rfl] at hmem
      exact absurd hmem (List.not_mem_nil _)
    · dsimp only at hB₀ hmem
      rw [if_neg hp] at hB₀ hmem
      exact h.ghost_content p' B₀ hB₀ a lv hmem
  -- ghost_nodup
  · intro p'
    by_cases hp : p' = p
    · subst hp
      dsimp only
      rw [if_pos rfl]
      exact List.nodup_nil
    · dsimp only
      rw [if_neg hp]
      exact h.ghost_nodup p'
  -- ghost_len
  · intro p' B₀ hB₀
    by_cases hp : p' = p
    · subst hp
      dsimp only at hB₀ ⊢
      rw [if_pos rfl] at hB₀ ⊢
      exact Nat.zero_le _
    · dsimp only at hB₀ ⊢
      rw [if_neg hp] at hB₀ ⊢
      exact h.ghost_len p' B₀ hB₀
  -- prop_begun_full
  · intro p' B₀ d hB₀ hbeg
    by_cases hp : p' = p
    · subst hp
      dsimp only at hB₀
      rw [if_pos rfl] at hB₀
      injection hB₀ with e
      subst e
      exact absurd hbeg (hbegun_fresh d)
    · dsimp only at hB₀ ⊢
      rw [if_neg hp] at hB₀
      obtain ⟨h1, h2⟩ := h.prop_begun_full p' B₀ d hB₀ hbeg
      rw [if_neg hp]
      exact ⟨h1, h2⟩
  -- prop_voters
  · intro p' B₀ hB₀ a ha
    by_cases hp : p' = p
    · subst hp
      dsimp only at hB₀
      rw [if_pos rfl] at hB₀
      injection hB₀ with e
      subst e
      exact absurd ha (Finset.not_mem_empty a)
    · dsimp only at hB₀
      rw [if_neg hp] at hB₀
      exact h.prop_voters p' B₀ hB₀ a ha
  -- net_nextballot
  · intro dest au bn hmem
    rcases Multiset.mem_add.1 hmem with hold | hnew
    · obtain ⟨q₀, h1, h2, h3⟩ := h.net_nextballot dest au bn hold
      exact ⟨q₀, hstarted_mono h1, h2, h3⟩
    · obtain ⟨a₀, ha₀, heq⟩ := Multiset.mem_map.1 hnew
      simp only [Prod.mk.injEq, Message.nextBallot.injEq] at heq
      obtain ⟨rfl, rfl, rfl⟩ := heq
      exact ⟨q, Finset.mem_insert_self _ _, ha₀, hagent.symm⟩
  -- net_lastvote
  · intro dest a bn lv hmem
    rcases Multiset.mem_add.1 hmem with hold | hnew
    · obtain ⟨h1, h2, q₀, h3, h4⟩ := h.net_lastvote dest a bn lv hold
      exact ⟨h1, h2, q₀, hstarted_mono h3, h4⟩
    · obtain ⟨a₀, ha₀, heq⟩ := Multiset.mem_map.1 hnew
      simp only [Prod.mk.injEq] at heq
      exact absurd heq.2 (fun hc => Message.noConfusion hc)
  -- net_beginballot
  · intro dest au B₀ d hmem
    rcases Multiset.mem_add.1 hmem with hold | hnew
    · exact h.net_beginballot dest au B₀ d hold
    · obtain ⟨a₀, ha₀, heq⟩ := Multiset.mem_map.1 hnew
      simp only [Prod.mk.injEq] at heq
      exact absurd heq.2 (fun hc => Message.noConfusion hc)
  -- net_voted
  · intro dest au v hmem
    rcases Multiset.mem_add.1 hmem with hold | hnew
    · exact h.net_voted dest au v hold
    · obtain ⟨a₀, ha₀, heq⟩ := Multiset.mem_map.1 hnew
      simp only [Prod.mk.injEq] at heq
      exact absurd heq.2 (fun hc => Message.noConfusion hc)
  -- net_success
  · intro dest au d obn hmem
    rcases Multiset.mem_add.1 hmem with hold | hnew
    · obtain ⟨bn₀, hch⟩ := h.net_success dest au d obn hold
      refine ⟨bn₀, ChosenAt_mono t _ ?_ ?_ ?_ bn₀ d hch⟩
      · exact fun x hx => hx
      · exact hstarted_mono
      · exact fun x hx => hx
    · obtain ⟨a₀, ha₀, heq⟩ := Multiset.mem_map.1 hnew
      simp only [Prod.mk.injEq] at heq
      exact absurd heq.2 (fun hc => Message.noConfusion hc)
  -- lv_count
  · intro a bn
    unfold lvTotal lvNetCount
    dsimp only
    rw [Multiset.countP_add]
    have hz : Multiset.countP (fun pm => lvKey pm.2 = some (a, bn))
        (Multiset.map (fun a₀ => (a₀, Message.nextBallot p bn0)) q.val) = 0 := by
      rw [Multiset.countP_eq_zero]
      intro e he hk
      obtain ⟨a₀, ha₀, heq⟩ := Multiset.mem_map.1 he
      rw [← heq] at hk
      simp [lvKey] at hk
    rw [hz]
    have hpre := h.lv_count a bn
    unfold lvTotal lvNetCount at hpre
    by_cases hp : bn.agent_id = p
    · have hg0 : ghostCount
          { t with
            prop := fun x =>
              if x = p then ⟨some (freshBallot bn0 q), []⟩ else t.prop x
            net := t.net +
              Multiset.map (fun a₀ => (a₀, Message.nextBallot p bn0)) q.val
            hStarted := insert (bn0, q) t.hStarted
            gResp := fun x => if x = p then [] else t.gResp x } a bn = 0 := by
        unfold ghostCount
        rw [hp]
        dsimp only
        rw [if_pos rfl]
        dsimp only
        by_cases hb : (freshBallot bn0 q).number = bn
        · rw [if_pos hb, if_pos rfl]
          rfl
        · rw [if_neg hb]
      rw [hg0]
      omega
    · have hg1 : ghostCount
          { t with
            prop := fun x =>
              if x = p then ⟨some (freshBallot bn0 q), []⟩ else t.prop x
            net := t.net +
              Multiset.map (fun a₀ => (a₀, Message.nextBallot p bn0)) q.val
            hStarted := insert (bn0, q) t.hStarted
            gResp := fun x => if x = p then [] else t.gResp x } a bn =
          ghostCount t a bn := by
        unfold ghostCount
        dsimp only
        simp only [if_neg hp]
      rw [hg1]
      omega
  -- key
  · intro bn2 d2 bn1 d1 h2 h1 hlt hch
    obtain ⟨q₁, hq₁, hcond⟩ := hch
    rcases Finset.mem_insert.1 hq₁ with heq | hold
    · simp only [Prod.mk.injEq] at heq
      obtain ⟨rfl, -⟩ := heq
      exact absurd h1 (hbegun_fresh d1)
    · exact h.key bn2 d2 bn1 d1 h2 h1 hlt ⟨q₁, hold, hcond⟩
  -- ledger_chosen
  · intro x d hx
    obtain ⟨bn₀, hch⟩ := h.ledger_chosen x d hx
    refine ⟨bn₀, ChosenAt_mono t _ ?_ ?_ ?_ bn₀ d hch⟩
    · exact fun y hy => hy
    · exact hstarted_mono
    · exact fun y hy => hy

/-- Helper: the invariant is preserved by every generalized step. -/
theorem invG_step (props accs : Finset Int) (s s2 : GStateB)
    (h : InvB props accs s) (hstep : StepG props accs s s2) :
    InvB props accs s2 := by
  cases hstep with
  | initiate p bn q _ hp hq hcard hagent hgt =>
      exact invG_initiateWith props accs s p bn q h hq hcard hagent hgt
  | deliverProp p m _ hp hm =>
      exact invB_step props accs s _ h (StepB.deliverProp p m s hp hm)
  | deliverAcc a m _ ha hm =>
      exact invB_step props accs s _ h (StepB.deliverAcc a m s ha hm)
  | drop d m _ hm =>
      exact invB_step props accs s _ h (StepB.drop d m s hm)

/-- Helper: every state reachable in the generalized system satisfies the
invariant. -/
theorem invG_reachable (props accs : Finset Int) (s : GStateB)
    (h : ReachableG props accs s) : InvB props accs s := by
  induction h with
  | refl => exact invB_init props accs
  | tail hab hstep ih => exact invG_step props accs _ _ ih hstep

/-- Helper: ledger agreement in any reachable state of the generalized
system. -/
theorem ledgersG_agree (props accs : Finset Int) (s : GStateB)
    (h : ReachableG props accs s) (x y : Int) (dx dy : Proposal)
    (hx : s.ledger x = some dx) (hy : s.ledger y = some dy) : dx = dy := by
  have hinv := invG_reachable props accs s h
  obtain ⟨bnx, hchx⟩ := hinv.ledger_chosen x dx hx
  obtain ⟨bny, hchy⟩ := hinv.ledger_chosen y dy hy
  exact chosen_agree props accs s hinv bnx bny dx dy hchx hchy

/-- Helper: field-wise equality of basic global states. -/
theorem GStateB_eq (s t : GStateB) (h1 : s.prop = t.prop) (h2 : s.acc = t.acc)
    (h3 : s.ledger = t.ledger) (h4 : s.net = t.net)
    (h5 : s.hStarted = t.hStarted) (h6 : s.hBegun = t.hBegun)
    (h7 : s.hVotes = t.hVotes) (h8 : s.hResponded = t.hResponded)
    (h9 : s.gResp = t.gResp) : s = t := by
  cases s
  cases t
  simp_all

/-- Helper: `lget` through `getElem?`. -/
theorem lget_eq {α : Type} (l : List α) (i : Int) (d : α) :
    lget l i d = (l[i.toNat]?).getD d := by
  simp [lget]

/-- Helper: reading back a just-written slot. -/
theorem lget_lset_self {α : Type} (l : List α) (i : Int) (a d : α)
    (h : i.toNat < l.length) : lget (lset l i a) i d = a := by
  simp [lget, lset, List.getElem?_set_self h]

/-- Helper: reading a different slot after a write. -/
theorem lget_lset_ne {α : Type} (l : List α) (i j : Int) (a d : α)
    (h : i.toNat ≠ j.toNat) : lget (lset l i a) j d = lget l j d := by
  simp [lget, lset, List.getElem?_set_ne h]

/-- Helper: length is preserved by `lset`. -/
theorem length_lset {α : Type} (l : List α) (i : Int) (a : α) :
    (lset l i a).length = l.length := by
  simp [lset]

/-- Helper: reading any slot of a constant list gives the constant. -/
theorem lget_replicate {α : Type} (n : Nat) (x : α) (i : Int) :
    lget (List.replicate n x) i x = x := by
  rw [lget_eq, List.getElem?_replicate]
  by_cases h : i.toNat < n
  · rw [if_pos h]
    rfl
  · rw [if_neg h]
    rfl

/-- Helper: erasing a delivered message of instance `idx` from the network
projects to erasing its stripped image. -/
theorem projNet_erase_mem (N idx : Int) (net : Multiset (Int × Message))
    (e : Int × Message) (he : e ∈ net) (hp : msgInst N e.2 = some idx) :
    ((net.erase e).filter (fun pm => msgInst N pm.2 = some idx)).map
        stripSuccess =
      ((net.filter (fun pm => msgInst N pm.2 = some idx)).map
        stripSuccess).erase (stripSuccess e) := by
  conv_rhs => rw [← Multiset.cons_erase he]
  rw [show Multiset.filter (fun pm => msgInst N pm.2 = some idx)
      (e ::ₘ net.erase e) =
      e ::ₘ Multiset.filter (fun pm => msgInst N pm.2 = some idx)
        (net.erase e) from Multiset.filter_cons_of_pos _ hp,
    Multiset.map_cons, Multiset.erase_cons_head]

/-- Helper: erasing a message of a different instance leaves the projected
network unchanged. -/
theorem projNet_erase_ne (N idx : Int) (net : Multiset (Int × Message))
    (e : Int × Message) (he : e ∈ net) (hp : ¬ msgInst N e.2 = some idx) :
    ((net.erase e).filter (fun pm => msgInst N pm.2 = some idx)).map
        stripSuccess =
      (net.filter (fun pm => msgInst N pm.2 = some idx)).map stripSuccess := by
  conv_rhs => rw [← Multiset.cons_erase he]
  rw [show Multiset.filter (fun pm => msgInst N pm.2 = some idx)
      (e ::ₘ net.erase e) =
      Multiset.filter (fun pm => msgInst N pm.2 = some idx) (net.erase e) from
    Multiset.filter_cons_of_neg _ hp]

/-- Helper: a delivered message of instance `idx` is present in the projected
network. -/
theorem projNet_mem (N idx : Int) (net : Multiset (Int × Message))
    (e : Int × Message) (he : e ∈ net) (hp : msgInst N e.2 = some idx) :
    stripSuccess e ∈
      (net.filter (fun pm => msgInst N pm.2 = some idx)).map stripSuccess :=
  Multiset.mem_map_of_mem _ (Multiset.mem_filter.2 ⟨he, hp⟩)

/-- Helper: the instance-lookup fold leaves its accumulator unchanged when no
entry of the scanned list matches the incoming ballot number. -/
theorem scan_go_const (bn : BallotNumber) (lt0 : List (Option Ballot)) :
    ∀ (l : List (Option Ballot)) (acc : Option (Int × Ballot)),
    (∀ ob ∈ l, ∀ b : Ballot, ob = some b → bn ≠ b.number) →
    l.foldl
      (fun acc ob =>
        match ob with
        | some b => if bn = b.number then some (pyListIndex lt0 b, b) else acc
        | none => acc)
      acc = acc := by
  intro l
  induction l with
  | nil => intro acc h; rfl
  | cons a l ih =>
      intro acc h
      rw [List.foldl_cons]
      have ha := h a (List.mem_cons_self a l)
      cases a with
      | none => exact ih acc (fun ob hob => h ob (List.mem_cons_of_mem _ hob))
      | some b =>
          have hne : bn ≠ b.number := ha b rfl
          dsimp only
          rw [if_neg hne]
          exact ih acc (fun ob hob => h ob (List.mem_cons_of_mem _ hob))

/-- Helper: under the residue discipline, the instance-lookup scan of
multi_paxos.py resolves to a direct lookup of the slot
`ballot_id % nb_instances`. -/
theorem scanBallotM_eq (N : Int) (bn : BallotNumber)
    (lt : List (Option Ballot)) (hN : 0 < N) (hlen : lt.length = N.toNat)
    (hres : ∀ idx B, 0 ≤ idx → idx < N →
      lget lt idx none = some B → B.number.ballot_id % N = idx) :
    scanBallotM bn lt =
      match lget lt (bn.ballot_id % N) none with
      | some B =>
          if bn = B.number then some (bn.ballot_id % N, B) else none
      | none => none := by
  have hj0 : 0 ≤ bn.ballot_id % N := Int.emod_nonneg _ (by omega)
  have hjN : bn.ballot_id % N < N := Int.emod_lt_of_pos _ hN
  have hjn : (bn.ballot_id % N).toNat < lt.length := by
    rw [hlen]
    omega
  have hnom : ∀ (k : Nat), k ≠ (bn.ballot_id % N).toNat → ∀ b : Ballot,
      lt[k]? = some (some b) → bn ≠ b.number := by
    intro k hk b hb heq
    have hkl : k < lt.length := by
      rcases List.getElem?_eq_some_iff.1 hb with ⟨h, -⟩
      exact h
    have h2 : lget lt (k : Int) none = some b := by
      rw [lget_eq]
      simp only [Int.toNat_ofNat]
      rw [hb]
      rfl
    have h3 := hres (k : Int) b (by omega) (by rw [hlen] at hkl; omega) h2
    rw [← heq] at h3
    omega
  cases hent : lget lt (bn.ballot_id % N) none with
  | none =>
      have hall : ∀ ob ∈ lt, ∀ b : Ballot, ob = some b → bn ≠ b.number := by
        intro ob hob b hb heq
        obtain ⟨k, hkl, hke⟩ := List.getElem_of_mem hob
        by_cases hkj : k = (bn.ballot_id % N).toNat
        · subst hkj
          have hx : lget lt (bn.ballot_id % N) none = some b := by
            rw [lget_eq, List.getElem?_eq_getElem hkl, hke, hb]
            rfl
          rw [hent] at hx
          exact Option.noConfusion hx
        · exact hnom k hkj b
            (by rw [List.getElem?_eq_getElem hkl, hke, hb]) heq
      exact scan_go_const bn lt lt none hall
  | some B0 =>
      have hg : lt[(bn.ballot_id % N).toNat] = some B0 := by
        rw [lget_eq, List.getElem?_eq_getElem hjn] at hent
        simp only [Option.getD_some] at hent
        exact hent
      by_cases hm : bn = B0.number
      · dsimp only
        rw [if_pos hm]
        have hsplit : lt = lt.take (bn.ballot_id % N).toNat ++
            some B0 :: lt.drop ((bn.ballot_id % N).toNat + 1) := by
          conv_lhs =>
            rw [← List.take_append_drop (bn.ballot_id % N).toNat lt]
          rw [List.drop_eq_getElem_cons hjn, hg]
        have hpre : ∀ ob ∈ lt.take (bn.ballot_id % N).toNat, ∀ b : Ballot,
            ob = some b → bn ≠ b.number := by
          intro ob hob b hb heq
          obtain ⟨k, hkl, hke⟩ := List.getElem_of_mem hob
          have hkj : k < (bn.ballot_id % N).toNat := by
            have h5 := hkl
            rw [List.length_take] at h5
            omega
          refine hnom k (by omega) b ?_ heq
          have h6 : (lt.take (bn.ballot_id % N).toNat)[k]? = lt[k]? :=
            List.getElem?_take_of_lt hkj
          rw [← h6, List.getElem?_eq_getElem hkl, hke, hb]
        have hsuf : ∀ ob ∈ lt.drop ((bn.ballot_id % N).toNat + 1),
            ∀ b : Ballot, ob = some b → bn ≠ b.number := by
          intro ob hob b hb heq
          obtain ⟨k, hkl, hke⟩ := List.getElem_of_mem hob
          refine hnom ((bn.ballot_id % N).toNat + 1 + k) (by omega) b ?_ heq
          rw [← List.getElem?_drop, List.getElem?_eq_getElem hkl, hke, hb]
        have hidx : lt.findIdx (fun e => decide (e = some B0)) =
            (bn.ballot_id % N).toNat := by
          rw [List.findIdx_eq hjn]
          constructor
          · simp [hg]
          · intro k hk
            simp only [decide_eq_false_iff_not]
            intro hke
            have hkl : k < lt.length := by omega
            exact hnom k (by omega) B0
              (by rw [List.getElem?_eq_getElem hkl]; exact congrArg some hke)
              hm
        have hcalc : scanBallotM bn lt =
            (lt.take (bn.ballot_id % N).toNat ++
              some B0 :: lt.drop ((bn.ballot_id % N).toNat + 1)).foldl
              (fun acc ob =>
                match ob with
                | some b =>
                    if bn = b.number then some (pyListIndex lt b, b) else acc
                | none => acc)
              none :=
          congrArg
            (fun l => l.foldl
              (fun acc ob =>
                match ob with
                | some b =>
                    if bn = b.number then some (pyListIndex lt b, b) else acc
                | none => acc)
              none) hsplit
        rw [hcalc, List.foldl_append, List.foldl_cons,
          scan_go_const bn lt _ none hpre]
        dsimp only
        rw [if_pos hm, scan_go_const bn lt _ _ hsuf]
        unfold pyListIndex
        rw [hidx, Int.toNat_of_nonneg hj0]
      · dsimp only
        rw [if_neg hm]
        have hall : ∀ ob ∈ lt, ∀ b : Ballot, ob = some b → bn ≠ b.number := by
          intro ob hob b hb heq
          obtain ⟨k, hkl, hke⟩ := List.getElem_of_mem hob
          by_cases hkj : k = (bn.ballot_id % N).toNat
          · subst hkj
            have hx : lget lt (bn.ballot_id % N) none = some b := by
              rw [lget_eq, List.getElem?_eq_getElem hkl, hke, hb]
              rfl
            rw [hent] at hx
            injection hx with e
            rw [← e] at heq
            exact hm heq
          · exact hnom k hkj b
              (by rw [List.getElem?_eq_getElem hkl, hke, hb]) heq
        exact scan_go_const bn lt lt none hall

/-- Helper: well-formedness does not depend on the network. -/
theorem wfM_net (N : Int) (s : GStateM) (x : Multiset (Int × Message))
    (h : WFM N s) : WFM N { s with net := x } :=
  { hN := h.hN
    len_lt := h.len_lt
    len_rs := h.len_rs
    len_lv := h.len_lv
    len_nb := h.len_nb
    len_ledger := h.len_ledger
    lt_residue := h.lt_residue }

/-- Helper: well-formedness is preserved by `on_nextballot`. -/
theorem wfM_onNextBallot (N a au : Int) (bn : BallotNumber) (s : GStateM)
    (h : WFM N s) : WFM N (onNextBallotM N a au bn s) := by
  simp only [onNextBallotM]
  by_cases hg :
      nbLtOpt (lget (s.acc a).next_ballot (bn.ballot_id % N) none) bn = true
  swap
  · rw [if_neg hg]; exact h
  rw [if_pos hg]
  refine
    { hN := h.hN
      len_lt := h.len_lt
      len_rs := h.len_rs
      len_lv := ?_
      len_nb := ?_
      len_ledger := h.len_ledger
      lt_residue := h.lt_residue }
  · intro x
    dsimp only
    by_cases hx : x = a
    · rw [if_pos hx]
      exact h.len_lv a
    · rw [if_neg hx]
      exact h.len_lv x
  · intro x
    dsimp only
    by_cases hx : x = a
    · rw [if_pos hx]
      dsimp only
      rw [length_lset]
      exact h.len_nb a
    · rw [if_neg hx]
      exact h.len_nb x

/-- Helper: well-formedness is preserved by `on_beginballot`. -/
theorem wfM_onBeginBallot (N a au : Int) (B : Ballot) (s : GStateM)
    (h : WFM N s) : WFM N (onBeginBallotM N a au B s) := by
  simp only [onBeginBallotM]
  by_cases hg : lget (s.acc a).next_ballot (B.number.ballot_id % N) none =
      some B.number
  swap
  · rw [if_neg hg]; exact h
  rw [if_pos hg]
  refine
    { hN := h.hN
      len_lt := h.len_lt
      len_rs := h.len_rs
      len_lv := ?_
      len_nb := ?_
      len_ledger := h.len_ledger
      lt_residue := h.lt_residue }
  · intro x
    dsimp only
    by_cases hx : x = a
    · rw [if_pos hx]
      dsimp only
      rw [length_lset]
      exact h.len_lv a
    · rw [if_neg hx]
      exact h.len_lv x
  · intro x
    dsimp only
    by_cases hx : x = a
    · rw [if_pos hx]
      exact h.len_nb a
    · rw [if_neg hx]
      exact h.len_nb x

/-- Helper: well-formedness is preserved by the ledger write of
`on_success`. -/
theorem wfM_onSuccessLedger (N x : Int) (d : Proposal) (bn : BallotNumber)
    (s : GStateM) (h : WFM N s) : WFM N (onSuccessLedgerM N x d bn s) := by
  simp only [onSuccessLedgerM]
  refine
    { hN := h.hN
      len_lt := h.len_lt
      len_rs := h.len_rs
      len_lv := h.len_lv
      len_nb := h.len_nb
      len_ledger := ?_
      lt_residue := h.lt_residue }
  intro y
  dsimp only
  by_cases hy : y = x
  · rw [if_pos hy]
    rw [length_lset]
    exact h.len_ledger x
  · rw [if_neg hy]
    exact h.len_ledger y

/-- Helper: well-formedness is preserved by `on_lastvote`. -/
theorem wfM_onLastVote (N p au : Int) (bn : BallotNumber) (lv : Option Vote)
    (s : GStateM) (h : WFM N s) : WFM N (onLastVoteM p au bn lv s) := by
  simp only [onLastVoteM]
  rw [scanBallotM_eq N bn (s.prop p).last_tried h.hN (h.len_lt p)
    (fun idx B h1 h2 h3 => h.lt_residue p idx B h1 h2 h3)]
  have hj0 : 0 ≤ bn.ballot_id % N := Int.emod_nonneg _ (by have := h.hN; omega)
  have hjN : bn.ballot_id % N < N := Int.emod_lt_of_pos _ h.hN
  cases hent : lget (s.prop p).last_tried (bn.ballot_id % N) none with
  | none => exact h
  | some B =>
      dsimp only
      by_cases hm : bn = B.number
      swap
      · rw [if_neg hm]
        exact h
      rw [if_pos hm]
      dsimp only
      by_cases hfull :
          (lget (s.prop p).responses (bn.ballot_id % N) [] ++ [lv]).length =
            B.quorum.card
      · rw [if_pos hfull]
        refine
          { hN := h.hN
            len_lt := ?_
            len_rs := ?_
            len_lv := h.len_lv
            len_nb := h.len_nb
            len_ledger := h.len_ledger
            lt_residue := ?_ }
        · intro x
          dsimp only
          by_cases hx : x = p
          · rw [if_pos hx]
            dsimp only
            rw [length_lset]
            exact h.len_lt p
          · rw [if_neg hx]
            exact h.len_lt x
        · intro x
          dsimp only
          by_cases hx : x = p
          · rw [if_pos hx]
            dsimp only
            rw [length_lset]
            exact h.len_rs p
          · rw [if_neg hx]
            exact h.len_rs x
        · intro x idx B₀ h1 h2 h3
          dsimp only at h3
          by_cases hx : x = p
          · rw [if_pos hx] at h3
            dsimp only at h3
            by_cases hix : idx = bn.ballot_id % N
            · rw [hix] at h3
              rw [lget_lset_self _ _ _ _
                (by rw [h.len_lt p]; omega)] at h3
              injection h3 with e
              rw [← e]
              rw [hix]
              exact h.lt_residue p (bn.ballot_id % N) B hj0 hjN hent
            · rw [lget_lset_ne _ _ _ _ _ (by omega)] at h3
              exact h.lt_residue p idx B₀ h1 h2 h3
          · rw [if_neg hx] at h3
            exact h.lt_residue x idx B₀ h1 h2 h3
      · rw [if_neg hfull]
        refine
          { hN := h.hN
            len_lt := ?_
            len_rs := ?_
            len_lv := h.len_lv
            len_nb := h.len_nb
            len_ledger := h.len_ledger
            lt_residue := ?_ }
        · intro x
          dsimp only
          by_cases hx : x = p
          · rw [if_pos hx]
            exact h.len_lt p
          · rw [if_neg hx]
            exact h.len_lt x
        · intro x
          dsimp only
          by_cases hx : x = p
          · rw [if_pos hx]
            dsimp only
            rw [length_lset]
            exact h.len_rs p
          · rw [if_neg hx]
            exact h.len_rs x
        · intro x idx B₀ h1 h2 h3
          dsimp only at h3
          by_cases hx : x = p
          · rw [if_pos hx] at h3
            dsimp only at h3
            exact h.lt_residue p idx B₀ h1 h2 h3
          · rw [if_neg hx] at h3
            exact h.lt_residue x idx B₀ h1 h2 h3

/-- Helper: well-formedness is preserved by `on_voted`. -/
theorem wfM_onVoted (props accs : Finset Int) (N p : Int) (v : Vote)
    (s : GStateM) (h : WFM N s) : WFM N (onVotedM props accs p v s) := by
  simp only [onVotedM]
  rw [scanBallotM_eq N v.ballot.number (s.prop p).last_tried h.hN (h.len_lt p)
    (fun idx B h1 h2 h3 => h.lt_residue p idx B h1 h2 h3)]
  have hj0 : 0 ≤ v.ballot.number.ballot_id % N :=
    Int.emod_nonneg _ (by have := h.hN; omega)
  have hjN : v.ballot.number.ballot_id % N < N := Int.emod_lt_of_pos _ h.hN
  cases hent : lget (s.prop p).last_tried (v.ballot.number.ballot_id % N) none
    with
  | none => exact h
  | some B =>
      dsimp only
      by_cases hm : v.ballot.number = B.number
      swap
      · rw [if_neg hm]
        exact h
      rw [if_pos hm]
      dsimp only
      refine
        { hN := h.hN
          len_lt := ?_
          len_rs := ?_
          len_lv := h.len_lv
          len_nb := h.len_nb
          len_ledger := h.len_ledger
          lt_residue := ?_ }
      · intro x
        dsimp only
        by_cases hx : x = p
        · rw [if_pos hx]
          dsimp only
          rw [length_lset]
          exact h.len_lt p
        · rw [if_neg hx]
          exact h.len_lt x
      · intro x
        dsimp only
        by_cases hx : x = p
        · rw [if_pos hx]
          exact h.len_rs p
        · rw [if_neg hx]
          exact h.len_rs x
      · intro x idx B₀ h1 h2 h3
        dsimp only at h3
        by_cases hx : x = p
        · rw [if_pos hx] at h3
          dsimp only at h3
          by_cases hix : idx = v.ballot.number.ballot_id % N
          · rw [hix] at h3
            rw [lget_lset_self _ _ _ _ (by rw [h.len_lt p]; omega)] at h3
            injection h3 with e
            rw [← e]
            rw [hix]
            exact h.lt_residue p (v.ballot.number.ballot_id % N) B hj0 hjN hent
          · rw [lget_lset_ne _ _ _ _ _ (by omega)] at h3
            exact h.lt_residue p idx B₀ h1 h2 h3
        · rw [if_neg hx] at h3
          exact h.lt_residue x idx B₀ h1 h2 h3

/-- Helper: well-formedness is preserved by one instance-initiation
iteration. -/
theorem wfM_initiateStep (N p : Int) (q : Finset Int) (s : GStateM) (idx : Int)
    (h : WFM N s) (h0 : 0 ≤ idx) (hN : idx < N) :
    WFM N (initiateStepM N p q s idx) := by
  simp only [initiateStepM]
  refine
    { hN := h.hN
      len_lt := ?_
      len_rs := ?_
      len_lv := h.len_lv
      len_nb := h.len_nb
      len_ledger := h.len_ledger
      lt_residue := ?_ }
  · intro x
    dsimp only
    by_cases hx : x = p
    · rw [if_pos hx]
      dsimp only
      rw [length_lset]
      exact h.len_lt p
    · rw [if_neg hx]
      exact h.len_lt x
  · intro x
    dsimp only
    by_cases hx : x = p
    · rw [if_pos hx]
      dsimp only
      rw [length_lset]
      exact h.len_rs p
    · rw [if_neg hx]
      exact h.len_rs x
  · intro x idx2 B₀ h1 h2 h3
    dsimp only at h3
    by_cases hx : x = p
    · rw [if_pos hx] at h3
      dsimp only at h3
      by_cases hix : idx2 = idx
      · rw [hix] at h3
        rw [lget_lset_self _ _ _ _ (by rw [h.len_lt p]; omega)] at h3
        injection h3 with e
        rw [← e, hix]
        cases hprev : lget (s.prop p).last_tried idx none with
        | none =>
            simp only [freshBallot, multiNewBallotNumber]
            exact Int.emod_eq_of_lt h0 hN
        | some b =>
            have hr := h.lt_residue p idx b h0 hN hprev
            simp only [freshBallot, multiNewBallotNumber]
            rw [Int.add_emod_self]
            exact hr
      · rw [lget_lset_ne _ _ _ _ _ (by omega)] at h3
        exact h.lt_residue p idx2 B₀ h1 h2 h3
    · rw [if_neg hx] at h3
      exact h.lt_residue x idx2 B₀ h1 h2 h3

/-- Helper: well-formedness is preserved by the whole initiation loop. -/
theorem wfM_initiateM (N p : Int) (q : Finset Int) (s : GStateM)
    (h : WFM N s) : WFM N (initiateM N p q s) := by
  unfold initiateM
  have hgen : ∀ (l : List Int) (t : GStateM), (∀ i ∈ l, 0 ≤ i ∧ i < N) →
      WFM N t →
      WFM N (l.foldl (fun t i => initiateStepM N p q t i) t) := by
    intro l
    induction l with
    | nil => intro t _ ht; exact ht
    | cons i l ih =>
        intro t hl ht
        rw [List.foldl_cons]
        refine ih _ (fun j hj => hl j (List.mem_cons_of_mem _ hj)) ?_
        obtain ⟨h0, h1⟩ := hl i (List.mem_cons_self i l)
        exact wfM_initiateStep N p q t i ht h0 h1
  refine hgen _ s ?_ h
  intro i hi
  obtain ⟨k, hk, rfl⟩ := List.mem_map.1 hi
  have := List.mem_range.1 hk
  have hN := h.hN
  omega

/-- Helper: well-formedness is preserved by every Multi-Paxos step. -/
theorem wfM_step (props accs : Finset Int) (N : Int) (s s2 : GStateM)
    (h : WFM N s) (hstep : StepM props accs N s s2) : WFM N s2 := by
  cases hstep with
  | initiate p q _ hp hq hcard => exact wfM_initiateM N p q s h
  | deliverProp p m _ hp hm =>
      have h1 := wfM_net N s (s.net.erase (p, m)) h
      cases m with
      | nextBallot au bn => exact h1
      | lastVote au bn lv => exact wfM_onLastVote N p au bn lv _ h1
      | voted au v => exact wfM_onVoted props accs N p v _ h1
      | beginBallot au B d => exact h1
      | success au d obn =>
          cases obn with
          | none => exact h1
          | some bn => exact wfM_onSuccessLedger N p d bn _ h1
  | deliverAcc a m _ ha hm =>
      have h1 := wfM_net N s (s.net.erase (a, m)) h
      cases m with
      | nextBallot au bn => exact wfM_onNextBallot N a au bn _ h1
      | lastVote au bn lv => exact h1
      | voted au v => exact h1
      | beginBallot au B d => exact wfM_onBeginBallot N a au B _ h1
      | success au d obn =>
          cases obn with
          | none => exact h1
          | some bn => exact wfM_onSuccessLedger N a d bn _ h1
  | drop d m _ hm => exact wfM_net N s _ h

/-- Helper: the initial Multi-Paxos state is well-formed for a positive
instance count. -/
theorem wfM_init (N : Int) (hN : 0 < N) : WFM N (initGM N) := by
  refine
    { hN := hN
      len_lt := fun p => List.length_replicate _ _
      len_rs := fun p => List.length_replicate _ _
      len_lv := fun a => List.length_replicate _ _
      len_nb := fun a => List.length_replicate _ _
      len_ledger := fun x => List.length_replicate _ _
      lt_residue := ?_ }
  intro p idx B h1 h2 h3
  rw [show (initGM N).prop p = MProposerState.init N from rfl] at h3
  simp only [MProposerState.init] at h3
  rw [lget_replicate] at h3
  exact Option.noConfusion h3

/-- Helper: every reachable Multi-Paxos state is well-formed. -/
theorem wfM_reachable (props accs : Finset Int) (N : Int) (s : GStateM)
    (hN : 0 < N) (h : ReachableM props accs N s) : WFM N s := by
  induction h with
  | refl => exact wfM_init N hN
  | tail hab hstep ih => exact wfM_step props accs N _ _ ih hstep

/-- Helper: erasing a message of instance `idx` commutes with the
projection. -/
theorem projB_net_erase (N idx : Int) (s : GStateM) (e : Int × Message)
    (he : e ∈ s.net) (hp : msgInst N e.2 = some idx) :
    projB N idx { s with net := s.net.erase e } =
      { projB N idx s with
        net := (projB N idx s).net.erase (stripSuccess e) } := by
  refine GStateB_eq _ _ rfl rfl rfl ?_ rfl rfl rfl rfl rfl
  exact projNet_erase_mem N idx s.net e he hp

/-- Helper: erasing a message of another instance is invisible to the
projection. -/
theorem projB_net_erase_ne (N idx : Int) (s : GStateM) (e : Int × Message)
    (he : e ∈ s.net) (hp : ¬ msgInst N e.2 = some idx) :
    projB N idx { s with net := s.net.erase e } = projB N idx s := by
  refine GStateB_eq _ _ rfl rfl rfl ?_ rfl rfl rfl rfl rfl
  exact projNet_erase_ne N idx s.net e he hp

/-- Helper: `on_nextballot` on its own instance commutes with the
projection. -/
theorem proj_onNextBallot (N idx a au : Int) (bn : BallotNumber) (t : GStateM)
    (hwf : WFM N t) (hj : bn.ballot_id % N = idx) :
    projB N idx (onNextBallotM N a au bn t) =
      onNextBallotB a au bn (projB N idx t) := by
  have h0 : 0 ≤ idx := by
    rw [← hj]
    exact Int.emod_nonneg _ (by have := hwf.hN; omega)
  have h1 : idx < N := by
    rw [← hj]
    exact Int.emod_lt_of_pos _ hwf.hN
  simp only [onNextBallotM, hj]
  by_cases hg : nbLtOpt (lget (t.acc a).next_ballot idx none) bn = true
  · rw [if_pos hg]
    have hgB : nbLtOpt ((projB N idx t).acc a).next_ballot bn = true := hg
    simp only [onNextBallotB]
    rw [if_pos hgB]
    refine GStateB_eq _ _ ?_ ?_ ?_ ?_ ?_ ?_ ?_ ?_ ?_
    · rfl
    · funext x
      simp only [projB]
      by_cases hx : x = a
      · rw [if_pos hx, if_pos hx]
        dsimp only
        rw [lget_lset_self _ _ _ _ (by rw [hwf.len_nb a]; omega)]
      · rw [if_neg hx, if_neg hx]
    · rfl
    · simp only [projB]
      rw [Multiset.filter_add, Multiset.map_add]
      congr 1
      rw [show Multiset.filter (fun pm => msgInst N pm.2 = some idx)
          ({(au, Message.lastVote a bn (lget (t.acc a).last_vote idx none))} :
            Multiset (Int × Message)) =
          {(au, Message.lastVote a bn (lget (t.acc a).last_vote idx none))}
        from by
          rw [Multiset.filter_singleton, if_pos (by simp [msgInst, hj])]]
      rw [Multiset.map_singleton]
      rfl
    · rfl
    · rfl
    · rfl
    · simp only [projB]
      rw [Finset.filter_insert, if_pos (show
        ((a, bn, voteProj (lget (t.acc a).last_vote idx none)) :
          Int × BallotNumber × Option (BallotNumber × Proposal)).2.1.ballot_id
            % N = idx from hj)]
    · rfl
  · rw [if_neg hg]
    have hgB : ¬ nbLtOpt ((projB N idx t).acc a).next_ballot bn = true := hg
    simp only [onNextBallotB]
    rw [if_neg hgB]

/-- Helper: `on_nextballot` on another instance is invisible to the
projection. -/
theorem proj_onNextBallot_ne (N idx a au : Int) (bn : BallotNumber)
    (t : GStateM) (hwf : WFM N t) (h0 : 0 ≤ idx)
    (hj : ¬ bn.ballot_id % N = idx) :
    projB N idx (onNextBallotM N a au bn t) = projB N idx t := by
  simp only [onNextBallotM]
  by_cases hg :
      nbLtOpt (lget (t.acc a).next_ballot (bn.ballot_id % N) none) bn = true
  · rw [if_pos hg]
    refine GStateB_eq _ _ ?_ ?_ ?_ ?_ ?_ ?_ ?_ ?_ ?_
    · rfl
    · funext x
      simp only [projB]
      by_cases hx : x = a
      · rw [if_pos hx]
        dsimp only
        rw [lget_lset_ne _ _ _ _ _ (by
          have h2 : 0 ≤ bn.ballot_id % N :=
            Int.emod_nonneg _ (by have := hwf.hN; omega)
          omega)]
        rw [hx]
      · rw [if_neg hx]
    · rfl
    · simp only [projB]
      rw [Multiset.filter_add, Multiset.map_add]
      rw [show Multiset.filter (fun pm => msgInst N pm.2 = some idx)
          ({(au, Message.lastVote a bn (lget (t.acc a).last_vote
            (bn.ballot_id % N) none))} : Multiset (Int × Message)) =
          0 from by
        rw [Multiset.filter_singleton, if_neg (by simp [msgInst]; exact hj)]
        rfl]
      rw [Multiset.map_zero, add_zero]
    · rfl
    · rfl
    · rfl
    · simp only [projB]
      rw [Finset.filter_insert, if_neg (show
        ¬ ((a, bn, voteProj (lget (t.acc a).last_vote (bn.ballot_id % N)
          none)) :
          Int × BallotNumber × Option (BallotNumber × Proposal)).2.1.ballot_id
            % N = idx from hj)]
    · rfl
  · rw [if_neg hg]

/-- Helper: `on_beginballot` on its own instance commutes with the
projection. -/
theorem proj_onBeginBallot (N idx a au : Int) (B : Ballot) (t : GStateM)
    (hwf : WFM N t) (hj : B.number.ballot_id % N = idx) :
    projB N idx (onBeginBallotM N a au B t) =
      onBeginBallotB a au B (projB N idx t) := by
  have h0 : 0 ≤ idx := by
    rw [← hj]
    exact Int.emod_nonneg _ (by have := hwf.hN; omega)
  have h1 : idx < N := by
    rw [← hj]
    exact Int.emod_lt_of_pos _ hwf.hN
  simp only [onBeginBallotM, hj]
  by_cases hg : lget (t.acc a).next_ballot idx none = some B.number
  · rw [if_pos hg]
    have hgB : ((projB N idx t).acc a).next_ballot = some B.number := hg
    simp only [onBeginBallotB]
    rw [if_pos hgB]
    refine GStateB_eq _ _ ?_ ?_ ?_ ?_ ?_ ?_ ?_ ?_ ?_
    · rfl
    · funext x
      simp only [projB]
      by_cases hx : x = a
      · rw [if_pos hx, if_pos hx]
        dsimp only
        rw [lget_lset_self _ _ _ _ (by rw [hwf.len_lv a]; omega)]
      · rw [if_neg hx, if_neg hx]
    · rfl
    · simp only [projB]
      rw [Multiset.filter_add, Multiset.map_add]
      congr 1
      rw [show Multiset.filter (fun pm => msgInst N pm.2 = some idx)
          ({(au, Message.voted a ⟨B, a⟩)} : Multiset (Int × Message)) =
          {(au, Message.voted a ⟨B, a⟩)} from by
        rw [Multiset.filter_singleton, if_pos (by simp [msgInst, hj])]]
      rw [Multiset.map_singleton]
      rfl
    · rfl
    · rfl
    · simp only [projB]
      rw [Finset.filter_insert, if_pos (show
        ((a, B.number, B.decree) :
          Int × BallotNumber × Proposal).2.1.ballot_id % N = idx from hj)]
    · rfl
    · rfl
  · rw [if_neg hg]
    have hgB : ¬ ((projB N idx t).acc a).next_ballot = some B.number := hg
    simp only [onBeginBallotB]
    rw [if_neg hgB]

/-- Helper: `on_beginballot` on another instance is invisible to the
projection. -/
theorem proj_onBeginBallot_ne (N idx a au : Int) (B : Ballot) (t : GStateM)
    (hwf : WFM N t) (h0 : 0 ≤ idx)
    (hj : ¬ B.number.ballot_id % N = idx) :
    projB N idx (onBeginBallotM N a au B t) = projB N idx t := by
  simp only [onBeginBallotM]
  by_cases hg : lget (t.acc a).next_ballot (B.number.ballot_id % N) none =
      some B.number
  · rw [if_pos hg]
    refine GStateB_eq _ _ ?_ ?_ ?_ ?_ ?_ ?_ ?_ ?_ ?_
    · rfl
    · funext x
      simp only [projB]
      by_cases hx : x = a
      · rw [if_pos hx]
        dsimp only
        rw [lget_lset_ne _ _ _ _ _ (by
          have h2 : 0 ≤ B.number.ballot_id % N :=
            Int.emod_nonneg _ (by have := hwf.hN; omega)
          omega)]
        rw [hx]
      · rw [if_neg hx]
    · rfl
    · simp only [projB]
      rw [Multiset.filter_add, Multiset.map_add]
      rw [show Multiset.filter (fun pm => msgInst N pm.2 = some idx)
          ({(au, Message.voted a ⟨B, a⟩)} : Multiset (Int × Message)) =
          0 from by
        rw [Multiset.filter_singleton, if_neg (by simp [msgInst]; exact hj)]
        rfl]
      rw [Multiset.map_zero, add_zero]
    · rfl
    · rfl
    · simp only [projB]
      rw [Finset.filter_insert, if_neg (show
        ¬ ((a, B.number, B.decree) :
          Int × BallotNumber × Proposal).2.1.ballot_id % N = idx from hj)]
    · rfl
    · rfl
  · rw [if_neg hg]

/-- Helper: the ledger write of `on_success` on its own instance commutes
with the projection (the basic handler ignores the absent ballot number). -/
theorem proj_onSuccessLedger (N idx x : Int) (d : Proposal)
    (bn : BallotNumber) (t : GStateM) (hwf : WFM N t)
    (hj : bn.ballot_id % N = idx) :
    projB N idx (onSuccessLedgerM N x d bn t) =
      { projB N idx t with
        ledger := fun y => if y = x then some d
          else (projB N idx t).ledger y } := by
  have h0 : 0 ≤ idx := by
    rw [← hj]
    exact Int.emod_nonneg _ (by have := hwf.hN; omega)
  have h1 : idx < N := by
    rw [← hj]
    exact Int.emod_lt_of_pos _ hwf.hN
  simp only [onSuccessLedgerM, hj]
  refine GStateB_eq _ _ ?_ ?_ ?_ ?_ ?_ ?_ ?_ ?_ ?_
  · rfl
  · rfl
  · funext y
    simp only [projB]
    by_cases hy : y = x
    · rw [if_pos hy, if_pos hy]
      rw [lget_lset_self _ _ _ _ (by rw [hwf.len_ledger x]; omega)]
    · rw [if_neg hy, if_neg hy]
  · rfl
  · rfl
  · rfl
  · rfl
  · rfl
  · rfl

/-- Helper: the ledger write of `on_success` on another instance is invisible
to the projection. -/
theorem proj_onSuccessLedger_ne (N idx x : Int) (d : Proposal)
    (bn : BallotNumber) (t : GStateM) (hwf : WFM N t) (h0 : 0 ≤ idx)
    (hj : ¬ bn.ballot_id % N = idx) :
    projB N idx (onSuccessLedgerM N x d bn t) = projB N idx t := by
  simp only [onSuccessLedgerM]
  refine GStateB_eq _ _ ?_ ?_ ?_ ?_ ?_ ?_ ?_ ?_ ?_
  · rfl
  · rfl
  · funext y
    simp only [projB]
    by_cases hy : y = x
    · rw [if_pos hy]
      rw [lget_lset_ne _ _ _ _ _ (by
        have h2 : 0 ≤ bn.ballot_id % N :=
          Int.emod_nonneg _ (by have := hwf.hN; omega)
        omega)]
      rw [hy]
    · rw [if_neg hy]
  · rfl
  · rfl
  · rfl
  · rfl
  · rfl
  · rfl

/-- Helper: a broadcast whose messages all belong to instance `idx` survives
the projection, with `Success` ballot numbers stripped. -/
theorem proj_bcast (N idx : Int) (f g : Int → Message) (vals : Multiset Int)
    (hinst : ∀ a, msgInst N (f a) = some idx)
    (hstrip : ∀ a, stripSuccess (a, f a) = (a, g a)) :
    Multiset.map stripSuccess
      (Multiset.filter (fun pm => msgInst N pm.2 = some idx)
        (Multiset.map (fun a => (a, f a)) vals)) =
    Multiset.map (fun a => (a, g a)) vals := by
  rw [Multiset.filter_eq_self.2]
  · rw [Multiset.map_map]
    exact Multiset.map_congr rfl (fun x hx => hstrip x)
  · intro e he
    obtain ⟨a₀, ha₀, heq⟩ := Multiset.mem_map.1 he
    rw [← heq]
    exact hinst a₀

/-- Helper: a broadcast of another instance vanishes under the projection. -/
theorem proj_bcast_ne (N idx : Int) (f : Int → Message) (vals : Multiset Int)
    (hinst : ∀ a, ¬ msgInst N (f a) = some idx) :
    Multiset.filter (fun pm => msgInst N pm.2 = some idx)
      (Multiset.map (fun a => (a, f a)) vals) = 0 := by
  rw [Multiset.filter_eq_nil]
  intro e he
  obtain ⟨a₀, ha₀, heq⟩ := Multiset.mem_map.1 he
  rw [← heq]
  exact hinst a₀

/-- Helper: `on_lastvote` on its own instance commutes with the
projection. -/
theorem proj_onLastVote (N idx p au : Int) (bn : BallotNumber)
    (lv : Option Vote) (t : GStateM) (hwf : WFM N t)
    (hj : bn.ballot_id % N = idx) :
    projB N idx (onLastVoteM p au bn lv t) =
      onLastVoteB p au bn lv (projB N idx t) := by
  have h0 : 0 ≤ idx := by
    rw [← hj]
    exact Int.emod_nonneg _ (by have := hwf.hN; omega)
  have h1 : idx < N := by
    rw [← hj]
    exact Int.emod_lt_of_pos _ hwf.hN
  have hres := hwf.lt_residue p idx
  simp only [onLastVoteM]
  rw [scanBallotM_eq N bn (t.prop p).last_tried hwf.hN (hwf.len_lt p)
    (fun i B ha hb hc => hwf.lt_residue p i B ha hb hc), hj]
  simp only [onLastVoteB]
  cases hent : lget (t.prop p).last_tried idx none with
  | none =>
      have hlt : ((projB N idx t).prop p).last_tried = none := hent
      rw [hlt]
  | some B =>
      have hlt : ((projB N idx t).prop p).last_tried = some B := hent
      rw [hlt]
      dsimp only
      by_cases hm : bn = B.number
      swap
      · rw [if_neg hm, if_neg hm]
      rw [if_pos hm, if_pos hm]
      dsimp only
      simp only [projB]
      by_cases hfull :
          (lget (t.prop p).responses idx [] ++ [lv]).length = B.quorum.card
      · rw [if_pos hfull, if_pos hfull]
        refine GStateB_eq _ _ ?_ ?_ ?_ ?_ ?_ ?_ ?_ ?_ ?_
        · funext x
          dsimp only
          by_cases hx : x = p
          · rw [if_pos hx, if_pos hx]
            dsimp only
            rw [lget_lset_self _ _ _ _ (by rw [hwf.len_lt p]; omega),
              lget_lset_self _ _ _ _ (by rw [hwf.len_rs p]; omega)]
          · rw [if_neg hx, if_neg hx]
        · rfl
        · rfl
        · dsimp only
          rw [Multiset.filter_add, Multiset.map_add]
          congr 1
          exact proj_bcast N idx _ _ B.quorum.val
            (fun a => congrArg some (hres B h0 h1 hent)) (fun a => rfl)
        · rfl
        · dsimp only
          rw [Finset.filter_insert, if_pos (show
            ((B.number, chooseDecree p
              (lget (t.prop p).responses idx [] ++ [lv])) :
              BallotNumber × Proposal).1.ballot_id % N = idx from
            hres B h0 h1 hent)]
        · rfl
        · rfl
        · funext x
          dsimp only
          by_cases hx : x = p
          · rw [if_pos hx, if_pos hx]
            rw [if_pos rfl]
          · rw [if_neg hx, if_neg hx]
      · rw [if_neg hfull, if_neg hfull]
        refine GStateB_eq _ _ ?_ ?_ ?_ ?_ ?_ ?_ ?_ ?_ ?_
        · funext x
          dsimp only
          by_cases hx : x = p
          · rw [if_pos hx, if_pos hx]
            dsimp only
            rw [lget_lset_self _ _ _ _ (by rw [hwf.len_rs p]; omega), hent]
          · rw [if_neg hx, if_neg hx]
        · rfl
        · rfl
        · rfl
        · rfl
        · rfl
        · rfl
        · rfl
        · funext x
          dsimp only
          by_cases hx : x = p
          · rw [if_pos hx, if_pos hx]
            rw [if_pos rfl]
          · rw [if_neg hx, if_neg hx]

/-- Helper: `on_lastvote` on another instance is invisible to the
projection. -/
theorem proj_onLastVote_ne (N idx p au : Int) (bn : BallotNumber)
    (lv : Option Vote) (t : GStateM) (hwf : WFM N t) (h0 : 0 ≤ idx)
    (hj : ¬ bn.ballot_id % N = idx) :
    projB N idx (onLastVoteM p au bn lv t) = projB N idx t := by
  have hj0 : 0 ≤ bn.ballot_id % N :=
    Int.emod_nonneg _ (by have := hwf.hN; omega)
  have hjN : bn.ballot_id % N < N := Int.emod_lt_of_pos _ hwf.hN
  simp only [onLastVoteM]
  rw [scanBallotM_eq N bn (t.prop p).last_tried hwf.hN (hwf.len_lt p)
    (fun i B ha hb hc => hwf.lt_residue p i B ha hb hc)]
  cases hent : lget (t.prop p).last_tried (bn.ballot_id % N) none with
  | none => rfl
  | some B =>
      dsimp only
      by_cases hm : bn = B.number
      swap
      · rw [if_neg hm]
      rw [if_pos hm]
      dsimp only
      have hresB : B.number.ballot_id % N = bn.ballot_id % N :=
        hwf.lt_residue p (bn.ballot_id % N) B hj0 hjN hent
      by_cases hfull :
          (lget (t.prop p).responses (bn.ballot_id % N) [] ++ [lv]).length =
            B.quorum.card
      · rw [if_pos hfull]
        refine GStateB_eq _ _ ?_ rfl rfl ?_ rfl ?_ rfl rfl ?_
        · funext x
          simp only [projB]
          by_cases hx : x = p
          · rw [if_pos hx]
            dsimp only
            rw [lget_lset_ne _ _ _ _ _ (by omega),
              lget_lset_ne _ _ _ _ _ (by omega), hx]
          · rw [if_neg hx]
        · simp only [projB]
          rw [Multiset.filter_add,
            proj_bcast_ne N idx _ B.quorum.val (fun a => by
              simp only [msgInst, Option.some.injEq]
              exact fun hc => hj (by rw [hresB] at hc; exact hc)),
            add_zero]
        · simp only [projB]
          rw [Finset.filter_insert, if_neg (show
            ¬ ((B.number, chooseDecree p
              (lget (t.prop p).responses (bn.ballot_id % N) [] ++ [lv])) :
              BallotNumber × Proposal).1.ballot_id % N = idx from
            fun hc => hj (by rw [hresB] at hc; exact hc))]
        · funext x
          simp only [projB]
          by_cases hx : x = p
          · rw [if_pos hx]
            rw [if_neg (fun hc : idx = bn.ballot_id % N => hj hc.symm), hx]
          · rw [if_neg hx]
      · rw [if_neg hfull]
        refine GStateB_eq _ _ ?_ rfl rfl rfl rfl rfl rfl rfl ?_
        · funext x
          simp only [projB]
          by_cases hx : x = p
          · rw [if_pos hx]
            dsimp only
            rw [lget_lset_ne _ _ _ _ _ (by omega), hx]
          · rw [if_neg hx]
        · funext x
          simp only [projB]
          by_cases hx : x = p
          · rw [if_pos hx]
            rw [if_neg (fun hc : idx = bn.ballot_id % N => hj hc.symm), hx]
          · rw [if_neg hx]

/-- Helper: `on_voted` on its own instance commutes with the projection. -/
theorem proj_onVoted (props accs : Finset Int) (N idx p : Int) (v : Vote)
    (t : GStateM) (hwf : WFM N t)
    (hj : v.ballot.number.ballot_id % N = idx) :
    projB N idx (onVotedM props accs p v t) =
      onVotedB props accs p v (projB N idx t) := by
  have h0 : 0 ≤ idx := by
    rw [← hj]
    exact Int.emod_nonneg _ (by have := hwf.hN; omega)
  have h1 : idx < N := by
    rw [← hj]
    exact Int.emod_lt_of_pos _ hwf.hN
  have hres := hwf.lt_residue p idx
  simp only [onVotedM]
  rw [scanBallotM_eq N v.ballot.number (t.prop p).last_tried hwf.hN
    (hwf.len_lt p) (fun i B ha hb hc => hwf.lt_residue p i B ha hb hc), hj]
  simp only [onVotedB]
  cases hent : lget (t.prop p).last_tried idx none with
  | none =>
      have hlt : ((projB N idx t).prop p).last_tried = none := hent
      rw [hlt]
  | some B =>
      have hlt : ((projB N idx t).prop p).last_tried = some B := hent
      rw [hlt]
      dsimp only
      by_cases hm : v.ballot.number = B.number
      swap
      · rw [if_neg hm, if_neg hm]
      rw [if_pos hm, if_pos hm]
      simp only [projB]
      refine GStateB_eq _ _ ?_ rfl rfl ?_ rfl rfl rfl rfl rfl
      · funext x
        dsimp only
        by_cases hx : x = p
        · rw [if_pos hx, if_pos hx]
          dsimp only
          rw [lget_lset_self _ _ _ _ (by rw [hwf.len_lt p]; omega)]
        · rw [if_neg hx, if_neg hx]
      · dsimp only
        rw [Multiset.filter_add, Multiset.map_add]
        congr 1
        by_cases hsucc :
            ({ B with voters := insert v.acceptor B.voters } : Ballot).quorum ⊆
              ({ B with voters := insert v.acceptor B.voters } : Ballot).voters
        · rw [if_pos hsucc, if_pos hsucc]
          exact proj_bcast N idx _ _ (props ∪ accs).val
            (fun a => congrArg some (hres B h0 h1 hent)) (fun a => rfl)
        · rw [if_neg hsucc, if_neg hsucc]
          rfl

/-- Helper: `on_voted` on another instance is invisible to the projection. -/
theorem proj_onVoted_ne (props accs : Finset Int) (N idx p : Int) (v : Vote)
    (t : GStateM) (hwf : WFM N t) (h0 : 0 ≤ idx)
    (hj : ¬ v.ballot.number.ballot_id % N = idx) :
    projB N idx (onVotedM props accs p v t) = projB N idx t := by
  have hj0 : 0 ≤ v.ballot.number.ballot_id % N :=
    Int.emod_nonneg _ (by have := hwf.hN; omega)
  have hjN : v.ballot.number.ballot_id % N < N := Int.emod_lt_of_pos _ hwf.hN
  simp only [onVotedM]
  rw [scanBallotM_eq N v.ballot.number (t.prop p).last_tried hwf.hN
    (hwf.len_lt p) (fun i B ha hb hc => hwf.lt_residue p i B ha hb hc)]
  cases hent :
      lget (t.prop p).last_tried (v.ballot.number.ballot_id % N) none with
  | none => rfl
  | some B =>
      dsimp only
      by_cases hm : v.ballot.number = B.number
      swap
      · rw [if_neg hm]
      rw [if_pos hm]
      dsimp only
      have hresB : B.number.ballot_id % N = v.ballot.number.ballot_id % N :=
        hwf.lt_residue p (v.ballot.number.ballot_id % N) B hj0 hjN hent
      refine GStateB_eq _ _ ?_ rfl rfl ?_ rfl rfl rfl rfl rfl
      · funext x
        simp only [projB]
        by_cases hx : x = p
        · rw [if_pos hx]
          dsimp only
          rw [lget_lset_ne _ _ _ _ _ (by omega), hx]
        · rw [if_neg hx]
      · simp only [projB]
        rw [Multiset.filter_add]
        by_cases hsucc :
            ({ B with voters := insert v.acceptor B.voters } : Ballot).quorum ⊆
              ({ B with voters := insert v.acceptor B.voters } : Ballot).voters
        · rw [if_pos hsucc]
          rw [proj_bcast_ne N idx _ (props ∪ accs).val
            (fun a hc => hj (by
              rw [← hresB]
              exact Option.some.inj hc)), add_zero]
        · rw [if_neg hsucc]
          rw [show Multiset.filter (fun pm => msgInst N pm.2 = some idx)
            (0 : Multiset (Int × Message)) = 0 from rfl, add_zero]

/-- Helper: the ballot number generated for instance `idx` has residue
`idx`. -/
theorem multiNB_residue (N p j : Int) (t : GStateM) (hwf : WFM N t)
    (h0 : 0 ≤ j) (h1 : j < N) :
    (multiNewBallotNumber N p j
      (lget (t.prop p).last_tried j none)).ballot_id % N = j := by
  cases hprev : lget (t.prop p).last_tried j none with
  | none =>
      simp only [multiNewBallotNumber]
      exact Int.emod_eq_of_lt h0 h1
  | some b =>
      have hr := hwf.lt_residue p j b h0 h1 hprev
      simp only [multiNewBallotNumber]
      rw [Int.add_emod_self]
      exact hr

/-- Helper: one initiation iteration for another instance is invisible to the
projection. -/
theorem proj_initiateStep_ne (N idx p j : Int) (q : Finset Int) (t : GStateM)
    (hwf : WFM N t) (h0 : 0 ≤ idx) (hj0 : 0 ≤ j) (hj1 : j < N)
    (hne : ¬ j = idx) :
    projB N idx (initiateStepM N p q t j) = projB N idx t := by
  have hbnj := multiNB_residue N p j t hwf hj0 hj1
  simp only [initiateStepM]
  refine GStateB_eq _ _ ?_ rfl rfl ?_ ?_ rfl rfl rfl ?_
  · funext x
    simp only [projB]
    by_cases hx : x = p
    · rw [if_pos hx]
      dsimp only
      rw [lget_lset_ne _ _ _ _ _ (by omega),
        lget_lset_ne _ _ _ _ _ (by omega), hx]
    · rw [if_neg hx]
  · simp only [projB]
    rw [Multiset.filter_add,
      proj_bcast_ne N idx _ q.val
        (fun a hc => hne (by rw [← hbnj]; exact Option.some.inj hc)),
      add_zero]
  · simp only [projB]
    rw [Finset.filter_insert, if_neg (show
      ¬ ((multiNewBallotNumber N p j (lget (t.prop p).last_tried j none), q) :
        BallotNumber × Finset Int).1.ballot_id % N = idx from
      fun hc => hne (by rw [← hbnj]; exact hc))]
  · funext x
    simp only [projB]
    by_cases hx : x = p
    · rw [if_pos hx]
      rw [if_neg (fun hc : idx = j => hne hc.symm), hx]
    · rw [if_neg hx]

/-- Helper: the initiation iteration of instance `idx` projects to a
generalized basic initiation. -/
theorem proj_initiateStep_hit (N idx p : Int) (q : Finset Int) (t : GStateM)
    (hwf : WFM N t) (h0 : 0 ≤ idx) (h1 : idx < N) :
    projB N idx (initiateStepM N p q t idx) =
      initiateWith p
        (multiNewBallotNumber N p idx (lget (t.prop p).last_tried idx none))
        q (projB N idx t) := by
  have hbn := multiNB_residue N p idx t hwf h0 h1
  simp only [initiateStepM, initiateWith]
  refine GStateB_eq _ _ ?_ rfl rfl ?_ ?_ rfl rfl rfl ?_
  · funext x
    simp only [projB]
    by_cases hx : x = p
    · rw [if_pos hx, if_pos hx]
      dsimp only
      rw [lget_lset_self _ _ _ _ (by rw [hwf.len_lt p]; omega),
        lget_lset_self _ _ _ _ (by rw [hwf.len_rs p]; omega)]
    · rw [if_neg hx, if_neg hx]
  · simp only [projB]
    rw [Multiset.filter_add, Multiset.map_add]
    congr 1
    exact proj_bcast N idx _ _ q.val
      (fun a => congrArg some hbn) (fun a => rfl)
  · simp only [projB]
    rw [Finset.filter_insert, if_pos (show
      ((multiNewBallotNumber N p idx (lget (t.prop p).last_tried idx none),
        q) : BallotNumber × Finset Int).1.ballot_id % N = idx from hbn)]
  · funext x
    simp only [projB]
    by_cases hx : x = p
    · rw [if_pos hx, if_pos hx]
      rw [if_pos rfl]
    · rw [if_neg hx, if_neg hx]

/-- Helper: a run of initiation iterations avoiding instance `idx` is
invisible to the projection. -/
theorem proj_initiate_fold_ne (N idx p : Int) (q : Finset Int) :
    ∀ (l : List Int) (t : GStateM), WFM N t → 0 ≤ idx →
    (∀ i ∈ l, 0 ≤ i ∧ i < N) → idx ∉ l →
    projB N idx (l.foldl (fun t i => initiateStepM N p q t i) t) =
      projB N idx t := by
  intro l
  induction l with
  | nil => intro t _ _ _ _; rfl
  | cons i l ih =>
      intro t hwf h0 hb hmem
      rw [List.foldl_cons]
      obtain ⟨hi0, hi1⟩ := hb i (List.mem_cons_self i l)
      have hne : ¬ i = idx := fun hc => hmem (hc ▸ List.mem_cons_self i l)
      rw [ih _ (wfM_initiateStep N p q t i hwf hi0 hi1) h0
        (fun j hj => hb j (List.mem_cons_of_mem _ hj))
        (fun hc => hmem (List.mem_cons_of_mem _ hc))]
      exact proj_initiateStep_ne N idx p i q t hwf h0 hi0 hi1 hne

/-- Helper: a nodup run of initiation iterations containing instance `idx`
projects to a single generalized basic initiation. -/
theorem proj_initiate_fold (N idx p : Int) (q : Finset Int) :
    ∀ (l : List Int) (t : GStateM), WFM N t → 0 ≤ idx → idx < N →
    (∀ i ∈ l, 0 ≤ i ∧ i < N) → l.Nodup → idx ∈ l →
    projB N idx (l.foldl (fun t i => initiateStepM N p q t i) t) =
      initiateWith p
        (multiNewBallotNumber N p idx (lget (t.prop p).last_tried idx none))
        q (projB N idx t) := by
  intro l
  induction l with
  | nil => intro t _ _ _ _ _ hmem; exact absurd hmem (List.not_mem_nil idx)
  | cons i l ih =>
      intro t hwf h0 h1 hb hnd hmem
      rw [List.foldl_cons]
      obtain ⟨hi0, hi1⟩ := hb i (List.mem_cons_self i l)
      by_cases hi : i = idx
      · subst hi
        have hnotin : i ∉ l := (List.nodup_cons.1 hnd).1
        rw [proj_initiate_fold_ne N i p q l _
          (wfM_initiateStep N p q t i hwf hi0 hi1) h0
          (fun j hj => hb j (List.mem_cons_of_mem _ hj)) hnotin]
        exact proj_initiateStep_hit N i p q t hwf hi0 hi1
      · have hmem2 : idx ∈ l := by
          rcases List.mem_cons.1 hmem with hc | hc
          · exact absurd hc.symm hi
          · exact hc
        rw [ih _ (wfM_initiateStep N p q t i hwf hi0 hi1) h0 h1
          (fun j hj => hb j (List.mem_cons_of_mem _ hj))
          (List.nodup_cons.1 hnd).2 hmem2]
        have hslot : lget ((initiateStepM N p q t i).prop p).last_tried idx
            none = lget (t.prop p).last_tried idx none := by
          simp only [initiateStepM, if_true]
          rw [lget_lset_ne _ _ _ _ _ (by omega)]
        rw [hslot,
          proj_initiateStep_ne N idx p i q t hwf h0 hi0 hi1 hi]

/-- Helper: the whole Multi-Paxos initiation loop projects to one generalized
basic initiation on every instance. -/
theorem proj_initiateM (N idx p : Int) (q : Finset Int) (t : GStateM)
    (hwf : WFM N t) (h0 : 0 ≤ idx) (h1 : idx < N) :
    projB N idx (initiateM N p q t) =
      initiateWith p
        (multiNewBallotNumber N p idx (lget (t.prop p).last_tried idx none))
        q (projB N idx t) := by
  unfold initiateM
  refine proj_initiate_fold N idx p q _ t hwf h0 h1 ?_ ?_ ?_
  · intro i hi
    obtain ⟨k, hk, rfl⟩ := List.mem_map.1 hi
    have := List.mem_range.1 hk
    have hN := hwf.hN
    omega
  · refine List.Nodup.map ?_ (List.nodup_range _)
    intro a b hab
    exact Int.natCast_inj.1 hab
  · refine List.mem_map.2 ⟨idx.toNat, ?_, by omega⟩
    rw [List.mem_range]
    have hN := hwf.hN
    omega

/-- Helper: the projection of the initial Multi-Paxos state is the initial
basic state. -/
theorem projB_init (N idx : Int) : projB N idx (initGM N) = initGB := by
  refine GStateB_eq _ _ ?_ ?_ ?_ rfl rfl rfl rfl rfl rfl
  · funext x
    simp only [projB, initGM, initGB, MProposerState.init]
    rw [lget_replicate]
    rw [show lget (List.replicate N.toNat ([] : List (Option Vote)))
      idx [] = [] from lget_replicate _ _ _]
    rfl
  · funext x
    simp only [projB, initGM, initGB, MAcceptorState.init]
    rw [lget_replicate, lget_replicate]
    rfl
  · funext x
    simp only [projB, initGM, initGB]
    rw [lget_replicate]

/-- Helper: every Multi-Paxos step projects, on every instance, to zero or
one steps of the generalized basic system. -/
theorem stepM_sim (props accs : Finset Int) (N idx : Int) (s s2 : GStateM)
    (hwf : WFM N s) (h0 : 0 ≤ idx) (h1 : idx < N)
    (hstep : StepM props accs N s s2) :
    Relation.ReflTransGen (StepG props accs) (projB N idx s)
      (projB N idx s2) := by
  cases hstep with
  | initiate p q _ hp hq hcard =>
      rw [proj_initiateM N idx p q s hwf h0 h1]
      refine Relation.ReflTransGen.single ?_
      refine StepG.initiate p _ q (projB N idx s) hp hq hcard ?_ ?_
      · cases lget (s.prop p).last_tried idx none <;> rfl
      · intro B hB
        have hB2 : lget (s.prop p).last_tried idx none = some B := hB
        rw [hB2]
        simp only [multiNewBallotNumber]
        have := hwf.hN
        omega
  | deliverProp p m _ hp hm =>
      have hwf1 := wfM_net N s (s.net.erase (p, m)) hwf
      by_cases hinst : msgInst N m = some idx
      · have hproj := projB_net_erase N idx s (p, m) hm hinst
        have hmem := projNet_mem N idx s.net (p, m) hm hinst
        refine Relation.ReflTransGen.single ?_
        cases m with
        | nextBallot au bn =>
            show StepG props accs (projB N idx s) (projB N idx
              { s with net := s.net.erase (p, Message.nextBallot au bn) })
            rw [hproj]
            exact StepG.deliverProp p (Message.nextBallot au bn)
              (projB N idx s) hp hmem
        | lastVote au bn lv =>
            have hj : bn.ballot_id % N = idx := Option.some.inj hinst
            show StepG props accs (projB N idx s) (projB N idx
              (onLastVoteM p au bn lv
                { s with net := s.net.erase (p, Message.lastVote au bn lv) }))
            rw [proj_onLastVote N idx p au bn lv _ hwf1 hj, hproj]
            exact StepG.deliverProp p (Message.lastVote au bn lv)
              (projB N idx s) hp hmem
        | voted au v =>
            have hj : v.ballot.number.ballot_id % N = idx :=
              Option.some.inj hinst
            show StepG props accs (projB N idx s) (projB N idx
              (onVotedM props accs p v
                { s with net := s.net.erase (p, Message.voted au v) }))
            rw [proj_onVoted props accs N idx p v _ hwf1 hj, hproj]
            exact StepG.deliverProp p (Message.voted au v)
              (projB N idx s) hp hmem
        | beginBallot au B d =>
            show StepG props accs (projB N idx s) (projB N idx
              { s with net := s.net.erase (p, Message.beginBallot au B d) })
            rw [hproj]
            exact StepG.deliverProp p (Message.beginBallot au B d)
              (projB N idx s) hp hmem
        | success au d obn =>
            cases obn with
            | none => exact absurd hinst (by simp [msgInst])
            | some bn2 =>
                have hj : bn2.ballot_id % N = idx := Option.some.inj hinst
                show StepG props accs (projB N idx s) (projB N idx
                  (onSuccessLedgerM N p d bn2
                    { s with net :=
                      s.net.erase (p, Message.success au d (some bn2)) }))
                rw [proj_onSuccessLedger N idx p d bn2 _ hwf1 hj, hproj]
                exact StepG.deliverProp p (Message.success au d none)
                  (projB N idx s) hp hmem
      · have hproj := projB_net_erase_ne N idx s (p, m) hm hinst
        have hstut : projB N idx (propRecvM props accs N p m
            { s with net := s.net.erase (p, m) }) = projB N idx s := by
          cases m with
          | nextBallot au bn => exact hproj
          | lastVote au bn lv =>
              have hj : ¬ bn.ballot_id % N = idx :=
                fun hc => hinst (congrArg some hc)
              show projB N idx (onLastVoteM p au bn lv
                { s with net :=
                  s.net.erase (p, Message.lastVote au bn lv) }) = projB N idx s
              rw [proj_onLastVote_ne N idx p au bn lv _ hwf1 h0 hj, hproj]
          | voted au v =>
              have hj : ¬ v.ballot.number.ballot_id % N = idx :=
                fun hc => hinst (congrArg some hc)
              show projB N idx (onVotedM props accs p v
                { s with net :=
                  s.net.erase (p, Message.voted au v) }) = projB N idx s
              rw [proj_onVoted_ne props accs N idx p v _ hwf1 h0 hj, hproj]
          | beginBallot au B d => exact hproj
          | success au d obn =>
              cases obn with
              | none => exact hproj
              | some bn2 =>
                  have hj : ¬ bn2.ballot_id % N = idx :=
                    fun hc => hinst (congrArg some hc)
                  show projB N idx (onSuccessLedgerM N p d bn2
                    { s with net :=
                      s.net.erase (p, Message.success au d (some bn2)) }) =
                    projB N idx s
                  rw [proj_onSuccessLedger_ne N idx p d bn2 _ hwf1 h0 hj,
                    hproj]
        rw [hstut]
  | deliverAcc a m _ ha hm =>
      have hwf1 := wfM_net N s (s.net.erase (a, m)) hwf
      by_cases hinst : msgInst N m = some idx
      · have hproj := projB_net_erase N idx s (a, m) hm hinst
        have hmem := projNet_mem N idx s.net (a, m) hm hinst
        refine Relation.ReflTransGen.single ?_
        cases m with
        | nextBallot au bn =>
            have hj : bn.ballot_id % N = idx := Option.some.inj hinst
            show StepG props accs (projB N idx s) (projB N idx
              (onNextBallotM N a au bn
                { s with net := s.net.erase (a, Message.nextBallot au bn) }))
            rw [proj_onNextBallot N idx a au bn _ hwf1 hj, hproj]
            exact StepG.deliverAcc a (Message.nextBallot au bn)
              (projB N idx s) ha hmem
        | lastVote au bn lv =>
            show StepG props accs (projB N idx s) (projB N idx
              { s with net := s.net.erase (a, Message.lastVote au bn lv) })
            rw [hproj]
            exact StepG.deliverAcc a (Message.lastVote au bn lv)
              (projB N idx s) ha hmem
        | voted au v =>
            show StepG props accs (projB N idx s) (projB N idx
              { s with net := s.net.erase (a, Message.voted au v) })
            rw [hproj]
            exact StepG.deliverAcc a (Message.voted au v)
              (projB N idx s) ha hmem
        | beginBallot au B d =>
            have hj : B.number.ballot_id % N = idx := Option.some.inj hinst
            show StepG props accs (projB N idx s) (projB N idx
              (onBeginBallotM N a au B
                { s with net := s.net.erase (a, Message.beginBallot au B d) }))
            rw [proj_onBeginBallot N idx a au B _ hwf1 hj, hproj]
            exact StepG.deliverAcc a (Message.beginBallot au B d)
              (projB N idx s) ha hmem
        | success au d obn =>
            cases obn with
            | none => exact absurd hinst (by simp [msgInst])
            | some bn2 =>
                have hj : bn2.ballot_id % N = idx := Option.some.inj hinst
                show StepG props accs (projB N idx s) (projB N idx
                  (onSuccessLedgerM N a d bn2
                    { s with net :=
                      s.net.erase (a, Message.success au d (some bn2)) }))
                rw [proj_onSuccessLedger N idx a d bn2 _ hwf1 hj, hproj]
                exact StepG.deliverAcc a (Message.success au d none)
                  (projB N idx s) ha hmem
      · have hproj := projB_net_erase_ne N idx s (a, m) hm hinst
        have hstut : projB N idx (accRecvM N a m
            { s with net := s.net.erase (a, m) }) = projB N idx s := by
          cases m with
          | nextBallot au bn =>
              have hj : ¬ bn.ballot_id % N = idx :=
                fun hc => hinst (congrArg some hc)
              show projB N idx (onNextBallotM N a au bn
                { s with net :=
                  s.net.erase (a, Message.nextBallot au bn) }) = projB N idx s
              rw [proj_onNextBallot_ne N idx a au bn _ hwf1 h0 hj, hproj]
          | lastVote au bn lv => exact hproj
          | voted au v => exact hproj
          | beginBallot au B d =>
              have hj : ¬ B.number.ballot_id % N = idx :=
                fun hc => hinst (congrArg some hc)
              show projB N idx (onBeginBallotM N a au B
                { s with net :=
                  s.net.erase (a, Message.beginBallot au B d) }) = projB N idx s
              rw [proj_onBeginBallot_ne N idx a au B _ hwf1 h0 hj, hproj]
          | success au d obn =>
              cases obn with
              | none => exact hproj
              | some bn2 =>
                  have hj : ¬ bn2.ballot_id % N = idx :=
                    fun hc => hinst (congrArg some hc)
                  show projB N idx (onSuccessLedgerM N a d bn2
                    { s with net :=
                      s.net.erase (a, Message.success au d (some bn2)) }) =
                    projB N idx s
                  rw [proj_onSuccessLedger_ne N idx a d bn2 _ hwf1 h0 hj,
                    hproj]
        rw [hstut]
  | drop d m _ hm =>
      by_cases hinst : msgInst N m = some idx
      · have hproj := projB_net_erase N idx s (d, m) hm hinst
        have hmem := projNet_mem N idx s.net (d, m) hm hinst
        refine Relation.ReflTransGen.single ?_
        rw [hproj]
        exact StepG.drop (stripSuccess (d, m)).1 (stripSuccess (d, m)).2
          (projB N idx s) hmem
      · rw [projB_net_erase_ne N idx s (d, m) hm hinst]

/-- Helper: the projection of a reachable Multi-Paxos state is reachable in
the generalized basic system. -/
theorem reachableM_proj (props accs : Finset Int) (N idx : Int) (s : GStateM)
    (hN : 0 < N) (h0 : 0 ≤ idx) (h1 : idx < N)
    (h : ReachableM props accs N s) : ReachableG props accs (projB N idx s) := by
  induction h with
  | refl =>
      rw [projB_init]
      exact Relation.ReflTransGen.refl
  | tail hab hstep ih =>
      have hwf := wfM_reachable props accs N _ hN hab
      exact Relation.ReflTransGen.trans ih
        (stepM_sim props accs N idx _ _ hwf h0 h1 hstep)

/-- Helper: per-instance ledger agreement for reachable Multi-Paxos
states. -/
theorem ledgersM_agree (props accs : Finset Int) (N : Int) (s : GStateM)
    (hN : 0 < N) (idx : Int) (h0 : 0 ≤ idx) (h1 : idx < N)
    (h : ReachableM props accs N s) (x y : Int) (dx dy : Proposal)
    (hx : lget (s.ledger x) idx none = some dx)
    (hy : lget (s.ledger y) idx none = some dy) : dx = dy := by
  have hg := reachableM_proj props accs N idx s hN h0 h1 h
  exact ledgersG_agree props accs (projB N idx s) hg x y dx dy hx hy

/-- Helper: the demo basic run is reachable. -/
theorem demoB_reachable : ReachableB {0} {1} demoB7 := by
  have h1 : StepB {0} {1} initGB demoB1 :=
    @StepB.initiate {0} {1} 0 {1} initGB (by decide) (by decide) (by decide)
  have h2 : StepB {0} {1} demoB1 demoB2 :=
    @StepB.deliverAcc {0} {1} 1 (Message.nextBallot 0 ⟨0, 0⟩) demoB1
      (by decide) (by decide)
  have h3 : StepB {0} {1} demoB2 demoB3 :=
    @StepB.deliverProp {0} {1} 0 (Message.lastVote 1 ⟨0, 0⟩ none) demoB2
      (by decide) (by decide)
  have h4 : StepB {0} {1} demoB3 demoB4 :=
    @StepB.deliverAcc {0} {1} 1 (Message.beginBallot 0 demoBallot ⟨some 0⟩)
      demoB3 (by decide) (by decide)
  have h5 : StepB {0} {1} demoB4 demoB5 :=
    @StepB.deliverProp {0} {1} 0 (Message.voted 1 demoVote) demoB4
      (by decide) (by decide)
  have h6 : StepB {0} {1} demoB5 demoB6 :=
    @StepB.deliverProp {0} {1} 0 (Message.success 0 ⟨some 0⟩ none) demoB5
      (by decide) (by decide)
  have h7 : StepB {0} {1} demoB6 demoB7 :=
    @StepB.deliverAcc {0} {1} 1 (Message.success 0 ⟨some 0⟩ none) demoB6
      (by decide) (by decide)
  exact ((((((Relation.ReflTransGen.refl.tail h1).tail h2).tail h3).tail
    h4).tail h5).tail h6).tail h7

/-- Helper: the demo Multi-Paxos run is reachable. -/
theorem demoM_reachable : ReachableM {0} {1} 1 demoM7 := by
  have h1 : StepM {0} {1} 1 (initGM 1) demoM1 :=
    @StepM.initiate {0} {1} 1 0 {1} (initGM 1) (by decide) (by decide)
      (by decide)
  have h2 : StepM {0} {1} 1 demoM1 demoM2 :=
    @StepM.deliverAcc {0} {1} 1 1 (Message.nextBallot 0 ⟨0, 0⟩) demoM1
      (by decide) (by decide)
  have h3 : StepM {0} {1} 1 demoM2 demoM3 :=
    @StepM.deliverProp {0} {1} 1 0 (Message.lastVote 1 ⟨0, 0⟩ none) demoM2
      (by decide) (by decide)
  have h4 : StepM {0} {1} 1 demoM3 demoM4 :=
    @StepM.deliverAcc {0} {1} 1 1 (Message.beginBallot 0 demoBallot ⟨some 0⟩)
      demoM3 (by decide) (by decide)
  have h5 : StepM {0} {1} 1 demoM4 demoM5 :=
    @StepM.deliverProp {0} {1} 1 0 (Message.voted 1 demoVote) demoM4
      (by decide) (by decide)
  have h6 : StepM {0} {1} 1 demoM5 demoM6 :=
    @StepM.deliverProp {0} {1} 1 0 (Message.success 0 ⟨some 0⟩ (some ⟨0, 0⟩))
      demoM5 (by decide) (by decide)
  have h7 : StepM {0} {1} 1 demoM6 demoM7 :=
    @StepM.deliverAcc {0} {1} 1 1 (Message.success 0 ⟨some 0⟩ (some ⟨0, 0⟩))
      demoM6 (by decide) (by decide)
  exact ((((((Relation.ReflTransGen.refl.tail h1).tail h2).tail h3).tail
    h4).tail h5).tail h6).tail h7

/-- C1: agreement safety.  In the basic protocol, any two set ledgers of a
reachable assembly state hold the same decree; in Multi-Paxos, for every
instance `i`, any two agents whose `ledger[i]` is set hold the same decree —
so the final assertion of `Assembly.start` (exactly one distinct ledger,
resp. ledger vector) cannot fail. -/
theorem C1_agreement :
    (∀ (props accs : Finset Int) (s : GStateB) (x y : Int) (dx dy : Proposal),
      ReachableB props accs s → s.ledger x = some dx →
      s.ledger y = some dy → dx = dy) ∧
    (∀ (props accs : Finset Int) (N : Int) (s : GStateM) (i x y : Int)
      (dx dy : Proposal), 0 < N → 0 ≤ i → i < N →
      ReachableM props accs N s →
      lget (s.ledger x) i none = some dx →
      lget (s.ledger y) i none = some dy → dx = dy) := by
  constructor
  · intro props accs s x y dx dy h hx hy
    exact ledgers_agree props accs s h x y dx dy hx hy
  · intro props accs N s i x y dx dy hN h0 h1 h hx hy
    exact ledgersM_agree props accs N s hN i h0 h1 h x y dx dy hx hy

/-- C1 witness: both halves applied to the decided demo runs. -/
theorem C1_agreement_witness :
    Proposal.mk (some 0) = Proposal.mk (some 0) ∧
    Proposal.mk (some 0) = Proposal.mk (some 0) :=
  ⟨C1_agreement.1 {0} {1} demoB7 0 1 ⟨some 0⟩ ⟨some 0⟩ demoB_reachable
      (by decide) (by decide),
    C1_agreement.2 {0} {1} 1 demoM7 0 0 1 ⟨some 0⟩ ⟨some 0⟩ (by decide)
      (by decide) (by decide) demoM_reachable (by decide) (by decide)⟩

/-- Helper: when every response is null, the decree choice falls back to a
fresh proposal carrying the proposer id. -/
theorem chooseDecree_none (p : Int) (rs : List (Option Vote))
    (h : ∀ w : Vote, ¬ some w ∈ rs) : chooseDecree p rs = ⟨some p⟩ := by
  unfold chooseDecree
  rw [show rs.filterMap id = [] from List.filterMap_eq_nil_iff.2 (by
    intro a ha
    cases a with
    | none => rfl
    | some w => exact absurd ha (h w))]
  rfl

/-- C3: B3 decree choice.  In both protocols, when `on_lastvote` completes
the response collection for the current ballot, the ballot's decree is set to
`chooseDecree` — the decree of the highest-numbered non-null response, or a
fresh `Proposal(self.id)` when all responses are null — and `BeginBallot`
carrying that ballot and decree is sent to every quorum member. -/
theorem C3_b3_decree_choice :
    (∀ (p au : Int) (bn : BallotNumber) (lv : Option Vote) (s : GStateB)
      (B : Ballot),
      (s.prop p).last_tried = some B → bn = B.number →
      ((s.prop p).responses ++ [lv]).length = B.quorum.card →
      ((onLastVoteB p au bn lv s).prop p).last_tried =
        some { B with decree :=
          chooseDecree p ((s.prop p).responses ++ [lv]) } ∧
      (∀ dest ∈ B.quorum,
        (dest, Message.beginBallot p
          { B with decree := chooseDecree p ((s.prop p).responses ++ [lv]) }
          (chooseDecree p ((s.prop p).responses ++ [lv]))) ∈
          (onLastVoteB p au bn lv s).net)) ∧
    (∀ (p : Int) (rs : List (Option Vote)),
      ((∀ w : Vote, ¬ some w ∈ rs) → chooseDecree p rs = ⟨some p⟩) ∧
      (∀ v0 : Vote, some v0 ∈ rs → ∃ vm : Vote, some vm ∈ rs ∧
        chooseDecree p rs = vm.ballot.decree ∧
        ∀ w : Vote, some w ∈ rs →
          bnLe w.ballot.number vm.ballot.number = true)) ∧
    (∀ (N p au : Int) (bn : BallotNumber) (lv : Option Vote) (s : GStateM)
      (B : Ballot), WFM N s →
      lget (s.prop p).last_tried (bn.ballot_id % N) none = some B →
      bn = B.number →
      (lget (s.prop p).responses (bn.ballot_id % N) [] ++ [lv]).length =
        B.quorum.card →
      lget ((onLastVoteM p au bn lv s).prop p).last_tried
        (bn.ballot_id % N) none =
        some { B with decree := (chooseDecree p
          (lget (s.prop p).responses (bn.ballot_id % N) [] ++ [lv])) } ∧
      (∀ dest ∈ B.quorum,
        (dest, Message.beginBallot p
          { B with decree := (chooseDecree p
            (lget (s.prop p).responses (bn.ballot_id % N) [] ++ [lv])) }
          (chooseDecree p
            (lget (s.prop p).responses (bn.ballot_id % N) [] ++ [lv]))) ∈
          (onLastVoteM p au bn lv s).net)) := by
  refine ⟨?_, ?_, ?_⟩
  · intro p au bn lv s B hLT hm hfull
    simp only [onLastVoteB]
    rw [hLT]
    dsimp only
    rw [if_pos hm, if_pos hfull]
    constructor
    · dsimp only
      rw [if_pos rfl]
    · intro dest hdest
      dsimp only
      refine Multiset.mem_add.2 (Or.inr ?_)
      exact Multiset.mem_map.2 ⟨dest, Finset.mem_def.1 hdest, rfl⟩
  · intro p rs
    exact ⟨chooseDecree_none p rs, fun v0 hv0 => chooseDecree_mem p rs v0 hv0⟩
  · intro N p au bn lv s B hwf hent hm hfull
    have hj0 : 0 ≤ bn.ballot_id % N :=
      Int.emod_nonneg _ (by have := hwf.hN; omega)
    have hjN : bn.ballot_id % N < N := Int.emod_lt_of_pos _ hwf.hN
    simp only [onLastVoteM]
    rw [scanBallotM_eq N bn (s.prop p).last_tried hwf.hN (hwf.len_lt p)
      (fun i B2 ha hb hc => hwf.lt_residue p i B2 ha hb hc), hent]
    dsimp only
    rw [if_pos hm]
    dsimp only
    rw [if_pos hfull]
    constructor
    · dsimp only
      rw [if_pos rfl]
      dsimp only
      rw [lget_lset_self _ _ _ _ (by rw [hwf.len_lt p]; omega)]
    · intro dest hdest
      dsimp only
      refine Multiset.mem_add.2 (Or.inr ?_)
      exact Multiset.mem_map.2 ⟨dest, Finset.mem_def.1 hdest, rfl⟩

/-- C3 witness: completing the single-response collection in the demo states
sets the decree to the fresh proposal `Proposal(0)` (all responses null). -/
theorem C3_b3_decree_choice_witness :
    ((onLastVoteB 0 1 ⟨0, 0⟩ none demoB2).prop 0).last_tried =
      some ⟨⟨0, 0⟩, ⟨some 0⟩, {1}, ∅⟩ ∧
    chooseDecree 0 [] = ⟨some 0⟩ ∧
    lget ((onLastVoteM 0 1 ⟨0, 0⟩ none demoM2).prop 0).last_tried 0 none =
      some ⟨⟨0, 0⟩, ⟨some 0⟩, {1}, ∅⟩ := by
  refine ⟨?_, ?_, ?_⟩
  · have h := (C3_b3_decree_choice.1 0 1 ⟨0, 0⟩ none demoB2
      ⟨⟨0, 0⟩, ⟨none⟩, {1}, ∅⟩ (by decide) (by decide) (by decide)).1
    rw [h]
    decide
  · exact (C3_b3_decree_choice.2.1 0 []).1
      (fun w hw => (List.not_mem_nil _) hw)
  · have h := (C3_b3_decree_choice.2.2 1 0 1 ⟨0, 0⟩ none demoM2
      ⟨⟨0, 0⟩, ⟨none⟩, {1}, ∅⟩ (wfM_step {0} {1} 1 _ _
        (wfM_step {0} {1} 1 _ _ (wfM_init 1 (by decide))
          (@StepM.initiate {0} {1} 1 0 {1} (initGM 1) (by decide) (by decide)
            (by decide)))
        (@StepM.deliverAcc {0} {1} 1 1 (Message.nextBallot 0 ⟨0, 0⟩) demoM1
          (by decide) (by decide)))
      (by decide) (by decide) (by decide)).1
    rw [show ((0 : Int), (0 : Int)).1 % (1 : Int) = (0 : Int) from rfl] at h
    rw [h]
    decide

/-- C4: promise monotonicity.  In both protocols, processing any message
leaves an acceptor's `next_ballot` (per instance) unchanged or strictly
increases it; `on_nextballot` promises the ballot and replies
`LastVote{ballot_number, last_vote}` to the author exactly when `next_ballot`
is absent or the incoming number is strictly greater, and is a no-op
otherwise. -/
theorem C4_promise_monotonicity :
    (∀ (a2 : Int) (m : Message) (s : GStateB) (a : Int),
      ((accRecvB a2 m s).acc a).next_ballot = (s.acc a).next_ballot ∨
      ∃ bn2, ((accRecvB a2 m s).acc a).next_ballot = some bn2 ∧
        nbLtOpt (s.acc a).next_ballot bn2 = true) ∧
    (∀ (a au : Int) (bn : BallotNumber) (s : GStateB),
      (nbLtOpt (s.acc a).next_ballot bn = true →
        ((onNextBallotB a au bn s).acc a).next_ballot = some bn ∧
        (au, Message.lastVote a bn (s.acc a).last_vote) ∈
          (onNextBallotB a au bn s).net) ∧
      (nbLtOpt (s.acc a).next_ballot bn = false →
        onNextBallotB a au bn s = s) ∧
      (nbLtOpt (s.acc a).next_ballot bn = true ↔
        (s.acc a).next_ballot = none ∨
        ∃ b0, (s.acc a).next_ballot = some b0 ∧ bnLt b0 bn = true)) ∧
    (∀ (N a2 : Int) (m : Message) (s : GStateM) (a i : Int), WFM N s →
      0 ≤ i → i < N →
      lget ((accRecvM N a2 m s).acc a).next_ballot i none =
        lget (s.acc a).next_ballot i none ∨
      ∃ bn2, lget ((accRecvM N a2 m s).acc a).next_ballot i none =
        some bn2 ∧
        nbLtOpt (lget (s.acc a).next_ballot i none) bn2 = true) ∧
    (∀ (N a au : Int) (bn : BallotNumber) (s : GStateM), WFM N s →
      (nbLtOpt (lget (s.acc a).next_ballot (bn.ballot_id % N) none) bn =
          true →
        lget ((onNextBallotM N a au bn s).acc a).next_ballot
          (bn.ballot_id % N) none = some bn ∧
        (au, Message.lastVote a bn
          (lget (s.acc a).last_vote (bn.ballot_id % N) none)) ∈
          (onNextBallotM N a au bn s).net) ∧
      (nbLtOpt (lget (s.acc a).next_ballot (bn.ballot_id % N) none) bn =
          false → onNextBallotM N a au bn s = s)) := by
  refine ⟨?_, ?_, ?_, ?_⟩
  · intro a2 m s a
    cases m with
    | nextBallot au bn =>
        simp only [accRecvB, onNextBallotB]
        by_cases hg : nbLtOpt (s.acc a2).next_ballot bn = true
        · rw [if_pos hg]
          by_cases ha : a = a2
          · subst ha
            right
            refine ⟨bn, ?_, hg⟩
            dsimp only
            rw [if_pos rfl]
          · left
            dsimp only
            rw [if_neg ha]
        · rw [if_neg hg]
          left
          rfl
    | lastVote au bn lv => left; rfl
    | voted au v => left; rfl
    | beginBallot au B d =>
        simp only [accRecvB, onBeginBallotB]
        by_cases hg : (s.acc a2).next_ballot = some B.number
        · rw [if_pos hg]
          left
          dsimp only
          by_cases ha : a = a2
          · subst ha
            rw [if_pos rfl]
          · rw [if_neg ha]
        · rw [if_neg hg]
          left
          rfl
    | success au d obn => left; rfl
  · intro a au bn s
    refine ⟨?_, ?_, nbLtOpt_true _ _⟩
    · intro hg
      simp only [onNextBallotB]
      rw [if_pos hg]
      constructor
      · dsimp only
        rw [if_pos rfl]
      · dsimp only
        refine Multiset.mem_add.2 (Or.inr ?_)
        exact Multiset.mem_singleton.2 rfl
    · intro hg
      simp only [onNextBallotB]
      rw [if_neg (by rw [hg]; exact Bool.false_ne_true)]
  · intro N a2 m s a i hwf h0 h1
    cases m with
    | nextBallot au bn =>
        have hj0 : 0 ≤ bn.ballot_id % N :=
          Int.emod_nonneg _ (by have := hwf.hN; omega)
        have hjN : bn.ballot_id % N < N := Int.emod_lt_of_pos _ hwf.hN
        simp only [accRecvM, onNextBallotM]
        by_cases hg :
            nbLtOpt (lget (s.acc a2).next_ballot (bn.ballot_id % N) none)
              bn = true
        · rw [if_pos hg]
          by_cases ha : a = a2
          · subst ha
            by_cases hi : i = bn.ballot_id % N
            · subst hi
              right
              refine ⟨bn, ?_, hg⟩
              dsimp only
              rw [if_pos rfl]
              dsimp only
              rw [lget_lset_self _ _ _ _ (by rw [hwf.len_nb a]; omega)]
            · left
              dsimp only
              rw [if_pos rfl]
              dsimp only
              rw [lget_lset_ne _ _ _ _ _ (by omega)]
          · left
            dsimp only
            rw [if_neg ha]
        · rw [if_neg hg]
          left
          rfl
    | lastVote au bn lv => left; rfl
    | voted au v => left; rfl
    | beginBallot au B d =>
        simp only [accRecvM, onBeginBallotM]
        by_cases hg : lget (s.acc a2).next_ballot
            (B.number.ballot_id % N) none = some B.number
        · rw [if_pos hg]
          left
          dsimp only
          by_cases ha : a = a2
          · subst ha
            rw [if_pos rfl]
          · rw [if_neg ha]
        · rw [if_neg hg]
          left
          rfl
    | success au d obn =>
        cases obn with
        | none => left; rfl
        | some bn2 => left; rfl
  · intro N a au bn s hwf
    have hj0 : 0 ≤ bn.ballot_id % N :=
      Int.emod_nonneg _ (by have := hwf.hN; omega)
    have hjN : bn.ballot_id % N < N := Int.emod_lt_of_pos _ hwf.hN
    constructor
    · intro hg
      simp only [onNextBallotM]
      rw [if_pos hg]
      constructor
      · dsimp only
        rw [if_pos rfl]
        dsimp only
        rw [lget_lset_self _ _ _ _ (by rw [hwf.len_nb a]; omega)]
      · dsimp only
        refine Multiset.mem_add.2 (Or.inr ?_)
        exact Multiset.mem_singleton.2 rfl
    · intro hg
      simp only [onNextBallotM]
      rw [if_neg (by rw [hg]; exact Bool.false_ne_true)]

/-- C4 witness: the first promise of the demo runs. -/
theorem C4_promise_monotonicity_witness :
    ((onNextBallotB 1 0 ⟨0, 0⟩ initGB).acc 1).next_ballot = some ⟨0, 0⟩ ∧
    (0, Message.lastVote 1 ⟨0, 0⟩ none) ∈
      (onNextBallotB 1 0 ⟨0, 0⟩ initGB).net ∧
    lget ((onNextBallotM 1 1 0 ⟨0, 0⟩ (initGM 1)).acc 1).next_ballot 0 none =
      some ⟨0, 0⟩ := by
  refine ⟨?_, ?_, ?_⟩
  · exact ((C4_promise_monotonicity.2.1 1 0 ⟨0, 0⟩ initGB).1 (by decide)).1
  · exact ((C4_promise_monotonicity.2.1 1 0 ⟨0, 0⟩ initGB).1 (by decide)).2
  · exact ((C4_promise_monotonicity.2.2.2 1 1 0 ⟨0, 0⟩ (initGM 1)
      (wfM_init 1 (by decide))).1 (by decide)).1

/-- C5: vote discipline.  In both protocols, `on_beginballot` casts the vote
`Vote(B, self)` and replies `Voted` to the author exactly when the incoming
ballot number equals the promised `next_ballot` of the ballot's instance, and
is a no-op otherwise; consequently, in every reachable state an acceptor's
recorded `last_vote` has a ballot number at most its `next_ballot`. -/
theorem C5_vote_discipline :
    (∀ (a au : Int) (B : Ballot) (s : GStateB),
      ((s.acc a).next_ballot = some B.number →
        ((onBeginBallotB a au B s).acc a).last_vote = some ⟨B, a⟩ ∧
        (au, Message.voted a ⟨B, a⟩) ∈ (onBeginBallotB a au B s).net) ∧
      (¬ (s.acc a).next_ballot = some B.number →
        onBeginBallotB a au B s = s)) ∧
    (∀ (props accs : Finset Int) (s : GStateB) (a : Int) (v : Vote),
      ReachableB props accs s → (s.acc a).last_vote = some v →
      ∃ nb, (s.acc a).next_ballot = some nb ∧
        bnLe v.ballot.number nb = true) ∧
    (∀ (N a au : Int) (B : Ballot) (s : GStateM), WFM N s →
      (lget (s.acc a).next_ballot (B.number.ballot_id % N) none =
          some B.number →
        lget ((onBeginBallotM N a au B s).acc a).last_vote
          (B.number.ballot_id % N) none = some ⟨B, a⟩ ∧
        (au, Message.voted a ⟨B, a⟩) ∈ (onBeginBallotM N a au B s).net) ∧
      (¬ lget (s.acc a).next_ballot (B.number.ballot_id % N) none =
          some B.number → onBeginBallotM N a au B s = s)) ∧
    (∀ (props accs : Finset Int) (N : Int) (s : GStateM) (a i : Int)
      (v : Vote), 0 < N → 0 ≤ i → i < N → ReachableM props accs N s →
      lget (s.acc a).last_vote i none = some v →
      ∃ nb, lget (s.acc a).next_ballot i none = some nb ∧
        bnLe v.ballot.number nb = true) := by
  refine ⟨?_, ?_, ?_, ?_⟩
  · intro a au B s
    constructor
    · intro hg
      simp only [onBeginBallotB]
      rw [if_pos hg]
      constructor
      · dsimp only
        rw [if_pos rfl]
      · dsimp only
        refine Multiset.mem_add.2 (Or.inr ?_)
        exact Multiset.mem_singleton.2 rfl
    · intro hg
      simp only [onBeginBallotB]
      rw [if_neg hg]
  · intro props accs s a v h hlv
    have hinv := invB_reachable props accs s h
    have hv := hinv.acc_lastvote_vote a v hlv
    exact hinv.acc_vote_le_nb a v.ballot.number v.ballot.decree hv
  · intro N a au B s hwf
    have hj0 : 0 ≤ B.number.ballot_id % N :=
      Int.emod_nonneg _ (by have := hwf.hN; omega)
    have hjN : B.number.ballot_id % N < N := Int.emod_lt_of_pos _ hwf.hN
    constructor
    · intro hg
      simp only [onBeginBallotM]
      rw [if_pos hg]
      constructor
      · dsimp only
        rw [if_pos rfl]
        dsimp only
        rw [lget_lset_self _ _ _ _ (by rw [hwf.len_lv a]; omega)]
      · dsimp only
        refine Multiset.mem_add.2 (Or.inr ?_)
        exact Multiset.mem_singleton.2 rfl
    · intro hg
      simp only [onBeginBallotM]
      rw [if_neg hg]
  · intro props accs N s a i v hN h0 h1 h hlv
    have hg := reachableM_proj props accs N i s hN h0 h1 h
    have hinv := invG_reachable props accs (projB N i s) hg
    have hlv2 : ((projB N i s).acc a).last_vote = some v := hlv
    have hv := hinv.acc_lastvote_vote a v hlv2
    exact hinv.acc_vote_le_nb a v.ballot.number v.ballot.decree hv

/-- C5 witness: the demo vote and the resulting reachable-state bound. -/
theorem C5_vote_discipline_witness :
    ((onBeginBallotB 1 0 demoBallot demoB3).acc 1).last_vote =
      some demoVote ∧
    (∃ nb, (demoB7.acc 1).next_ballot = some nb ∧
      bnLe demoVote.ballot.number nb = true) ∧
    lget ((onBeginBallotM 1 1 0 demoBallot demoM3).acc 1).last_vote 0 none =
      some demoVote ∧
    (∃ nb, lget (demoM7.acc 1).next_ballot 0 none = some nb ∧
      bnLe demoVote.ballot.number nb = true) := by
  refine ⟨?_, ?_, ?_, ?_⟩
  · exact ((C5_vote_discipline.1 1 0 demoBallot demoB3).1 (by decide)).1
  · exact C5_vote_discipline.2.1 {0} {1} demoB7 1 demoVote demoB_reachable
      (by decide)
  · exact ((C5_vote_discipline.2.2.1 1 1 0 demoBallot demoM3
      (wfM_reachable {0} {1} 1 demoM3 (by decide) (by
        exact ((Relation.ReflTransGen.refl.tail
          (@StepM.initiate {0} {1} 1 0 {1} (initGM 1) (by decide) (by decide)
            (by decide))).tail
          (@StepM.deliverAcc {0} {1} 1 1 (Message.nextBallot 0 ⟨0, 0⟩) demoM1
            (by decide) (by decide))).tail
          (@StepM.deliverProp {0} {1} 1 0 (Message.lastVote 1 ⟨0, 0⟩ none)
            demoM2 (by decide) (by decide))))).1 (by decide)).1
  · exact C5_vote_discipline.2.2.2 {0} {1} 1 demoM7 1 0 demoVote (by decide)
      (by decide) (by decide) demoM_reachable (by decide)

end Paxos
